import Mathlib

/-!
Verification of the 1CClientBankExchange codec (`client_bank_exchange_1c.py`).

Python text is modelled as `List Char`.  Python's `re`-based line scanning
(patterns of the shape `^key=(.*?)$` with `re.MULTILINE`) is modelled by
splitting a span on the newline character and matching line prefixes, and the
two anchored-section patterns (`СекцияДокумент(.*?)КонецДокумента`,
`СекцияРасчСчет(.*?)КонецРасчСчет`, both `re.S`) are modelled by repeated
leftmost substring search, which agrees with `re.findall` for these
literal-bracket patterns.
-/

deriving instance DecidableEq for Except

namespace CBE

/-- Python text is a list of characters. -/
abbrev Str := List Char

/-- The newline character, the line separator of the format. -/
def nlc : Char := Char.ofNat 10

/-- Helper for `splitOnC`: prepend a character to the first piece. -/
def consHead (x : Char) : List Str → List Str
  | [] => [[x]]
  | h :: t => (x :: h) :: t

/-- Split a string on a separator character; mirrors Python's
`str.split(sep)` (and line splitting for `sep = newline`). -/
def splitOnC (c : Char) : Str → List Str
  | [] => [[]]
  | x :: xs => if x = c then [] :: splitOnC c xs else consHead x (splitOnC c xs)

/-- Join pieces with a separator character; mirrors `sep.join(pieces)`. -/
def joinC (c : Char) : List Str → Str
  | [] => []
  | [l] => l
  | l :: ls => l ++ c :: joinC c ls

theorem joinC_cons (c : Char) (l : Str) (ls : List Str) (h : ls ≠ []) :
    joinC c (l :: ls) = l ++ c :: joinC c ls := by
  cases ls with
  | nil => exact absurd rfl h
  | cons a as => rfl

theorem splitOnC_ne_nil (c : Char) (s : Str) : splitOnC c s ≠ [] := by
  induction s with
  | nil => simp [splitOnC]
  | cons x xs ih =>
    by_cases hx : x = c
    · simp [splitOnC, hx]
    · simp only [splitOnC, if_neg hx]
      cases hsp : splitOnC c xs with
      | nil => simp [consHead]
      | cons h t => simp [consHead]

theorem consHead_append (x : Char) (A B : List Str) (h : A ≠ []) :
    consHead x (A ++ B) = consHead x A ++ B := by
  cases A with
  | nil => exact absurd rfl h
  | cons a as => simp [consHead]

/-- Splitting distributes over a separator occurrence. -/
theorem splitOnC_append_cons (c : Char) (s t : Str) :
    splitOnC c (s ++ c :: t) = splitOnC c s ++ splitOnC c t := by
  induction s with
  | nil => simp [splitOnC]
  | cons x xs ih =>
    by_cases hx : x = c
    · simp [splitOnC, hx, ih]
    · simp only [List.cons_append, splitOnC, if_neg hx, List.append_eq, ih]
      exact consHead_append x _ _ (splitOnC_ne_nil c xs)

theorem splitOnC_of_not_mem {c : Char} {s : Str} (h : c ∉ s) :
    splitOnC c s = [s] := by
  induction s with
  | nil => rfl
  | cons x xs ih =>
    have hx : x ≠ c := fun hxe => h (hxe ▸ List.mem_cons_self x xs)
    have hxs : c ∉ xs := fun hm => h (List.mem_cons_of_mem x hm)
    simp [splitOnC, hx, ih hxs, consHead]

/-- Splitting a join yields the concatenation of the splits of the pieces. -/
theorem splitOnC_joinC_flatten (c : Char) (ls : List Str) (h : ls ≠ []) :
    splitOnC c (joinC c ls) = (ls.map (splitOnC c)).flatten := by
  induction ls with
  | nil => exact absurd rfl h
  | cons l rest ih =>
    cases rest with
    | nil => simp [joinC]
    | cons r rs =>
      rw [joinC_cons c l (r :: rs) (by simp), splitOnC_append_cons,
        ih (by simp)]
      simp

/-- Splitting inverts joining when the pieces are separator-free. -/
theorem splitOnC_joinC (c : Char) (ls : List Str) (h : ls ≠ [])
    (hfree : ∀ l ∈ ls, c ∉ l) : splitOnC c (joinC c ls) = ls := by
  induction ls with
  | nil => exact absurd rfl h
  | cons l rest ih =>
    cases rest with
    | nil => simpa [joinC] using splitOnC_of_not_mem (hfree l (by simp))
    | cons r rs =>
      rw [joinC_cons c l (r :: rs) (by simp), splitOnC_append_cons,
        splitOnC_of_not_mem (hfree l (by simp)),
        ih (by simp) (fun x hx => hfree x (List.mem_cons_of_mem l hx))]
      rfl

/-- Membership in a join: characters of the pieces or the separator. -/
theorem mem_joinC {x c : Char} {ls : List Str} (h : x ∈ joinC c ls) :
    x = c ∨ ∃ l ∈ ls, x ∈ l := by
  induction ls with
  | nil => simp [joinC] at h
  | cons l rest ih =>
    cases rest with
    | nil =>
      simp only [joinC] at h
      exact Or.inr ⟨l, by simp, h⟩
    | cons r rs =>
      rw [joinC_cons c l (r :: rs) (by simp)] at h
      rcases List.mem_append.mp h with hl | hr
      · exact Or.inr ⟨l, by simp, hl⟩
      · rcases List.mem_cons.mp hr with hc | hrest
        · exact Or.inl hc
        · rcases ih hrest with hc | ⟨p, hp, hxp⟩
          · exact Or.inl hc
          · exact Or.inr ⟨p, List.mem_cons_of_mem l hp, hxp⟩

/-- Leftmost occurrence search, splitting into the part before the first
occurrence of `p` and the part after it; models the scanning step of
`re.findall` for a literal pattern.  Returns `none` when `p` does not occur. -/
def splitFirst (p : Str) : Str → Option (Str × Str)
  | [] => if p = [] then some ([], []) else none
  | c :: cs =>
    if p.isPrefixOf (c :: cs) then some ([], (c :: cs).drop p.length)
    else (splitFirst p cs).map fun ab => (c :: ab.1, ab.2)

theorem splitFirst_eq_some {p s a b : Str} (h : splitFirst p s = some (a, b)) :
    s = a ++ p ++ b := by
  induction s generalizing a b with
  | nil =>
    by_cases hp : p = []
    · simp only [splitFirst, if_pos hp, Option.some.injEq, Prod.mk.injEq] at h
      simp [hp, ← h.1, ← h.2]
    · simp [splitFirst, hp] at h
  | cons c cs ih =>
    by_cases hpre : p.isPrefixOf (c :: cs)
    · simp only [splitFirst, if_pos hpre, Option.some.injEq, Prod.mk.injEq] at h
      have hpfx : p <+: c :: cs := List.isPrefixOf_iff_prefix.mp hpre
      obtain ⟨t, ht⟩ := hpfx
      have hbt : b = t := by rw [← h.2, ← ht, List.drop_left]
      rw [← h.1, hbt, ← ht]
      simp
    · simp only [splitFirst, if_neg hpre] at h
      cases hrec : splitFirst p cs with
      | none => rw [hrec] at h; simp at h
      | some ab =>
        rw [hrec] at h
        simp only [Option.map_some', Option.some.injEq] at h
        have hcs := ih (a := ab.1) (b := ab.2) (by rw [hrec])
        have ha : c :: ab.1 = a := congrArg Prod.fst h
        have hb : ab.2 = b := congrArg Prod.snd h
        rw [← ha, ← hb]
        simp [hcs]

theorem splitFirst_isSome_iff {p s : Str} :
    (splitFirst p s).isSome = true ↔ p <:+: s := by
  induction s with
  | nil =>
    by_cases hp : p = []
    · simp [splitFirst, hp]
    · simp [splitFirst, hp, hp ∘ List.eq_nil_of_infix_nil]
  | cons c cs ih =>
    by_cases hpre : p.isPrefixOf (c :: cs)
    · simp only [splitFirst, if_pos hpre, Option.isSome_some, true_iff]
      exact List.infix_cons_iff.mpr (Or.inl (List.isPrefixOf_iff_prefix.mp hpre))
    · simp only [splitFirst, if_neg hpre, Option.isSome_map']
      rw [ih, List.infix_cons_iff]
      have : ¬ p <+: c :: cs := fun hcc => hpre (List.isPrefixOf_iff_prefix.mpr hcc)
      tauto

theorem splitFirst_eq_none_iff {p s : Str} :
    splitFirst p s = none ↔ ¬ p <:+: s := by
  rw [← splitFirst_isSome_iff]
  cases splitFirst p s <;> simp

theorem splitFirst_length {p s a b : Str} (h : splitFirst p s = some (a, b)) :
    s.length = a.length + p.length + b.length := by
  rw [splitFirst_eq_some h]
  simp [Nat.add_assoc]

/-- A prefix that avoids the character `c` stops before `c`. -/
theorem prefix_append_cons {p l rest : Str} {c : Char} (hc : c ∉ p)
    (h : p <+: l ++ c :: rest) : p <+: l := by
  rcases le_or_lt p.length l.length with hle | hlt
  · exact (List.isPrefix_append_of_length hle).mp (by simpa using h)
  · exfalso
    have h1 : l ++ [c] <+: l ++ c :: rest := by
      have he : l ++ c :: rest = (l ++ [c]) ++ rest := by simp
      rw [he]
      exact List.prefix_append _ _
    have h2 : l ++ [c] <+: p :=
      List.prefix_of_prefix_length_le h1 h (by simp; omega)
    exact hc (h2.sublist.subset (by simp))

/-- An occurrence of a `c`-free pattern in `l ++ c :: rest` lies wholly inside
`l` or wholly inside `rest`. -/
theorem infix_append_cons {p l rest : Str} {c : Char} (hc : c ∉ p)
    (h : p <:+: l ++ c :: rest) : p <:+: l ∨ p <:+: rest := by
  induction l with
  | nil =>
    rcases List.infix_cons_iff.mp (by simpa using h) with hpfx | hrest
    · rcases List.prefix_cons_iff.mp hpfx with hnil | ⟨t, hpt, _⟩
      · exact Or.inl (hnil ▸ List.nil_infix)
      · exact absurd (hpt ▸ List.mem_cons_self c t) hc
    · exact Or.inr hrest
  | cons x l' ih =>
    rcases List.infix_cons_iff.mp (by simpa using h) with hpfx | htail
    · exact Or.inl (prefix_append_cons hc hpfx).isInfix
    · rcases ih htail with h1 | h2
      · exact Or.inl (List.infix_cons h1)
      · exact Or.inr h2

/-- Leftmost search finds the occurrence sitting right after a separator
that closes an occurrence-free region. -/
theorem splitFirst_boundary {p w : Str} {c : Char} (hc : c ∉ p) (hp : p ≠ [])
    (hinf : ¬ p <:+: (w ++ [c])) (z : Str) :
    splitFirst p (w ++ c :: (p ++ z)) = some (w ++ [c], z) := by
  induction w with
  | nil =>
    have hnpfx : ¬ p.isPrefixOf (c :: (p ++ z)) := by
      rw [List.isPrefixOf_iff_prefix]
      intro hpre
      rcases List.prefix_cons_iff.mp hpre with hnil | ⟨t, hpt, _⟩
      · exact hp hnil
      · exact hc (hpt ▸ List.mem_cons_self c t)
    have step2 : splitFirst p (p ++ z) = some ([], z) := by
      cases hpz : p ++ z with
      | nil => exact absurd (List.append_eq_nil.mp hpz).1 hp
      | cons q qs =>
        have hself2 : p.isPrefixOf (q :: qs) = true := by
          rw [← hpz, List.isPrefixOf_iff_prefix]
          exact List.prefix_append _ _
        simp only [splitFirst, if_pos hself2]
        rw [← hpz, List.drop_left]
    have step1 : splitFirst p ([] ++ c :: (p ++ z)) =
        (splitFirst p (p ++ z)).map fun ab => (c :: ab.1, ab.2) := by
      rw [List.nil_append]
      have hunf : splitFirst p (c :: (p ++ z)) =
          if p.isPrefixOf (c :: (p ++ z)) then
            some ([], (c :: (p ++ z)).drop p.length)
          else (splitFirst p (p ++ z)).map fun ab => (c :: ab.1, ab.2) := rfl
      rw [hunf, if_neg hnpfx]
    rw [step1, step2]
    rfl
  | cons x w' ih =>
    have hnpfx : ¬ p.isPrefixOf (x :: (w' ++ c :: (p ++ z))) = true := by
      rw [List.isPrefixOf_iff_prefix]
      intro hpre
      have : p <+: (x :: w') := prefix_append_cons hc (by simpa using hpre)
      exact hinf (this.trans (List.prefix_append _ _)).isInfix
    have hinf' : ¬ p <:+: (w' ++ [c]) := fun hci => hinf (List.infix_cons hci)
    have step : splitFirst p ((x :: w') ++ c :: (p ++ z)) =
        (splitFirst p (w' ++ c :: (p ++ z))).map fun ab => (x :: ab.1, ab.2) := by
      have hx : (x :: w') ++ c :: (p ++ z) = x :: (w' ++ c :: (p ++ z)) := rfl
      rw [hx]
      have hunf : splitFirst p (x :: (w' ++ c :: (p ++ z))) =
          if p.isPrefixOf (x :: (w' ++ c :: (p ++ z))) then
            some ([], (x :: (w' ++ c :: (p ++ z))).drop p.length)
          else (splitFirst p (w' ++ c :: (p ++ z))).map fun ab => (x :: ab.1, ab.2) := rfl
      rw [hunf, if_neg hnpfx]
    rw [step, ih hinf']
    rfl

/-- Decimal digit character for a value below ten. -/
def digitChar (k : Nat) : Char := Char.ofNat (48 + k)

/-- Numeric value of a decimal digit character. -/
def dval (c : Char) : Nat := c.toNat - 48

/-- Auxiliary fuelled digit renderer (structural, so that the kernel can
evaluate it). -/
def natCharsAux : Nat → Nat → Str
  | 0, _ => []
  | fuel + 1, n => if n = 0 then [] else natCharsAux fuel (n / 10) ++ [digitChar (n % 10)]

/-- Decimal rendering of a natural number, as Python's `str(int)`. -/
def natChars (n : Nat) : Str :=
  if n = 0 then [digitChar 0] else natCharsAux n n

theorem natCharsAux_eq_digits {fuel n : Nat} (h : n ≤ fuel) :
    natCharsAux fuel n = (Nat.digits 10 n).reverse.map digitChar := by
  induction fuel generalizing n with
  | zero =>
    have hn : n = 0 := Nat.le_zero.mp h
    rw [hn]
    simp [natCharsAux]
  | succ f ih =>
    by_cases hn : n = 0
    · rw [hn]
      simp [natCharsAux]
    · rw [natCharsAux, if_neg hn]
      have hdiv : n / 10 ≤ f := by
        have h1 : n / 10 < n := Nat.div_lt_self (Nat.pos_of_ne_zero hn) (by omega)
        omega
      rw [ih hdiv, Nat.digits_def' (by omega : (1:Nat) < 10) (Nat.pos_of_ne_zero hn)]
      simp

/-- The fuelled renderer agrees with the `Nat.digits`-based description. -/
theorem natChars_eq_digits (n : Nat) :
    natChars n = if n = 0 then [digitChar 0]
      else (Nat.digits 10 n).reverse.map digitChar := by
  unfold natChars
  by_cases hn : n = 0
  · rw [if_pos hn, if_pos hn]
  · rw [if_neg hn, if_neg hn, natCharsAux_eq_digits (Nat.le_refl n)]

/-- Numeric value of a digit string, as Python's `int(str)` on digits. -/
def natOfDigits (s : Str) : Nat := s.foldl (fun a c => 10 * a + dval c) 0

theorem dval_digitChar {k : Nat} (h : k < 10) : dval (digitChar k) = k := by
  interval_cases k <;> decide

theorem isDigit_digitChar {k : Nat} (h : k < 10) : (digitChar k).isDigit = true := by
  interval_cases k <;> decide

theorem digitChar_ne_dot {k : Nat} (h : k < 10) : digitChar k ≠ '.' := by
  interval_cases k <;> decide

theorem digitChar_ne_colon {k : Nat} (h : k < 10) : digitChar k ≠ ':' := by
  interval_cases k <;> decide

theorem natChars_all_digit (n : Nat) : ∀ c ∈ natChars n, c.isDigit = true := by
  intro c hc
  rw [natChars_eq_digits] at hc
  by_cases hn : n = 0
  · rw [if_pos hn] at hc
    simp only [List.mem_singleton] at hc
    rw [hc]
    exact isDigit_digitChar (by omega)
  · rw [if_neg hn] at hc
    obtain ⟨d, hd, hdc⟩ := List.mem_map.mp hc
    have : d < 10 := Nat.digits_lt_base (by omega) (List.mem_reverse.mp hd)
    rw [← hdc]
    exact isDigit_digitChar this

theorem natChars_not_mem {n : Nat} {c : Char} (h : c.isDigit = false) :
    c ∉ natChars n := by
  intro hc
  rw [natChars_all_digit n c hc] at h
  exact absurd h (by simp)

theorem natOfDigits_append_single (s : Str) (c : Char) :
    natOfDigits (s ++ [c]) = 10 * natOfDigits s + dval c := by
  unfold natOfDigits
  rw [List.foldl_append]
  rfl

theorem natOfDigits_rev_map (ds : List Nat) (h : ∀ d ∈ ds, d < 10) :
    natOfDigits (ds.reverse.map digitChar) = Nat.ofDigits 10 ds := by
  induction ds with
  | nil => rfl
  | cons d rest ih =>
    rw [List.reverse_cons, List.map_append, List.map_singleton,
      natOfDigits_append_single, ih (fun x hx => h x (List.mem_cons_of_mem d hx)),
      dval_digitChar (h d (List.mem_cons_self d rest)), Nat.ofDigits_cons]
    omega

theorem natOfDigits_natChars (n : Nat) : natOfDigits (natChars n) = n := by
  rw [natChars_eq_digits]
  by_cases hn : n = 0
  · rw [if_pos hn, hn]; rfl
  · rw [if_neg hn, natOfDigits_rev_map _ (fun d hd => Nat.digits_lt_base (by omega) hd),
      Nat.ofDigits_digits]

theorem natChars_length {n : Nat} (hn : n ≠ 0) :
    (natChars n).length = Nat.log 10 n + 1 := by
  rw [natChars_eq_digits, if_neg hn]
  simp [Nat.digits_len 10 n (by omega) hn]

/-- Infix search through a join of pattern-free lines finds nothing when the
pattern avoids the separator. -/
theorem not_infix_joinC {p : Str} {c : Char} {ls : List Str} (hc : c ∉ p)
    (hfree : ∀ l ∈ ls, ¬ p <:+: l) (hne : p ≠ []) : ¬ p <:+: joinC c ls := by
  induction ls with
  | nil =>
    intro h
    exact hne (List.eq_nil_of_infix_nil h)
  | cons l rest ih =>
    cases rest with
    | nil => simpa [joinC] using hfree l (by simp)
    | cons r rs =>
      rw [joinC_cons c l (r :: rs) (by simp)]
      intro h
      rcases infix_append_cons hc h with h1 | h2
      · exact hfree l (by simp) h1
      · exact ih (fun x hx => hfree x (List.mem_cons_of_mem l hx)) h2

/-- Observable failures of the Python code.  `formatError` stands for the
exceptions raised while decoding a value token (`ValueError` from `strptime`,
`InvalidOperation` from the `Decimal` constructor); `schemaViolation` and
`validationError` for the two `ValueError`s raised with an explanatory message
by `Field.get_value_from_text` and `Section.to_text`; `bankInvariantError` for
the `ValueError` of `Statement.from_documents`; `typeError` for the
`TypeError` that `re.findall`, `min` and `max` raise on `None` inputs;
`attributeError` for attribute access on `None`. -/
inductive Err where
  | formatError : Err
  | schemaViolation : Str → Err
  | validationError : Str → Err
  | bankInvariantError : Err
  | typeError : Err
  | attributeError : Err
deriving DecidableEq

/-- A calendar date as Python's `datetime.date` (proleptic Gregorian). -/
structure PyDate where
  year : Nat
  month : Nat
  day : Nat
deriving DecidableEq

/-- A time of day as Python's `datetime.time`. -/
structure PyTime where
  hour : Nat
  minute : Nat
  second : Nat
deriving DecidableEq

def isLeap (y : Nat) : Bool := (y % 4 == 0 && y % 100 != 0) || y % 400 == 0

def daysInMonth (y m : Nat) : Nat :=
  if m = 2 then (if isLeap y then 29 else 28)
  else if m = 4 ∨ m = 6 ∨ m = 9 ∨ m = 11 then 30
  else 31

/-- Validity of a date per the `datetime.date` constructor. -/
def PyDate.validB (d : PyDate) : Bool :=
  1 ≤ d.year && d.year ≤ 9999 && 1 ≤ d.month && d.month ≤ 12 &&
    1 ≤ d.day && d.day ≤ daysInMonth d.year d.month

def PyDate.Valid (d : PyDate) : Prop := d.validB = true

/-- Validity of a time per the `datetime.time`-backed constructor. -/
def PyTime.validB (t : PyTime) : Bool :=
  t.hour ≤ 23 && t.minute ≤ 59 && t.second ≤ 59

def PyTime.Valid (t : PyTime) : Prop := t.validB = true

/-- Lexicographic comparison of dates, as Python compares `date` objects. -/
def dateLeB (a b : PyDate) : Bool :=
  if a.year ≠ b.year then a.year < b.year
  else if a.month ≠ b.month then a.month < b.month
  else a.day ≤ b.day

def dateLtB (a b : PyDate) : Bool := dateLeB a b && a ≠ b

/-- Zero-padded two-digit rendering, as `%d` / `%m` / `%H` / `%M` / `%S`. -/
def pad2 (n : Nat) : Str := if n < 10 then digitChar 0 :: natChars n else natChars n

/-- Accept one or two digit characters, as the `strptime` patterns for
day, month, hour, minute and second do before range checking. -/
def twoDigits? (s : Str) : Option Nat :=
  match s with
  | [a] => if a.isDigit then some (dval a) else none
  | [a, b] => if a.isDigit && b.isDigit then some (10 * dval a + dval b) else none
  | _ => none

/-- Accept exactly four digit characters, as the `strptime` pattern for `%Y`. -/
def fourDigits? (s : Str) : Option Nat :=
  match s with
  | [a, b, c, d] =>
    if a.isDigit && b.isDigit && c.isDigit && d.isDigit then
      some (1000 * dval a + 100 * dval b + 10 * dval c + dval d)
    else none
  | _ => none

/-- Assemble a date from the three parsed components, validating as the
`datetime.date` constructor does; any earlier component failure is a
`ValueError`, modelled as `formatError`. -/
def dmy2date : Option Nat → Option Nat → Option Nat → Except Err (Option PyDate)
  | some d, some m, some y =>
    if (PyDate.mk y m d).validB then .ok (some ⟨y, m, d⟩)
    else .error .formatError
  | _, _, _ => .error .formatError

/-- Assemble a time from the three parsed components, with range checks. -/
def hms2time : Option Nat → Option Nat → Option Nat → Except Err (Option PyTime)
  | some h, some m, some sec =>
    if (PyTime.mk h m sec).validB then .ok (some ⟨h, m, sec⟩)
    else .error .formatError
  | _, _, _ => .error .formatError

namespace Cast

/-- Model of `Cast.str_to_date`: empty input gives `None`; otherwise
`datetime.strptime(obj, DATE_FORMAT).date()` with format `%d.%m.%Y`,
whose compiled pattern accepts one or two digits for the day and the month
and exactly four digits for the year, then validates the calendar date;
every rejection is a `ValueError`, modelled as `formatError`. -/
def str_to_date (s : Str) : Except Err (Option PyDate) :=
  if s = [] then .ok none
  else
    match splitOnC '.' s with
    | [ds, ms, ys] => dmy2date (twoDigits? ds) (twoDigits? ms) (fourDigits? ys)
    | _ => .error .formatError

/-- Model of `Cast.str_to_time`: empty input gives `None`; otherwise
`datetime.strptime(obj, TIME_FORMAT).time()` with format `%H:%M:%S`,
accepting one or two digits per component, with range checks. -/
def str_to_time (s : Str) : Except Err (Option PyTime) :=
  if s = [] then .ok none
  else
    match splitOnC ':' s with
    | [hs, ms, ss] => hms2time (twoDigits? hs) (twoDigits? ms) (twoDigits? ss)
    | _ => .error .formatError

/-- Model of `Cast.date_to_str`: `None` renders as the empty string, else
`obj.strftime('%d.%m.%Y')` (day and month zero-padded to two digits, the
year unpadded, as glibc renders `%Y`). -/
def date_to_str (o : Option PyDate) : Str :=
  match o with
  | none => []
  | some d => pad2 d.day ++ '.' :: (pad2 d.month ++ '.' :: natChars d.year)

/-- Model of `Cast.time_to_str`: `None` renders as the empty string, else
`obj.strftime('%H:%M:%S')`. -/
def time_to_str (o : Option PyTime) : Str :=
  match o with
  | none => []
  | some t => pad2 t.hour ++ ':' :: (pad2 t.minute ++ ':' :: pad2 t.second)

end Cast

theorem joinC_consHead (c : Char) (x : Char) (ls : List Str) (h : ls ≠ []) :
    joinC c (consHead x ls) = x :: joinC c ls := by
  cases ls with
  | nil => exact absurd rfl h
  | cons l rest =>
    cases rest with
    | nil => rfl
    | cons r rs => rfl

theorem joinC_splitOnC (c : Char) (s : Str) : joinC c (splitOnC c s) = s := by
  induction s with
  | nil => rfl
  | cons x xs ih =>
    by_cases hx : x = c
    · rw [hx]
      show joinC c (splitOnC c (c :: xs)) = c :: xs
      have : splitOnC c (c :: xs) = [] :: splitOnC c xs := by
        simp [splitOnC]
      rw [this, joinC_cons c [] _ (splitOnC_ne_nil c xs), List.nil_append, ih]
    · have : splitOnC c (x :: xs) = consHead x (splitOnC c xs) := by
        simp [splitOnC, hx]
      rw [this, joinC_consHead c x _ (splitOnC_ne_nil c xs), ih]

theorem splitOnC_free (c : Char) (s : Str) : ∀ l ∈ splitOnC c s, c ∉ l := by
  induction s with
  | nil =>
    intro l hl
    simp only [splitOnC, List.mem_singleton] at hl
    simp [hl]
  | cons x xs ih =>
    intro l hl
    by_cases hx : x = c
    · rw [show splitOnC c (x :: xs) = [] :: splitOnC c xs by simp [splitOnC, hx]] at hl
      rcases List.mem_cons.mp hl with h1 | h2
      · simp [h1]
      · exact ih l h2
    · rw [show splitOnC c (x :: xs) = consHead x (splitOnC c xs) by
        simp [splitOnC, hx]] at hl
      cases hsp : splitOnC c xs with
      | nil => exact absurd hsp (splitOnC_ne_nil c xs)
      | cons h0 t =>
        rw [hsp] at hl
        simp only [consHead] at hl
        rcases List.mem_cons.mp hl with h1 | h2
        · rw [h1]
          intro hmem
          rcases List.mem_cons.mp hmem with hxc | hh0
          · exact hx hxc.symm
          · exact ih h0 (hsp ▸ List.mem_cons_self h0 t) hh0
        · exact ih l (hsp ▸ List.mem_cons_of_mem h0 h2)

/-- Splitting recognises exactly the three-piece separator-free decompositions. -/
theorem splitOnC_eq_three_iff {c : Char} {s x y z : Str} :
    splitOnC c s = [x, y, z] ↔
      s = x ++ c :: (y ++ c :: z) ∧ c ∉ x ∧ c ∉ y ∧ c ∉ z := by
  constructor
  · intro h
    refine ⟨?_, ?_, ?_, ?_⟩
    · have := joinC_splitOnC c s
      rw [h] at this
      simpa [joinC] using this.symm
    · exact splitOnC_free c s x (h ▸ by simp)
    · exact splitOnC_free c s y (h ▸ by simp)
    · exact splitOnC_free c s z (h ▸ by simp)
  · rintro ⟨rfl, hx, hy, hz⟩
    have : x ++ c :: (y ++ c :: z) = joinC c [x, y, z] := by simp [joinC]
    rw [this, splitOnC_joinC c [x, y, z] (by simp)]
    intro l hl
    rcases List.mem_cons.mp hl with h1 | hl2
    · exact h1 ▸ hx
    · rcases List.mem_cons.mp hl2 with h2 | hl3
      · exact h2 ▸ hy
      · rcases List.mem_cons.mp hl3 with h3 | hl4
        · exact h3 ▸ hz
        · simp at hl4

theorem pad2_all_digit {n : Nat} : ∀ c ∈ pad2 n, c.isDigit = true := by
  intro c hc
  unfold pad2 at hc
  by_cases hn : n < 10
  · rw [if_pos hn] at hc
    rcases List.mem_cons.mp hc with h1 | h2
    · rw [h1]; exact isDigit_digitChar (by omega)
    · exact natChars_all_digit n c h2
  · rw [if_neg hn] at hc
    exact natChars_all_digit n c hc

theorem natChars_single {n : Nat} (h : n < 10) : natChars n = [digitChar n] := by
  rw [natChars_eq_digits]
  by_cases hn : n = 0
  · rw [if_pos hn, hn]
  · rw [if_neg hn, Nat.digits_def' (by omega : (1:Nat) < 10) (by omega),
      Nat.mod_eq_of_lt h, Nat.div_eq_of_lt h]
    simp

theorem natChars_pair {n : Nat} (h1 : 10 ≤ n) (h2 : n < 100) :
    ∃ a b, natChars n = [a, b] := by
  have hlen : (natChars n).length = 2 := by
    rw [natChars_length (by omega)]
    have : Nat.log 10 n = 1 :=
      Nat.log_eq_of_pow_le_of_lt_pow (by simpa using h1) (by simpa using h2)
    omega
  cases hs : natChars n with
  | nil => rw [hs] at hlen; simp at hlen
  | cons a t =>
    cases t with
    | nil => rw [hs] at hlen; simp at hlen
    | cons b t2 =>
      cases t2 with
      | nil => exact ⟨a, b, rfl⟩
      | cons x t3 => rw [hs] at hlen; simp at hlen

theorem twoDigits_pad2 {n : Nat} (h : n < 100) : twoDigits? (pad2 n) = some n := by
  by_cases hn : n < 10
  · rw [pad2, if_pos hn, natChars_single hn]
    show twoDigits? [digitChar 0, digitChar n] = some n
    rw [twoDigits?]
    rw [if_pos (by rw [isDigit_digitChar (by omega), isDigit_digitChar (by omega)]; rfl)]
    rw [dval_digitChar (by omega), dval_digitChar (by omega)]
    norm_num
  · obtain ⟨a, b, hab⟩ := natChars_pair (by omega) h
    rw [pad2, if_neg hn, hab]
    have hda : a.isDigit = true := natChars_all_digit n a (hab ▸ by simp)
    have hdb : b.isDigit = true := natChars_all_digit n b (hab ▸ by simp)
    have hval : natOfDigits [a, b] = n := by rw [← hab, natOfDigits_natChars]
    have : natOfDigits [a, b] = 10 * dval a + dval b := by
      show ((10 * (10 * 0 + dval a)) + dval b) = 10 * dval a + dval b
      omega
    rw [twoDigits?, if_pos (by rw [hda, hdb]; rfl), ← this, hval]

theorem natChars_quad {n : Nat} (h1 : 1000 ≤ n) (h2 : n < 10000) :
    ∃ a b c d, natChars n = [a, b, c, d] := by
  have hlen : (natChars n).length = 4 := by
    rw [natChars_length (by omega)]
    have : Nat.log 10 n = 3 :=
      Nat.log_eq_of_pow_le_of_lt_pow (by simpa using h1) (by simpa using h2)
    omega
  cases hs : natChars n with
  | nil => rw [hs] at hlen; simp at hlen
  | cons a t =>
    cases t with
    | nil => rw [hs] at hlen; simp at hlen
    | cons b t2 =>
      cases t2 with
      | nil => rw [hs] at hlen; simp at hlen
      | cons c t3 =>
        cases t3 with
        | nil => rw [hs] at hlen; simp at hlen
        | cons d t4 =>
          cases t4 with
          | nil => exact ⟨a, b, c, d, rfl⟩
          | cons x t5 => rw [hs] at hlen; simp at hlen

theorem fourDigits_natChars {n : Nat} (h1 : 1000 ≤ n) (h2 : n ≤ 9999) :
    fourDigits? (natChars n) = some n := by
  obtain ⟨a, b, c, d, habcd⟩ := natChars_quad h1 (by omega)
  rw [habcd]
  have hda : a.isDigit = true := natChars_all_digit n a (habcd ▸ by simp)
  have hdb : b.isDigit = true := natChars_all_digit n b (habcd ▸ by simp)
  have hdc : c.isDigit = true := natChars_all_digit n c (habcd ▸ by simp)
  have hdd : d.isDigit = true := natChars_all_digit n d (habcd ▸ by simp)
  have hval : natOfDigits [a, b, c, d] = n := by rw [← habcd, natOfDigits_natChars]
  have hexp : natOfDigits [a, b, c, d] =
      1000 * dval a + 100 * dval b + 10 * dval c + dval d := by
    show 10 * (10 * (10 * (10 * 0 + dval a) + dval b) + dval c) + dval d = _
    omega
  rw [fourDigits?, if_pos (by rw [hda, hdb, hdc, hdd]; rfl), ← hexp, hval]

theorem daysInMonth_le (y m : Nat) : daysInMonth y m ≤ 31 := by
  unfold daysInMonth
  split
  · split <;> omega
  · split <;> omega

/-- Decoding inverts encoding for valid dates with a four-digit year. -/
theorem str_to_date_round {d : PyDate} (hv : d.Valid) (hy : 1000 ≤ d.year) :
    Cast.str_to_date (Cast.date_to_str (some d)) = .ok (some d) := by
  have hvb := hv
  unfold PyDate.Valid PyDate.validB at hvb
  simp only [Bool.and_eq_true, decide_eq_true_eq] at hvb
  obtain ⟨⟨⟨⟨⟨hy1, hy2⟩, hm1⟩, hm2⟩, hd1⟩, hd2⟩ := hvb
  have hday : d.day < 100 := by
    have := daysInMonth_le d.year d.month
    omega
  have hmon : d.month < 100 := by omega
  have hsplit : splitOnC '.' (Cast.date_to_str (some d)) =
      [pad2 d.day, pad2 d.month, natChars d.year] := by
    apply splitOnC_eq_three_iff.mpr
    refine ⟨rfl, ?_, ?_, ?_⟩
    · intro hmem
      have := pad2_all_digit '.' hmem
      simp at this
    · intro hmem
      have := pad2_all_digit '.' hmem
      simp at this
    · exact natChars_not_mem (by decide)
  have hne : Cast.date_to_str (some d) ≠ [] := by
    unfold Cast.date_to_str
    intro habs
    have h2 := (List.append_eq_nil.mp habs).2
    simp at h2
  rw [Cast.str_to_date, if_neg hne, hsplit]
  show dmy2date (twoDigits? (pad2 d.day)) (twoDigits? (pad2 d.month))
      (fourDigits? (natChars d.year)) = .ok (some d)
  rw [twoDigits_pad2 hday, twoDigits_pad2 hmon, fourDigits_natChars hy hy2, dmy2date]
  have heta : PyDate.mk d.year d.month d.day = d := rfl
  rw [heta, if_pos (show d.validB = true from hv)]

/-- Decoding inverts encoding for valid times. -/
theorem str_to_time_round {t : PyTime} (hv : t.Valid) :
    Cast.str_to_time (Cast.time_to_str (some t)) = .ok (some t) := by
  have hvb := hv
  unfold PyTime.Valid PyTime.validB at hvb
  simp only [Bool.and_eq_true, decide_eq_true_eq] at hvb
  obtain ⟨⟨hh, hm⟩, hs⟩ := hvb
  have hsplit : splitOnC ':' (Cast.time_to_str (some t)) =
      [pad2 t.hour, pad2 t.minute, pad2 t.second] := by
    have h3 : Cast.time_to_str (some t) = joinC ':' [pad2 t.hour, pad2 t.minute, pad2 t.second] := by
      simp [Cast.time_to_str, joinC]
    rw [h3, splitOnC_joinC ':' _ (by simp)]
    intro l hl hcmem
    have hdig : (':' : Char).isDigit = true := by
      rcases List.mem_cons.mp hl with h1 | hl2
      · exact pad2_all_digit _ (h1 ▸ hcmem)
      · rcases List.mem_cons.mp hl2 with h2 | hl3
        · exact pad2_all_digit _ (h2 ▸ hcmem)
        · rcases List.mem_cons.mp hl3 with h3 | hl4
          · exact pad2_all_digit _ (h3 ▸ hcmem)
          · simp at hl4
    simp at hdig
  have hne : Cast.time_to_str (some t) ≠ [] := by
    unfold Cast.time_to_str
    intro habs
    have h2 := (List.append_eq_nil.mp habs).2
    simp at h2
  rw [Cast.str_to_time, if_neg hne, hsplit]
  show hms2time (twoDigits? (pad2 t.hour)) (twoDigits? (pad2 t.minute))
      (twoDigits? (pad2 t.second)) = .ok (some t)
  rw [twoDigits_pad2 (show t.hour < 100 by omega),
    twoDigits_pad2 (show t.minute < 100 by omega),
    twoDigits_pad2 (show t.second < 100 by omega), hms2time]
  have heta : PyTime.mk t.hour t.minute t.second = t := rfl
  rw [heta, if_pos (show t.validB = true from hv)]

/-- All characters are decimal digits. -/
def DigitStr (s : Str) : Prop := ∀ c ∈ s, c.isDigit = true

theorem twoDigits_eq_some_iff {s : Str} {n : Nat} :
    twoDigits? s = some n ↔
      (s.length = 1 ∨ s.length = 2) ∧ DigitStr s ∧ natOfDigits s = n := by
  cases s with
  | nil => simp [twoDigits?]
  | cons a t =>
    cases t with
    | nil =>
      by_cases ha : a.isDigit = true
      · simp only [twoDigits?, if_pos ha, Option.some.injEq]
        constructor
        · intro h
          refine ⟨Or.inl rfl, fun c hc => ?_, ?_⟩
          · rw [List.mem_singleton.mp hc]; exact ha
          · show 10 * 0 + dval a = n
            omega
        · rintro ⟨_, _, hval⟩
          have : natOfDigits [a] = 10 * 0 + dval a := rfl
          omega
      · simp only [twoDigits?, if_neg ha]
        constructor
        · intro h; simp at h
        · rintro ⟨_, hd, _⟩
          exact absurd (hd a (by simp)) ha
    | cons b t2 =>
      cases t2 with
      | nil =>
        by_cases hab : (a.isDigit && b.isDigit) = true
        · have ⟨ha, hb⟩ := Bool.and_eq_true_iff.mp hab
          simp only [twoDigits?, if_pos hab, Option.some.injEq]
          constructor
          · intro h
            refine ⟨Or.inr rfl, fun c hc => ?_, ?_⟩
            · rcases List.mem_cons.mp hc with h1 | h2
              · rw [h1]; exact ha
              · rw [List.mem_singleton.mp h2]; exact hb
            · show 10 * (10 * 0 + dval a) + dval b = n
              omega
          · rintro ⟨_, _, hval⟩
            have : natOfDigits [a, b] = 10 * (10 * 0 + dval a) + dval b := rfl
            omega
        · simp only [twoDigits?, if_neg hab]
          constructor
          · intro h; simp at h
          · rintro ⟨_, hd, _⟩
            exact absurd (by rw [hd a (by simp), hd b (by simp)]; rfl) hab
      | cons x t3 =>
        simp only [twoDigits?]
        constructor
        · intro h; simp at h
        · rintro ⟨hlen, _, _⟩
          rcases hlen with h1 | h1 <;> simp at h1

theorem fourDigits_eq_some_iff {s : Str} {n : Nat} :
    fourDigits? s = some n ↔ s.length = 4 ∧ DigitStr s ∧ natOfDigits s = n := by
  constructor
  · intro h
    match s, h with
    | [a, b, c, d], h =>
      by_cases habcd : (a.isDigit && b.isDigit && c.isDigit && d.isDigit) = true
      · simp only [fourDigits?, if_pos habcd, Option.some.injEq] at h
        simp only [Bool.and_eq_true] at habcd
        refine ⟨rfl, fun x hx => ?_, ?_⟩
        · rcases List.mem_cons.mp hx with h1 | hx2
          · rw [h1]; exact habcd.1.1.1
          · rcases List.mem_cons.mp hx2 with h2 | hx3
            · rw [h2]; exact habcd.1.1.2
            · rcases List.mem_cons.mp hx3 with h3 | hx4
              · rw [h3]; exact habcd.1.2
              · rw [List.mem_singleton.mp hx4]; exact habcd.2
        · have : natOfDigits [a, b, c, d] =
              10 * (10 * (10 * (10 * 0 + dval a) + dval b) + dval c) + dval d := rfl
          omega
      · rw [fourDigits?, if_neg habcd] at h
        simp at h
  · rintro ⟨hlen, hd, hval⟩
    match s, hlen with
    | [a, b, c, d], _ =>
      have ha := hd a (by simp)
      have hb := hd b (by simp)
      have hc := hd c (by simp)
      have hdd := hd d (by simp)
      rw [fourDigits?, if_pos (by rw [ha, hb, hc, hdd]; rfl)]
      have : natOfDigits [a, b, c, d] =
          10 * (10 * (10 * (10 * 0 + dval a) + dval b) + dval c) + dval d := rfl
      rw [Option.some.injEq]
      omega

/-- The acceptance language of the date decoder, stated structurally:
a day of one or two digits, a month of one or two digits, a year of exactly
four digits, dot-separated, forming a valid calendar date. -/
def LenientDate (s : Str) : Prop :=
  ∃ dd mm yy : Str,
    s = dd ++ '.' :: (mm ++ '.' :: yy) ∧
    (dd.length = 1 ∨ dd.length = 2) ∧ DigitStr dd ∧
    (mm.length = 1 ∨ mm.length = 2) ∧ DigitStr mm ∧
    yy.length = 4 ∧ DigitStr yy ∧
    (PyDate.mk (natOfDigits yy) (natOfDigits mm) (natOfDigits dd)).Valid

/-- The acceptance language of the time decoder. -/
def LenientTime (s : Str) : Prop :=
  ∃ hh mm ss : Str,
    s = hh ++ ':' :: (mm ++ ':' :: ss) ∧
    (hh.length = 1 ∨ hh.length = 2) ∧ DigitStr hh ∧
    (mm.length = 1 ∨ mm.length = 2) ∧ DigitStr mm ∧
    (ss.length = 1 ∨ ss.length = 2) ∧ DigitStr ss ∧
    (PyTime.mk (natOfDigits hh) (natOfDigits mm) (natOfDigits ss)).Valid

theorem digitStr_not_mem {s : Str} {c : Char} (hd : DigitStr s)
    (hc : c.isDigit = false) : c ∉ s := by
  intro hm
  rw [hd c hm] at hc
  exact absurd hc (by simp)

theorem str_to_date_ok_some_iff {s : Str} {dte : PyDate} :
    Cast.str_to_date s = .ok (some dte) ↔
      ∃ dd mm yy : Str,
        s = dd ++ '.' :: (mm ++ '.' :: yy) ∧
        twoDigits? dd = some dte.day ∧ twoDigits? mm = some dte.month ∧
        fourDigits? yy = some dte.year ∧ dte.Valid := by
  constructor
  · intro h
    have hs0 : s ≠ [] := by
      intro habs
      rw [Cast.str_to_date, if_pos habs] at h
      simp at h
    rw [Cast.str_to_date, if_neg hs0] at h
    rcases hsp : splitOnC '.' s with _ | ⟨p1, t1⟩
    · exact absurd hsp (splitOnC_ne_nil '.' s)
    rcases t1 with _ | ⟨p2, t2⟩
    · rw [hsp] at h; simp at h
    rcases t2 with _ | ⟨p3, t3⟩
    · rw [hsp] at h; simp at h
    rcases t3 with _ | ⟨p4, t4⟩
    · rw [hsp] at h
      replace h : dmy2date (twoDigits? p1) (twoDigits? p2) (fourDigits? p3) =
          .ok (some dte) := h
      rcases h2d : twoDigits? p1 with _ | dv
      · rw [h2d] at h
        replace h : (Except.error Err.formatError : Except Err (Option PyDate)) =
            .ok (some dte) := h
        exact absurd h (by simp)
      rcases h2m : twoDigits? p2 with _ | mv
      · rw [h2d, h2m] at h
        replace h : (Except.error Err.formatError : Except Err (Option PyDate)) =
            .ok (some dte) := h
        exact absurd h (by simp)
      rcases h4y : fourDigits? p3 with _ | yv
      · rw [h2d, h2m, h4y] at h
        replace h : (Except.error Err.formatError : Except Err (Option PyDate)) =
            .ok (some dte) := h
        exact absurd h (by simp)
      rw [h2d, h2m, h4y] at h
      replace h : (if (PyDate.mk yv mv dv).validB then
          (.ok (some (PyDate.mk yv mv dv)) : Except Err (Option PyDate))
        else .error .formatError) = .ok (some dte) := h
      by_cases hvb : (PyDate.mk yv mv dv).validB = true
      · rw [if_pos hvb, Except.ok.injEq, Option.some.injEq] at h
        obtain ⟨hs, _, _, _⟩ := splitOnC_eq_three_iff.mp hsp
        exact ⟨p1, p2, p3, hs, by rw [← h, h2d], by rw [← h, h2m],
          by rw [← h, h4y], h ▸ hvb⟩
      · rw [if_neg hvb] at h
        simp at h
    · rw [hsp] at h; simp at h
  · rintro ⟨dd, mm, yy, rfl, h2d, h2m, h4y, hv⟩
    have hddd := (twoDigits_eq_some_iff.mp h2d).2.1
    have hdmm := (twoDigits_eq_some_iff.mp h2m).2.1
    have hdyy := (fourDigits_eq_some_iff.mp h4y).2.1
    have hs0 : dd ++ '.' :: (mm ++ '.' :: yy) ≠ [] := by simp
    have hsp : splitOnC '.' (dd ++ '.' :: (mm ++ '.' :: yy)) = [dd, mm, yy] :=
      splitOnC_eq_three_iff.mpr ⟨rfl, digitStr_not_mem hddd (by decide),
        digitStr_not_mem hdmm (by decide), digitStr_not_mem hdyy (by decide)⟩
    rw [Cast.str_to_date, if_neg hs0, hsp]
    show dmy2date (twoDigits? dd) (twoDigits? mm) (fourDigits? yy) = .ok (some dte)
    rw [h2d, h2m, h4y]
    show (if (PyDate.mk dte.year dte.month dte.day).validB then
        (.ok (some (PyDate.mk dte.year dte.month dte.day)) : Except Err (Option PyDate))
      else .error .formatError) = .ok (some dte)
    have heta : PyDate.mk dte.year dte.month dte.day = dte := rfl
    rw [heta, if_pos (show dte.validB = true from hv)]

theorem str_to_time_ok_some_iff {s : Str} {t : PyTime} :
    Cast.str_to_time s = .ok (some t) ↔
      ∃ hh mm ss : Str,
        s = hh ++ ':' :: (mm ++ ':' :: ss) ∧
        twoDigits? hh = some t.hour ∧ twoDigits? mm = some t.minute ∧
        twoDigits? ss = some t.second ∧ t.Valid := by
  constructor
  · intro h
    have hs0 : s ≠ [] := by
      intro habs
      rw [Cast.str_to_time, if_pos habs] at h
      simp at h
    rw [Cast.str_to_time, if_neg hs0] at h
    rcases hsp : splitOnC ':' s with _ | ⟨p1, t1⟩
    · exact absurd hsp (splitOnC_ne_nil ':' s)
    rcases t1 with _ | ⟨p2, t2⟩
    · rw [hsp] at h; simp at h
    rcases t2 with _ | ⟨p3, t3⟩
    · rw [hsp] at h; simp at h
    rcases t3 with _ | ⟨p4, t4⟩
    · rw [hsp] at h
      replace h : hms2time (twoDigits? p1) (twoDigits? p2) (twoDigits? p3) =
          .ok (some t) := h
      rcases h2h : twoDigits? p1 with _ | hv2
      · rw [h2h] at h
        replace h : (Except.error Err.formatError : Except Err (Option PyTime)) =
            .ok (some t) := h
        exact absurd h (by simp)
      rcases h2m : twoDigits? p2 with _ | mv
      · rw [h2h, h2m] at h
        replace h : (Except.error Err.formatError : Except Err (Option PyTime)) =
            .ok (some t) := h
        exact absurd h (by simp)
      rcases h2s : twoDigits? p3 with _ | sv
      · rw [h2h, h2m, h2s] at h
        replace h : (Except.error Err.formatError : Except Err (Option PyTime)) =
            .ok (some t) := h
        exact absurd h (by simp)
      rw [h2h, h2m, h2s] at h
      replace h : (if (PyTime.mk hv2 mv sv).validB then
          (.ok (some (PyTime.mk hv2 mv sv)) : Except Err (Option PyTime))
        else .error .formatError) = .ok (some t) := h
      by_cases hvb : (PyTime.mk hv2 mv sv).validB = true
      · rw [if_pos hvb, Except.ok.injEq, Option.some.injEq] at h
        obtain ⟨hs, _, _, _⟩ := splitOnC_eq_three_iff.mp hsp
        exact ⟨p1, p2, p3, hs, by rw [← h, h2h], by rw [← h, h2m],
          by rw [← h, h2s], h ▸ hvb⟩
      · rw [if_neg hvb] at h
        simp at h
    · rw [hsp] at h; simp at h
  · rintro ⟨hh, mm, ss, rfl, h2h, h2m, h2s, hv⟩
    have hdhh := (twoDigits_eq_some_iff.mp h2h).2.1
    have hdmm := (twoDigits_eq_some_iff.mp h2m).2.1
    have hdss := (twoDigits_eq_some_iff.mp h2s).2.1
    have hs0 : hh ++ ':' :: (mm ++ ':' :: ss) ≠ [] := by simp
    have hsp : splitOnC ':' (hh ++ ':' :: (mm ++ ':' :: ss)) = [hh, mm, ss] :=
      splitOnC_eq_three_iff.mpr ⟨rfl, digitStr_not_mem hdhh (by decide),
        digitStr_not_mem hdmm (by decide), digitStr_not_mem hdss (by decide)⟩
    rw [Cast.str_to_time, if_neg hs0, hsp]
    show hms2time (twoDigits? hh) (twoDigits? mm) (twoDigits? ss) = .ok (some t)
    rw [h2h, h2m, h2s]
    show (if (PyTime.mk t.hour t.minute t.second).validB then
        (.ok (some (PyTime.mk t.hour t.minute t.second)) : Except Err (Option PyTime))
      else .error .formatError) = .ok (some t)
    have heta : PyTime.mk t.hour t.minute t.second = t := rfl
    rw [heta, if_pos (show t.validB = true from hv)]

theorem dmy2date_trichotomy (a b c : Option Nat) :
    (∃ dte, dmy2date a b c = .ok (some dte)) ∨
      dmy2date a b c = .error .formatError := by
  rcases a with _ | av
  · exact Or.inr (by rfl)
  rcases b with _ | bv
  · exact Or.inr (by rfl)
  rcases c with _ | cv
  · exact Or.inr (by rfl)
  by_cases hvb : (PyDate.mk cv bv av).validB = true
  · refine Or.inl ⟨⟨cv, bv, av⟩, ?_⟩
    show (if (PyDate.mk cv bv av).validB then
        (.ok (some (PyDate.mk cv bv av)) : Except Err (Option PyDate))
      else .error .formatError) = _
    rw [if_pos hvb]
  · refine Or.inr ?_
    show (if (PyDate.mk cv bv av).validB then
        (.ok (some (PyDate.mk cv bv av)) : Except Err (Option PyDate))
      else .error .formatError) = _
    rw [if_neg hvb]

theorem hms2time_trichotomy (a b c : Option Nat) :
    (∃ t, hms2time a b c = .ok (some t)) ∨
      hms2time a b c = .error .formatError := by
  rcases a with _ | av
  · exact Or.inr (by rfl)
  rcases b with _ | bv
  · exact Or.inr (by rfl)
  rcases c with _ | cv
  · exact Or.inr (by rfl)
  by_cases hvb : (PyTime.mk av bv cv).validB = true
  · refine Or.inl ⟨⟨av, bv, cv⟩, ?_⟩
    show (if (PyTime.mk av bv cv).validB then
        (.ok (some (PyTime.mk av bv cv)) : Except Err (Option PyTime))
      else .error .formatError) = _
    rw [if_pos hvb]
  · refine Or.inr ?_
    show (if (PyTime.mk av bv cv).validB then
        (.ok (some (PyTime.mk av bv cv)) : Except Err (Option PyTime))
      else .error .formatError) = _
    rw [if_neg hvb]

/-- The date decoder either reports absence on the empty string, or accepts,
or fails with a format error. -/
theorem str_to_date_trichotomy (s : Str) :
    (s = [] ∧ Cast.str_to_date s = .ok none) ∨
      (∃ dte, Cast.str_to_date s = .ok (some dte)) ∨
      Cast.str_to_date s = .error .formatError := by
  by_cases hs0 : s = []
  · exact Or.inl ⟨hs0, by rw [Cast.str_to_date, if_pos hs0]⟩
  refine Or.inr ?_
  rw [Cast.str_to_date, if_neg hs0]
  rcases splitOnC '.' s with _ | ⟨p1, _ | ⟨p2, _ | ⟨p3, _ | ⟨p4, t4⟩⟩⟩⟩
  · exact Or.inr rfl
  · exact Or.inr rfl
  · exact Or.inr rfl
  · suffices h : (∃ dte, dmy2date (twoDigits? p1) (twoDigits? p2) (fourDigits? p3) =
        .ok (some dte)) ∨
        dmy2date (twoDigits? p1) (twoDigits? p2) (fourDigits? p3) =
          .error .formatError by
      exact h
    exact dmy2date_trichotomy _ _ _
  · exact Or.inr rfl

theorem str_to_time_trichotomy (s : Str) :
    (s = [] ∧ Cast.str_to_time s = .ok none) ∨
      (∃ t, Cast.str_to_time s = .ok (some t)) ∨
      Cast.str_to_time s = .error .formatError := by
  by_cases hs0 : s = []
  · exact Or.inl ⟨hs0, by rw [Cast.str_to_time, if_pos hs0]⟩
  refine Or.inr ?_
  rw [Cast.str_to_time, if_neg hs0]
  rcases splitOnC ':' s with _ | ⟨p1, _ | ⟨p2, _ | ⟨p3, _ | ⟨p4, t4⟩⟩⟩⟩
  · exact Or.inr rfl
  · exact Or.inr rfl
  · exact Or.inr rfl
  · suffices h : (∃ t, hms2time (twoDigits? p1) (twoDigits? p2) (twoDigits? p3) =
        .ok (some t)) ∨
        hms2time (twoDigits? p1) (twoDigits? p2) (twoDigits? p3) =
          .error .formatError by
      exact h
    exact hms2time_trichotomy _ _ _
  · exact Or.inr rfl

theorem str_to_date_ok_some_iff_lenient {s : Str} :
    (∃ dte, Cast.str_to_date s = .ok (some dte)) ↔ LenientDate s := by
  constructor
  · rintro ⟨dte, h⟩
    obtain ⟨dd, mm, yy, rfl, h2d, h2m, h4y, hv⟩ := str_to_date_ok_some_iff.mp h
    obtain ⟨hl1, hd1, hv1⟩ := twoDigits_eq_some_iff.mp h2d
    obtain ⟨hl2, hd2, hv2⟩ := twoDigits_eq_some_iff.mp h2m
    obtain ⟨hl3, hd3, hv3⟩ := fourDigits_eq_some_iff.mp h4y
    refine ⟨dd, mm, yy, rfl, hl1, hd1, hl2, hd2, hl3, hd3, ?_⟩
    rw [hv1, hv2, hv3]
    have : PyDate.mk dte.year dte.month dte.day = dte := rfl
    rw [this]
    exact hv
  · rintro ⟨dd, mm, yy, rfl, hl1, hd1, hl2, hd2, hl3, hd3, hv⟩
    refine ⟨⟨natOfDigits yy, natOfDigits mm, natOfDigits dd⟩, ?_⟩
    exact str_to_date_ok_some_iff.mpr ⟨dd, mm, yy, rfl,
      twoDigits_eq_some_iff.mpr ⟨hl1, hd1, rfl⟩,
      twoDigits_eq_some_iff.mpr ⟨hl2, hd2, rfl⟩,
      fourDigits_eq_some_iff.mpr ⟨hl3, hd3, rfl⟩, hv⟩

theorem str_to_time_ok_some_iff_lenient {s : Str} :
    (∃ t, Cast.str_to_time s = .ok (some t)) ↔ LenientTime s := by
  constructor
  · rintro ⟨t, h⟩
    obtain ⟨hh, mm, ss, rfl, h2h, h2m, h2s, hv⟩ := str_to_time_ok_some_iff.mp h
    obtain ⟨hl1, hd1, hv1⟩ := twoDigits_eq_some_iff.mp h2h
    obtain ⟨hl2, hd2, hv2⟩ := twoDigits_eq_some_iff.mp h2m
    obtain ⟨hl3, hd3, hv3⟩ := twoDigits_eq_some_iff.mp h2s
    refine ⟨hh, mm, ss, rfl, hl1, hd1, hl2, hd2, hl3, hd3, ?_⟩
    rw [hv1, hv2, hv3]
    have : PyTime.mk t.hour t.minute t.second = t := rfl
    rw [this]
    exact hv
  · rintro ⟨hh, mm, ss, rfl, hl1, hd1, hl2, hd2, hl3, hd3, hv⟩
    refine ⟨⟨natOfDigits hh, natOfDigits mm, natOfDigits ss⟩, ?_⟩
    exact str_to_time_ok_some_iff.mpr ⟨hh, mm, ss, rfl,
      twoDigits_eq_some_iff.mpr ⟨hl1, hd1, rfl⟩,
      twoDigits_eq_some_iff.mpr ⟨hl2, hd2, rfl⟩,
      twoDigits_eq_some_iff.mpr ⟨hl3, hd3, rfl⟩, hv⟩

/-- A finite Python `Decimal` value: a sign, a coefficient and an exponent,
denoting `(-1)^neg * coeff * 10^exp`.  `Decimal('-0')` is `⟨true, 0, 0⟩`. -/
structure Dec where
  neg : Bool
  coeff : Nat
  exp : Int
deriving DecidableEq

/-- Plain-notation decimals: the ones `str(Decimal)` renders without an
exponent part (exponent non-positive, adjusted exponent at least `-6`). -/
def Dec.Plain (a : Dec) : Prop :=
  a.exp ≤ 0 ∧ -6 < a.exp + ((natChars a.coeff).length : Int)

instance (a : Dec) : Decidable a.Plain := by
  unfold Dec.Plain
  infer_instance

/-- The unsigned part of the plain rendering of a decimal: the coefficient
digits with the point inserted by the exponent, zero-padded on the left when
the value is below one. -/
def plainBody (a : Dec) : Str :=
  if a.exp + ((natChars a.coeff).length : Int) ≤ 0 then
    '0' :: '.' ::
      (List.replicate (-(a.exp + ((natChars a.coeff).length : Int))).toNat '0' ++
        natChars a.coeff)
  else if a.exp = 0 then natChars a.coeff
  else
    (natChars a.coeff).take (a.exp + ((natChars a.coeff).length : Int)).toNat ++
      '.' :: (natChars a.coeff).drop (a.exp + ((natChars a.coeff).length : Int)).toNat

/-- The unsigned part of the scientific rendering. -/
def sciBody (a : Dec) : Str :=
  (natChars a.coeff).take 1 ++
    (if 1 < (natChars a.coeff).length then '.' :: (natChars a.coeff).drop 1 else []) ++
    'E' ::
      (if a.exp + ((natChars a.coeff).length : Int) - 1 < 0 then
        '-' :: natChars (a.exp + ((natChars a.coeff).length : Int) - 1).natAbs
      else '+' :: natChars (a.exp + ((natChars a.coeff).length : Int) - 1).toNat)

/-- Python's `str(Decimal)` (the to-scientific-string conversion of
`_pydecimal.Decimal.__str__`): plain positional notation when the exponent is
non-positive and the adjusted exponent is at least `-6`, scientific notation
otherwise, with a leading minus for a negative sign. -/
def pyDecStr (a : Dec) : Str :=
  (if a.neg then ['-'] else []) ++ (if a.Plain then plainBody a else sciBody a)

/-- Parse of the string already reduced by `str_to_amount`'s substitutions,
as the `Decimal` constructor accepts it: an optional leading minus sign,
then digits with at most one point and at least one digit. -/
def decOfStrCore (neg : Bool) (rest : Str) : Except Err Dec :=
  match splitOnC '.' rest with
  | [ip] =>
    if ip.all Char.isDigit && !ip.isEmpty then .ok ⟨neg, natOfDigits ip, 0⟩
    else .error .formatError
  | [ip, fp] =>
    if (ip ++ fp).all Char.isDigit && !(ip ++ fp).isEmpty then
      .ok ⟨neg, natOfDigits (ip ++ fp), -(fp.length : Int)⟩
    else .error .formatError
  | _ => .error .formatError

def decOfStr (s : Str) : Except Err Dec :=
  match s with
  | c :: r => if c = '-' then decOfStrCore true r else decOfStrCore false (c :: r)
  | [] => decOfStrCore false []

/-- Python's `str.replace('.', '', n)` for a possibly negative count:
a negative count removes every occurrence, count `n ≥ 0` removes the first
`n` occurrences. -/
def dropDots : Str → Nat → Str
  | s, 0 => s
  | [], _ + 1 => []
  | c :: cs, k + 1 => if c = '.' then dropDots cs k else c :: dropDots cs (k + 1)

def pyReplaceDotCount (s : Str) (n : Int) : Str :=
  if n < 0 then s.filter (fun c => c != '.') else dropDots s n.toNat

/-- Python's `str(None)`. -/
def strNone : Str := ['N', 'o', 'n', 'e']

namespace Cast

/-- Model of `Cast.str_to_amount`:
`re.sub` keeps only digits, commas, periods and minus signs; the two
`replace` calls for apostrophes and spaces then act on characters the
filter has already removed, so they are the identity here; commas become
periods; `str.replace('.', '', obj.count('.') - 1)` drops periods counted
on the original input (all of them when the count is `-1`); the result
feeds the `Decimal` constructor. -/
def str_to_amount (obj : Str) : Except Err Dec :=
  let s1 := obj.filter (fun c => c.isDigit || c == ',' || c == '.' || c == '-')
  let s2 := s1.map (fun c => if c = ',' then '.' else c)
  let s3 := pyReplaceDotCount s2 ((obj.countP (fun c => c == '.') : Int) - 1)
  decOfStr s3

/-- Model of `Cast.amount_to_str`: `str(obj).replace(',', '.')`.  There is no
`None` guard, so an absent amount renders as the string `None`; a `Decimal`
renders via `str`, on which the comma replacement is the identity. -/
def amount_to_str (o : Option Dec) : Str :=
  match o with
  | none => strNone
  | some a => (pyDecStr a).map (fun c => if c = ',' then '.' else c)

end Cast

theorem natChars_ne_nil (n : Nat) : natChars n ≠ [] := by
  rw [natChars_eq_digits]
  by_cases hn : n = 0
  · simp [hn]
  · rw [if_neg hn]
    simp [Nat.digits_ne_nil_iff_ne_zero.mpr hn]

theorem natOfDigits_zeros_prefix (k : Nat) (t : Str) :
    natOfDigits (List.replicate k '0' ++ t) = natOfDigits t := by
  induction k with
  | zero => rfl
  | succ n ih =>
    rw [List.replicate_succ, List.cons_append]
    show List.foldl (fun a c => 10 * a + dval c) (10 * 0 + dval '0')
        (List.replicate n '0' ++ t) = _
    have h0 : (10 * 0 + dval '0') = 0 := by decide
    rw [h0]
    exact ih

/-- Character classification of the unsigned plain rendering. -/
theorem plainBody_chars {a : Dec} :
    ∀ c ∈ plainBody a, c.isDigit = true ∨ c = '.' := by
  intro c hc
  unfold plainBody at hc
  split at hc
  · rcases List.mem_cons.mp hc with h1 | hc2
    · left; rw [h1]; decide
    · rcases List.mem_cons.mp hc2 with h2 | hc3
      · right; exact h2
      · rcases List.mem_append.mp hc3 with h3 | h4
        · left
          rw [List.eq_of_mem_replicate h3]
          decide
        · exact Or.inl (natChars_all_digit _ c h4)
  · split at hc
    · exact Or.inl (natChars_all_digit _ c hc)
    · rcases List.mem_append.mp hc with h3 | hc2
      · exact Or.inl (natChars_all_digit _ c (List.take_subset _ _ h3))
      · rcases List.mem_cons.mp hc2 with h2 | h4
        · right; exact h2
        · exact Or.inl (natChars_all_digit _ c (List.drop_subset _ _ h4))

theorem plainBody_ne_nil (a : Dec) : plainBody a ≠ [] := by
  unfold plainBody
  split
  · simp
  · split
    · exact natChars_ne_nil _
    · simp

theorem plainBody_head_digit {a : Dec} {x : Char} {rest : Str}
    (h : plainBody a = x :: rest) : x.isDigit = true := by
  unfold plainBody at h
  split at h
  · rw [List.cons.injEq] at h
    rw [← h.1]
    decide
  · split at h
    · exact natChars_all_digit _ x (h ▸ List.mem_cons_self x rest)
    · rename_i hle h0
      have hpos : 0 < (a.exp + ((natChars a.coeff).length : Int)).toNat := by omega
      cases htk : (natChars a.coeff).take
          (a.exp + ((natChars a.coeff).length : Int)).toNat with
      | nil =>
        exfalso
        have := congrArg List.length htk
        rw [List.length_take] at this
        simp only [List.length_nil] at this
        have hcoe : (natChars a.coeff).length ≠ 0 := by
          intro habs
          exact natChars_ne_nil a.coeff (List.length_eq_zero.mp habs)
        omega
      | cons y ys =>
        rw [htk, List.cons_append, List.cons.injEq] at h
        have hy : y ∈ natChars a.coeff :=
          List.take_subset _ _ (htk ▸ List.mem_cons_self y ys)
        rw [← h.1]
        exact natChars_all_digit _ y hy

/-- The unsigned plain rendering has one point below an integral value and
none at exponent zero. -/
theorem plainBody_dots {a : Dec} (hp : a.Plain) :
    (plainBody a).countP (fun c => c == '.') = if a.exp = 0 then 0 else 1 := by
  have hdig0 : ∀ t : Str, (∀ c ∈ t, c.isDigit = true) →
      t.countP (fun c => c == '.') = 0 := by
    intro t ht
    rw [List.countP_eq_zero]
    intro c hc
    have hcd := ht c hc
    simp only [beq_iff_eq]
    intro habs
    rw [habs] at hcd
    exact absurd hcd (by decide)
  unfold plainBody
  split
  · rename_i hle
    have hexp : a.exp ≠ 0 := by
      have hlen : 0 < (natChars a.coeff).length :=
        List.length_pos.mpr (natChars_ne_nil a.coeff)
      omega
    rw [if_neg hexp]
    rw [List.countP_cons, List.countP_cons, List.countP_append]
    have h1 : ((List.replicate (-(a.exp + ((natChars a.coeff).length : Int))).toNat
        '0').countP (fun c => c == '.')) = 0 := by
      apply hdig0
      intro c hc
      rw [List.eq_of_mem_replicate hc]
      decide
    rw [h1, hdig0 _ (natChars_all_digit a.coeff)]
    decide
  · split
    · exact hdig0 _ (natChars_all_digit a.coeff)
    · rw [List.countP_append, List.countP_cons]
      have h1 : (((natChars a.coeff).take
          (a.exp + ((natChars a.coeff).length : Int)).toNat).countP
            (fun c => c == '.')) = 0 :=
        hdig0 _ (fun c hc => natChars_all_digit a.coeff c (List.take_subset _ _ hc))
      have h2 : (((natChars a.coeff).drop
          (a.exp + ((natChars a.coeff).length : Int)).toNat).countP
            (fun c => c == '.')) = 0 :=
        hdig0 _ (fun c hc => natChars_all_digit a.coeff c (List.drop_subset _ _ hc))
      rw [h1, h2]
      decide

/-- The core `Decimal` constructor inverts the plain rendering. -/
theorem decOfStrCore_plainBody {a : Dec} (hp : a.Plain) (neg : Bool) :
    decOfStrCore neg (plainBody a) = .ok ⟨neg, a.coeff, a.exp⟩ := by
  have hlen : 0 < (natChars a.coeff).length :=
    List.length_pos.mpr (natChars_ne_nil a.coeff)
  unfold plainBody
  split
  · rename_i hle
    -- 0.00… form: pieces ['0'] and zeros ++ digits
    set k : Nat := (-(a.exp + ((natChars a.coeff).length : Int))).toNat with hk
    have hsp : splitOnC '.' ('0' :: '.' :: (List.replicate k '0' ++ natChars a.coeff)) =
        [['0'], List.replicate k '0' ++ natChars a.coeff] := by
      have hshape : ('0' : Char) :: '.' :: (List.replicate k '0' ++ natChars a.coeff) =
          ['0'] ++ '.' :: (List.replicate k '0' ++ natChars a.coeff) := rfl
      rw [hshape, splitOnC_append_cons]
      rw [splitOnC_of_not_mem (by decide), splitOnC_of_not_mem ?hfree]
      case hfree =>
        intro hmem
        rcases List.mem_append.mp hmem with h1 | h2
        · have := List.eq_of_mem_replicate h1
          exact absurd this (by decide)
        · exact natChars_not_mem (by decide) h2
      rfl
    rw [decOfStrCore, hsp]
    suffices hgoal : (if ((['0'] ++ (List.replicate k '0' ++ natChars a.coeff)).all
          Char.isDigit && !(['0'] ++ (List.replicate k '0' ++ natChars a.coeff)).isEmpty)
          = true then
        (Except.ok ⟨neg, natOfDigits (['0'] ++ (List.replicate k '0' ++ natChars a.coeff)),
          -(((List.replicate k '0' ++ natChars a.coeff).length : Nat) : Int)⟩ :
          Except Err Dec)
      else .error .formatError) = .ok ⟨neg, a.coeff, a.exp⟩ by exact hgoal
    have hall : (['0'] ++ (List.replicate k '0' ++ natChars a.coeff)).all
        Char.isDigit = true := by
      rw [List.all_eq_true]
      intro c hc
      rcases List.mem_append.mp hc with h1 | h23
      · rw [List.mem_singleton.mp h1]; decide
      · rcases List.mem_append.mp h23 with h2 | h3
        · rw [List.eq_of_mem_replicate h2]; decide
        · exact natChars_all_digit _ c h3
    rw [if_pos (by rw [hall]; rfl)]
    have hval : natOfDigits (['0'] ++ (List.replicate k '0' ++ natChars a.coeff)) =
        a.coeff := by
      have hshape2 : (['0'] : Str) ++ (List.replicate k '0' ++ natChars a.coeff) =
          List.replicate (k + 1) '0' ++ natChars a.coeff := by
        rw [List.replicate_succ]
        simp
      rw [hshape2, natOfDigits_zeros_prefix, natOfDigits_natChars]
    have hexp : -(((List.replicate k '0' ++ natChars a.coeff).length : Nat) : Int) =
        a.exp := by
      rw [List.length_append, List.length_replicate]
      have hkeq : (k : Int) = -(a.exp + ((natChars a.coeff).length : Int)) := by omega
      push_cast
      omega
    rw [Except.ok.injEq, Dec.mk.injEq]
    exact ⟨rfl, hval, hexp⟩
  · split
    · rename_i hexp
      -- integral form: a single piece of digits
      rw [decOfStrCore, splitOnC_of_not_mem (natChars_not_mem (by decide))]
      suffices hgoal : (if ((natChars a.coeff).all Char.isDigit &&
            !(natChars a.coeff).isEmpty) = true then
          (Except.ok ⟨neg, natOfDigits (natChars a.coeff), 0⟩ : Except Err Dec)
        else .error .formatError) = .ok ⟨neg, a.coeff, a.exp⟩ by exact hgoal
      rw [if_pos ?hc]
      case hc =>
        simp only [Bool.and_eq_true]
        refine ⟨?_, ?_⟩
        · rw [List.all_eq_true]
          exact natChars_all_digit a.coeff
        · simp [List.isEmpty_iff, natChars_ne_nil a.coeff]
      rw [Except.ok.injEq, Dec.mk.injEq]
      exact ⟨rfl, natOfDigits_natChars a.coeff, hexp.symm⟩
    · rename_i hle hexp
      -- pointed form: two digit pieces
      set L : Nat := (a.exp + ((natChars a.coeff).length : Int)).toNat with hL
      have hsp : splitOnC '.'
          ((natChars a.coeff).take L ++ '.' :: (natChars a.coeff).drop L) =
          [(natChars a.coeff).take L, (natChars a.coeff).drop L] := by
        rw [splitOnC_append_cons,
          splitOnC_of_not_mem (fun hm => natChars_not_mem (c := '.') (by decide)
            (List.take_subset _ _ hm)),
          splitOnC_of_not_mem (fun hm => natChars_not_mem (c := '.') (by decide)
            (List.drop_subset _ _ hm))]
        rfl
      rw [decOfStrCore, hsp]
      suffices hgoal : (if (((natChars a.coeff).take L ++ (natChars a.coeff).drop L).all
            Char.isDigit &&
            !((natChars a.coeff).take L ++ (natChars a.coeff).drop L).isEmpty) = true then
          (Except.ok ⟨neg, natOfDigits ((natChars a.coeff).take L ++
              (natChars a.coeff).drop L),
            -((((natChars a.coeff).drop L).length : Nat) : Int)⟩ : Except Err Dec)
        else .error .formatError) = .ok ⟨neg, a.coeff, a.exp⟩ by exact hgoal
      rw [if_pos ?hc2]
      case hc2 =>
        simp only [Bool.and_eq_true]
        refine ⟨?_, ?_⟩
        · rw [List.all_eq_true]
          intro c hc
          rcases List.mem_append.mp hc with h1 | h2
          · exact natChars_all_digit _ c (List.take_subset _ _ h1)
          · exact natChars_all_digit _ c (List.drop_subset _ _ h2)
        · rw [List.take_append_drop]
          simp [List.isEmpty_iff, natChars_ne_nil a.coeff]
      rw [Except.ok.injEq, Dec.mk.injEq]
      refine ⟨rfl, ?_, ?_⟩
      · rw [List.take_append_drop, natOfDigits_natChars]
      · rw [List.length_drop]
        have hLlt : L < (natChars a.coeff).length := by
          have h1 : a.exp < 0 := lt_of_le_of_ne hp.1 hexp
          omega
        have hLeq : (L : Int) = a.exp + ((natChars a.coeff).length : Int) := by
          omega
        push_cast [Nat.cast_sub (le_of_lt hLlt)]
        omega

theorem decOfStr_plain_signed {a : Dec} (hp : a.Plain) :
    decOfStr ((if a.neg then ['-'] else []) ++ plainBody a) = .ok a := by
  obtain ⟨x, rest, hx⟩ : ∃ x rest, plainBody a = x :: rest := by
    cases hpb : plainBody a with
    | nil => exact absurd hpb (plainBody_ne_nil a)
    | cons y ys => exact ⟨y, ys, rfl⟩
  have hxd : x.isDigit = true := plainBody_head_digit hx
  have hxnd : x ≠ '-' := by
    intro habs
    rw [habs] at hxd
    exact absurd hxd (by decide)
  cases hneg : a.neg with
  | false =>
    rw [show ((if false = true then ['-'] else []) : Str) = [] by simp,
      List.nil_append, hx]
    show (if x = '-' then decOfStrCore true rest
      else decOfStrCore false (x :: rest)) = _
    rw [if_neg hxnd, ← hx, decOfStrCore_plainBody hp false]
    rw [Except.ok.injEq]
    cases a
    simp_all
  | true =>
    rw [show ((if true = true then ['-'] else []) : Str) = ['-'] by simp,
      List.singleton_append]
    show (if ('-' : Char) = '-' then decOfStrCore true (plainBody a)
      else decOfStrCore false ('-' :: plainBody a)) = _
    rw [if_pos rfl, decOfStrCore_plainBody hp true]
    rw [Except.ok.injEq]
    cases a
    simp_all

theorem str_to_amount_eq (obj : Str) : Cast.str_to_amount obj =
    decOfStr (pyReplaceDotCount
      ((obj.filter (fun c => c.isDigit || c == ',' || c == '.' || c == '-')).map
        (fun c => if c = ',' then '.' else c))
      ((obj.countP (fun c => c == '.') : Int) - 1)) := rfl

/-- Decoding inverts encoding for plain-notation decimals. -/
theorem str_to_amount_round {a : Dec} (hp : a.Plain) :
    Cast.str_to_amount (Cast.amount_to_str (some a)) = .ok a := by
  have hchars : ∀ c ∈ pyDecStr a, c.isDigit = true ∨ c = '.' ∨ c = '-' := by
    intro c hc
    unfold pyDecStr at hc
    rw [if_pos hp] at hc
    rcases List.mem_append.mp hc with h1 | h2
    · split at h1
      · right; right; exact List.mem_singleton.mp h1
      · simp at h1
    · rcases plainBody_chars c h2 with hd | hdot
      · exact Or.inl hd
      · exact Or.inr (Or.inl hdot)
  have hnocomma : ∀ c ∈ pyDecStr a, c ≠ ',' := by
    intro c hc habs
    rcases hchars c hc with h | h | h
    · rw [habs] at h; exact absurd h (by decide)
    · rw [habs] at h; exact absurd h (by decide)
    · rw [habs] at h; exact absurd h (by decide)
  have hmapid : (pyDecStr a).map (fun c => if c = ',' then '.' else c) = pyDecStr a := by
    have hmg : (pyDecStr a).map (fun c => if c = ',' then '.' else c) =
        (pyDecStr a).map id := by
      apply List.map_congr_left
      intro c hc
      simp [hnocomma c hc]
    rw [hmg, List.map_id]
  have henc : Cast.amount_to_str (some a) = pyDecStr a := hmapid
  rw [henc, str_to_amount_eq]
  have hfilter : (pyDecStr a).filter
      (fun c => c.isDigit || c == ',' || c == '.' || c == '-') = pyDecStr a := by
    rw [List.filter_eq_self]
    intro c hc
    rcases hchars c hc with h | h | h
    · simp [h]
    · simp [h]
    · simp [h]
  rw [hfilter, hmapid]
  have hbody : pyDecStr a = (if a.neg then ['-'] else []) ++ plainBody a := by
    unfold pyDecStr
    rw [if_pos hp]
  have hsgndots : ((if a.neg then ['-'] else [] : Str)).countP
      (fun c => c == '.') = 0 := by
    split <;> decide
  have hdots : (pyDecStr a).countP (fun c => c == '.') =
      if a.exp = 0 then 0 else 1 := by
    rw [hbody, List.countP_append, plainBody_dots hp, hsgndots, Nat.zero_add]
  by_cases hexp : a.exp = 0
  · -- no point in the rendering: the replace count is -1, removing every
    -- point from a point-free string
    rw [hdots, if_pos hexp]
    rw [pyReplaceDotCount, if_pos (by norm_num : (((0 : Nat) : Int) - 1) < 0)]
    have hnodot : ∀ c ∈ pyDecStr a, (c != '.') = true := by
      intro c hc
      have hcd : c ∈ (if a.neg then ['-'] else []) ++ plainBody a := hbody ▸ hc
      rcases List.mem_append.mp hcd with h1 | h2
      · split at h1
        · rw [List.mem_singleton.mp h1]; decide
        · simp at h1
      · rcases plainBody_chars c h2 with hd | hdot
        · simp only [bne_iff_ne, ne_eq]
          intro habs
          rw [habs] at hd
          exact absurd hd (by decide)
        · exfalso
          unfold plainBody at h2
          rw [if_neg ?hgt, if_pos hexp] at h2
          case hgt =>
            have hlen : 0 < (natChars a.coeff).length :=
              List.length_pos.mpr (natChars_ne_nil a.coeff)
            omega
          exact natChars_not_mem (c := '.') (by decide) (hdot ▸ h2)
    rw [List.filter_eq_self.mpr hnodot, hbody]
    exact decOfStr_plain_signed hp
  · -- exactly one point: the replace count is 0, removing nothing
    rw [hdots, if_neg hexp]
    rw [show (((1 : Nat) : Int) - 1) = 0 by norm_num]
    rw [pyReplaceDotCount, if_neg (by norm_num : ¬ ((0 : Int) < 0))]
    rw [show Int.toNat 0 = 0 from rfl]
    rw [show dropDots (pyDecStr a) 0 = pyDecStr a by cases pyDecStr a <;> rfl]
    rw [hbody]
    exact decOfStr_plain_signed hp

/-- Python's `str.strip()` whitespace set (ASCII part). -/
def pySpace (c : Char) : Bool :=
  c = ' ' || c = Char.ofNat 9 || c = nlc || c = Char.ofNat 13 ||
    c = Char.ofNat 11 || c = Char.ofNat 12

/-- Python's `str.strip()`. -/
def strip (s : Str) : Str :=
  ((s.dropWhile pySpace).reverse.dropWhile pySpace).reverse

/-- Zero-padded four-digit rendering, as `date.isoformat` pads the year. -/
def pad4 (n : Nat) : Str :=
  if n < 10 then '0' :: '0' :: '0' :: natChars n
  else if n < 100 then '0' :: '0' :: natChars n
  else if n < 1000 then '0' :: natChars n
  else natChars n

/-- Python's `str(date)`, ISO format. -/
def pyDateIso (d : PyDate) : Str :=
  pad4 d.year ++ '-' :: (pad2 d.month ++ '-' :: pad2 d.day)

/-- Python's `str(time)` without microseconds. -/
def pyTimeIso (t : PyTime) : Str :=
  pad2 t.hour ++ ':' :: (pad2 t.minute ++ ':' :: pad2 t.second)

def joinSep (sep : Str) : List Str → Str
  | [] => []
  | [l] => l
  | l :: ls => l ++ sep ++ joinSep sep ls

/-- Python's `repr` of a list element: `None` or a quoted string (quote
escaping inside the element is irrelevant here, only emptiness of the whole
rendering is ever observed). -/
def pyReprOpt : Option Str → Str
  | none => strNone
  | some s => Char.ofNat 39 :: s ++ [Char.ofNat 39]

/-- Python's `str(list)`. -/
def pyReprList (xs : List (Option Str)) : Str :=
  '[' :: joinSep [',', ' '] (xs.map pyReprOpt) ++ [']']

/-- The six members of the `Type` enumeration. -/
inductive Ty where
  | text : Ty
  | date : Ty
  | time : Ty
  | amount : Ty
  | array : Ty
  | flag : Ty
deriving DecidableEq

/-- A value held by a section attribute: `None`, a string, a date, a time,
a decimal, or (for a multiply-occurring array field) a list of
`str_to_text` results. -/
inductive Value where
  | vnone : Value
  | vstr : Str → Value
  | vdate : PyDate → Value
  | vtime : PyTime → Value
  | vamount : Dec → Value
  | vlist : List (Option Str) → Value
deriving DecidableEq

def optStr : Option Str → Value
  | none => .vnone
  | some s => .vstr s

def optDate : Option PyDate → Value
  | none => .vnone
  | some d => .vdate d

def optTime : Option PyTime → Value
  | none => .vnone
  | some t => .vtime t

/-- Python truthiness of a stored value (`Decimal(0)` and empty containers
are falsy). -/
def Value.truthy : Value → Bool
  | .vnone => false
  | .vstr s => !s.isEmpty
  | .vdate _ => true
  | .vtime _ => true
  | .vamount a => a.coeff != 0
  | .vlist xs => !xs.isEmpty

namespace Cast

/-- Model of `Cast.str_to_text`: strip; empty or blank gives `None`. -/
def str_to_text (s : Str) : Option Str :=
  if !s.isEmpty && !(strip s).isEmpty then some (strip s) else none

/-- Model of `Cast.text_to_str`: `str(obj).strip()` for a truthy value, the
empty string otherwise.  The date/time/decimal arms are only reachable when a
value of the wrong type sits in a text-typed slot. -/
def text_to_str (v : Value) : Str :=
  match v with
  | .vnone => []
  | .vstr s => if s.isEmpty then [] else strip s
  | .vdate d => strip (pyDateIso d)
  | .vtime t => strip (pyTimeIso t)
  | .vamount a => if a.coeff = 0 then [] else strip (pyDecStr a)
  | .vlist xs => if xs.isEmpty then [] else strip (pyReprList xs)

end Cast

/-- Encoding dispatch: `field.type.value.cast_to_text(attr)`. -/
def Ty.castToText : Ty → Value → Str
  | .text, v => Cast.text_to_str v
  | .array, v => Cast.text_to_str v
  | .flag, v => Cast.text_to_str v
  | .date, v =>
    match v with
    | .vdate d => Cast.date_to_str (some d)
    | _ => Cast.date_to_str none
  | .time, v =>
    match v with
    | .vtime t => Cast.time_to_str (some t)
    | _ => Cast.time_to_str none
  | .amount, v =>
    match v with
    | .vamount a => Cast.amount_to_str (some a)
    | .vstr s => s.map (fun c => if c = ',' then '.' else c)
    | _ => Cast.amount_to_str none

/-- Decoding dispatch: `field.type.value.cast_from_text(token)`. -/
def Ty.castFromText : Ty → Str → Except Err Value
  | .text, s => .ok (optStr (Cast.str_to_text s))
  | .array, s => .ok (optStr (Cast.str_to_text s))
  | .flag, s => .ok (optStr (Cast.str_to_text s))
  | .date, s => (Cast.str_to_date s).map optDate
  | .time, s => (Cast.str_to_time s).map optTime
  | .amount, s => (Cast.str_to_amount s).map Value.vamount

/-- The `Required` flag set. -/
structure Required where
  toBank : Bool
  fromBank : Bool
deriving DecidableEq

def Required.NONE : Required := ⟨false, false⟩
def Required.TO_BANK : Required := ⟨true, false⟩
def Required.FROM_BANK : Required := ⟨false, true⟩
def Required.BOTH : Required := ⟨true, true⟩

/-- A field descriptor, as the `Field` named tuple. -/
structure Field where
  key : Str
  description : Str
  required : Required
  type : Ty
deriving DecidableEq

/-- Inner `get_line` of `Section.to_text`: nothing for an empty
non-outbound-required field, the bare key for a flag, `key=value` otherwise. -/
def getLine (f : Field) (v : Value) : Str :=
  if ¬ f.required.toBank = true ∧ f.type.castToText v = [] then []
  else if f.type = Ty.flag then f.key
  else f.key ++ '=' :: f.type.castToText v

/-- Inner `get_text` of `Section.to_text`: a truthy array value renders one
line per element (a stray string in an array slot iterates character-wise,
as Python string iteration does); everything else is a single `get_line`. -/
def getText (f : Field) (v : Value) : Str :=
  if v.truthy = true ∧ f.type = Ty.array then
    match v with
    | .vlist xs => joinC nlc (xs.map fun it => getLine f (optStr it))
    | .vstr s => joinC nlc (s.map fun ch => getLine f (.vstr [ch]))
    | other => getLine f other
  else getLine f v

/-- The condition under which `validate_attr` raises. -/
def badAttr (f : Field) (v : Value) : Bool :=
  f.required.toBank && !(f.type == Ty.flag) && (f.type.castToText v).isEmpty

/-- First failing field of the `validate_attr` sweep. -/
def validateSection (schema : List Field) (vals : List Value) : Except Err Unit :=
  match (schema.zip vals).find? (fun fv => badAttr fv.1 fv.2) with
  | some fv => .error (.validationError fv.1.key)
  | none => .ok ()

/-- The non-empty rendered lines, in schema order. -/
def renderLines (schema : List Field) (vals : List Value) : List Str :=
  ((schema.zip vals).map fun fv => getText fv.1 fv.2).filter (fun l => !l.isEmpty)

/-- Newline join of the rendered lines — `Section.to_text` without
validation, also `Section.__str__`. -/
def renderSection (schema : List Field) (vals : List Value) : Str :=
  joinC nlc (renderLines schema vals)

/-- Model of `Section.to_text`: Python validates each field just before
rendering it and collects output only after the loop, so the observable
behaviour is: the first validation failure in schema order, else the joined
non-empty lines. -/
def sectionToText (schema : List Field) (vals : List Value) (validate : Bool) :
    Except Err Str :=
  if validate then
    match validateSection schema vals with
    | .error e => .error e
    | .ok _ => .ok (renderSection schema vals)
  else .ok (renderSection schema vals)

/-- The captured values of `re.findall(r'^key=(.*?)$', span, re.MULTILINE)`:
the remainders of the lines that start with `key=`. -/
def occKey (key : Str) (span : Str) : List Str :=
  (splitOnC nlc span).filterMap fun l =>
    if (key ++ ['=']).isPrefixOf l then some (l.drop (key.length + 1)) else none

/-- Model of `Field.get_value_from_text`: more than one occurrence of a
non-array field is a schema violation; no occurrence is `None`; several
occurrences of an array field decode element-wise; a single occurrence
decodes with the field's codec (also for array fields). -/
def Field.get_value_from_text (f : Field) (span : Str) : Except Err Value :=
  let found := occKey f.key span
  if 1 < found.length ∧ ¬ f.type = Ty.array then .error (.schemaViolation f.key)
  else
    match found with
    | [] => .ok .vnone
    | [x] => f.type.castFromText x
    | xs => .ok (.vlist (xs.map Cast.str_to_text))

/-- Model of `Section.from_text`: each schema field is resolved against the
span in order; a `None` span makes the first field's `re.findall` raise
`TypeError` (every schema is non-empty). -/
def sectionFromText (schema : List Field) (sp : Option Str) :
    Except Err (List Value) :=
  match sp with
  | none => .error .typeError
  | some t => schema.mapM (fun f => f.get_value_from_text t)

/-- Shorthand for a field literal. -/
def mkF (key desc : String) (req : Required) (ty : Ty) : Field :=
  ⟨key.toList, desc.toList, req, ty⟩

/-- The `Header.Schema` field table, in declaration order. -/
def headerSchema : List Field := [
  mkF "1CClientBankExchange" "Внутренний признак файла обмена" Required.BOTH Ty.flag,
  mkF "ВерсияФормата" "Номер версии формата обмена" Required.BOTH Ty.text,
  mkF "Кодировка" "Кодировка файла" Required.BOTH Ty.text,
  mkF "Отправитель" "Программа-отправитель" Required.TO_BANK Ty.text,
  mkF "Получатель" "Программа-получатель" Required.FROM_BANK Ty.text,
  mkF "ДатаСоздания" "Дата формирования файла" Required.NONE Ty.date,
  mkF "ВремяСоздания" "Время формирования файла" Required.NONE Ty.time,
  mkF "ДатаНачала" "Дата начала интервала" Required.BOTH Ty.date,
  mkF "ДатаКонца" "Дата конца интервала" Required.BOTH Ty.date,
  mkF "РасчСчет" "Расчетный счет организации" Required.BOTH Ty.array,
  mkF "Документ" "Вид документа" Required.NONE Ty.array]

/-- The `Balance.Schema` field table, in declaration order. -/
def balanceSchema : List Field := [
  mkF "СекцияРасчСчет" "Признак начала секции" Required.NONE Ty.flag,
  mkF "ДатаНачала" "Дата начала интервала" Required.FROM_BANK Ty.date,
  mkF "ДатаКонца" "Дата конца интервала" Required.NONE Ty.date,
  mkF "РасчСчет" "Расчетный счет организации" Required.FROM_BANK Ty.text,
  mkF "НачальныйОстаток" "Начальный остаток" Required.FROM_BANK Ty.amount,
  mkF "ВсегоПоступило" "Обороты входящих платежей" Required.NONE Ty.amount,
  mkF "ВсегоСписано" "Обороты исходящих платежей" Required.NONE Ty.amount,
  mkF "КонечныйОстаток" "Конечный остаток" Required.NONE Ty.amount,
  mkF "КонецРасчСчет" "Признак окончания секции" Required.NONE Ty.flag]

/-- The `Receipt.Schema` field table. -/
def receiptSchema : List Field := [
  mkF "КвитанцияДата" "Дата формирования квитанции" Required.NONE Ty.date,
  mkF "КвитанцияВремя" "Время формирования квитанции" Required.NONE Ty.time,
  mkF "КвитанцияСодержание" "Содержание квитанции" Required.NONE Ty.text]

/-- The `Payer.Schema` field table. -/
def payerSchema : List Field := [
  mkF "ПлательщикСчет" "Расчетный счет плательщика" Required.BOTH Ty.text,
  mkF "ДатаСписано" "Дата списания средств с р/с" Required.FROM_BANK Ty.date,
  mkF "Плательщик" "Плательщик" Required.TO_BANK Ty.text,
  mkF "ПлательщикИНН" "ИНН плательщика" Required.BOTH Ty.text,
  mkF "Плательщик1" "Наименование плательщика, стр. 1" Required.TO_BANK Ty.text,
  mkF "Плательщик2" "Наименование плательщика, стр. 2" Required.NONE Ty.text,
  mkF "Плательщик3" "Наименование плательщика, стр. 3" Required.NONE Ty.text,
  mkF "Плательщик4" "Наименование плательщика, стр. 4" Required.NONE Ty.text,
  mkF "ПлательщикРасчСчет" "Расчетный счет плательщика" Required.TO_BANK Ty.text,
  mkF "ПлательщикБанк1" "Банк плательщика" Required.TO_BANK Ty.text,
  mkF "ПлательщикБанк2" "Город банка плательщика" Required.TO_BANK Ty.text,
  mkF "ПлательщикБИК" "БИК банка плательщика" Required.TO_BANK Ty.text,
  mkF "ПлательщикКорсчет" "Корсчет банка плательщика" Required.TO_BANK Ty.text]

/-- The `Receiver.Schema` field table. -/
def receiverSchema : List Field := [
  mkF "ПолучательСчет" "Расчетный счет получателя" Required.BOTH Ty.text,
  mkF "ДатаПоступило" "Дата поступления средств на р/с" Required.FROM_BANK Ty.text,
  mkF "Получатель" "Получатель" Required.TO_BANK Ty.text,
  mkF "ПолучательИНН" "ИНН получателя" Required.BOTH Ty.text,
  mkF "Получатель1" "Наименование получателя" Required.TO_BANK Ty.text,
  mkF "Получатель2" "Наименование получателя, стр. 2" Required.NONE Ty.text,
  mkF "Получатель3" "Наименование получателя, стр. 3" Required.NONE Ty.text,
  mkF "Получатель4" "Наименование получателя, стр. 4" Required.NONE Ty.text,
  mkF "ПолучательРасчСчет" "Расчетный счет получателя" Required.TO_BANK Ty.text,
  mkF "ПолучательБанк1" "Банк получателя" Required.TO_BANK Ty.text,
  mkF "ПолучательБанк2" "Город банка получателя" Required.TO_BANK Ty.text,
  mkF "ПолучательБИК" "БИК банка получателя" Required.TO_BANK Ty.text,
  mkF "ПолучательКорсчет" "Корсчет банка получателя" Required.TO_BANK Ty.text]

/-- The `Payment.Schema` field table. -/
def paymentSchema : List Field := [
  mkF "ВидПлатежа" "Вид платежа" Required.NONE Ty.text,
  mkF "ВидОплаты" "Вид оплаты (вид операции)" Required.TO_BANK Ty.text,
  mkF "Код" "Уникальный идентификатор платежа" Required.NONE Ty.text,
  mkF "НазначениеПлатежа" "Назначение платежа" Required.NONE Ty.text,
  mkF "НазначениеПлатежа1" "Назначение платежа, стр. 1" Required.NONE Ty.text,
  mkF "НазначениеПлатежа2" "Назначение платежа, стр. 2" Required.NONE Ty.text,
  mkF "НазначениеПлатежа3" "Назначение платежа, стр. 3" Required.NONE Ty.text,
  mkF "НазначениеПлатежа4" "Назначение платежа, стр. 4" Required.NONE Ty.text,
  mkF "НазначениеПлатежа5" "Назначение платежа, стр. 5" Required.NONE Ty.text,
  mkF "НазначениеПлатежа6" "Назначение платежа, стр. 6" Required.NONE Ty.text]

/-- The `Tax.Schema` field table. -/
def taxSchema : List Field := [
  mkF "СтатусСоставителя" "Статус составителя расчетного документа" Required.BOTH Ty.text,
  mkF "ПлательщикКПП" "КПП плательщика" Required.BOTH Ty.text,
  mkF "ПолучательКПП" "КПП получателя" Required.BOTH Ty.text,
  mkF "ПоказательКБК" "Показатель кода бюджетной классификации" Required.BOTH Ty.text,
  mkF "ОКАТО" "Код ОКТМО территории" Required.BOTH Ty.text,
  mkF "ПоказательОснования" "Показатель основания налогового платежа" Required.BOTH Ty.text,
  mkF "ПоказательПериода" "Показатель налогового периода" Required.BOTH Ty.text,
  mkF "ПоказательНомера" "Показатель номера документа" Required.BOTH Ty.text,
  mkF "ПоказательДаты" "Показатель даты документа" Required.BOTH Ty.text,
  mkF "ПоказательТипа" "Показатель типа платежа" Required.NONE Ty.text]

/-- The `Special.Schema` field table. -/
def specialSchema : List Field := [
  mkF "Очередность" "Очередность платежа" Required.NONE Ty.text,
  mkF "СрокАкцепта" "Срок акцепта, количество дней" Required.NONE Ty.text,
  mkF "ВидАккредитива" "Вид аккредитива" Required.NONE Ty.text,
  mkF "СрокПлатежа" "Срок платежа (аккредитива)" Required.NONE Ty.text,
  mkF "УсловиеОплаты1" "Условие оплаты, стр. 1" Required.NONE Ty.text,
  mkF "УсловиеОплаты2" "Условие оплаты, стр. 2" Required.NONE Ty.text,
  mkF "УсловиеОплаты3" "Условие оплаты, стр. 3" Required.NONE Ty.text,
  mkF "ПлатежПоПредст" "Платеж по представлению" Required.NONE Ty.text,
  mkF "ДополнУсловия" "Дополнительные условия" Required.NONE Ty.text,
  mkF "НомерСчетаПоставщика" "№ счета поставщика" Required.NONE Ty.text,
  mkF "ДатаОтсылкиДок" "Дата отсылки документов" Required.NONE Ty.text]

/-- The flat `Document.Schema` field table. -/
def documentSchema : List Field := [
  mkF "СекцияДокумент" "Признак начала секции" Required.NONE Ty.text,
  mkF "Номер" "Номер документа" Required.BOTH Ty.text,
  mkF "Дата" "Дата документа" Required.BOTH Ty.date,
  mkF "Сумма" "Сумма платежа" Required.BOTH Ty.amount]

def secDocMark : Str := "СекцияДокумент".toList
def endDocMark : Str := "КонецДокумента".toList
def balBeginMark : Str := "СекцияРасчСчет".toList
def balEndMark : Str := "КонецРасчСчет".toList
def secWord : Str := "Секция".toList
def endFileMark : Str := "КонецФайла".toList

/-- A payment document: the flat field values plus the six owned
sub-sections (each a value list over its schema, or absent). -/
structure Document where
  vals : List Value
  receipt : Option (List Value)
  payer : Option (List Value)
  receiver : Option (List Value)
  payment : Option (List Value)
  tax : Option (List Value)
  special : Option (List Value)
deriving DecidableEq

/-- `str(x)` of the present sub-sections, in the fixed composition order
(`filter(None, …)` keeps every attached section object). -/
def subsectionStrs (d : Document) : List Str :=
  [d.receipt.map (renderSection receiptSchema),
   d.payer.map (renderSection payerSchema),
   d.receiver.map (renderSection receiverSchema),
   d.payment.map (renderSection paymentSchema),
   d.tax.map (renderSection taxSchema),
   d.special.map (renderSection specialSchema)].filterMap id

/-- Model of `Document.to_text`: the flat section (validated when asked),
then each present sub-section rendered without validation via `str`, then
the end-of-document marker. -/
def Document.to_text (d : Document) (validate : Bool) : Except Err Str :=
  (sectionToText documentSchema d.vals validate).map fun content =>
    content ++ nlc :: joinC nlc (subsectionStrs d ++ [endDocMark])

/-- The spans of `re.findall(r'(СекцияДокумент.*?)КонецДокумента', s, re.S)`:
repeated leftmost search; each captured span keeps its begin marker. -/
def docSpans (s : Str) : List Str :=
  match h1 : splitFirst secDocMark s with
  | none => []
  | some ab =>
    match h2 : splitFirst endDocMark ab.2 with
    | none => []
    | some cd => (secDocMark ++ cd.1) :: docSpans cd.2
termination_by s.length
decreasing_by
  have e1 := splitFirst_length (show splitFirst secDocMark s = some (ab.1, ab.2) from h1)
  have e2 := splitFirst_length
    (show splitFirst endDocMark ab.2 = some (cd.1, cd.2) from h2)
  have hm1 : secDocMark.length = 14 := rfl
  have hm2 : endDocMark.length = 14 := rfl
  omega

/-- One parsed document: the flat fields and all six sub-sections parsed
against the same span. -/
def parseDoc (sp : Option Str) : Except Err Document := do
  let flat ← sectionFromText documentSchema sp
  let r ← sectionFromText receiptSchema sp
  let p ← sectionFromText payerSchema sp
  let rc ← sectionFromText receiverSchema sp
  let pm ← sectionFromText paymentSchema sp
  let tx ← sectionFromText taxSchema sp
  let sl ← sectionFromText specialSchema sp
  pure ⟨flat, some r, some p, some rc, some pm, some tx, some sl⟩

/-- Model of `Document.from_text`: with no span the extractor returns `None`,
which is wrapped in a one-element list and crashes while parsing; otherwise
each span yields one document. -/
def Document.from_text (s : Str) : Except Err (List Document) :=
  match docSpans s with
  | [] => (parseDoc none).map fun d => [d]
  | sps => sps.mapM (fun sp => parseDoc (some sp))

/-- The span of `re.findall(r'^(.*?)Секция', s, re.S)`: without
`re.MULTILINE` the anchor matches only at the start, so the sole capture is
the prefix before the first `Секция`, when one exists. -/
def headerSpan (s : Str) : Option Str := (splitFirst secWord s).map Prod.fst

def Header.from_text (s : Str) : Except Err (List Value) :=
  sectionFromText headerSchema (headerSpan s)

/-- The captures of `re.findall(r'СекцияРасчСчет(.*?)КонецРасчСчет', s, re.S)`:
the interiors between marker pairs. -/
def balSpans (s : Str) : List Str :=
  match h1 : splitFirst balBeginMark s with
  | none => []
  | some ab =>
    match h2 : splitFirst balEndMark ab.2 with
    | none => []
    | some cd => cd.1 :: balSpans cd.2
termination_by s.length
decreasing_by
  have e1 := splitFirst_length (show splitFirst balBeginMark s = some (ab.1, ab.2) from h1)
  have e2 := splitFirst_length
    (show splitFirst balEndMark ab.2 = some (cd.1, cd.2) from h2)
  have hm1 : balBeginMark.length = 14 := rfl
  have hm2 : balEndMark.length = 13 := rfl
  omega

/-- Model of `Balance.from_text`: `extract_section_text` hands back `None`
for no match, the capture for one match, and the capture list for several
(the list then crashes the first field's `re.findall` with `TypeError`). -/
def Balance.from_text (s : Str) : Except Err (List Value) :=
  match balSpans s with
  | [] => sectionFromText balanceSchema none
  | [x] => sectionFromText balanceSchema (some x)
  | _ => .error .typeError

/-- Model of `Balance.to_text`: the generic section body wrapped in the two
marker lines. -/
def Balance.to_text (vals : List Value) (validate : Bool) : Except Err Str :=
  (sectionToText balanceSchema vals validate).map fun c =>
    balBeginMark ++ nlc :: (c ++ nlc :: balEndMark)

/-- The statement aggregate. -/
structure Statement where
  header : List Value
  balance : Option (List Value)
  documents : List Document

/-- Model of `Statement.from_text`: header, balance and documents are parsed
in the order the constructor call evaluates them; the parsed balance is
always attached. -/
def Statement.from_text (s : Str) : Except Err Statement := do
  let h ← Header.from_text s
  let b ← Balance.from_text s
  let docs ← Document.from_text s
  pure ⟨h, some b, docs⟩

/-- Left-to-right effectful map, as a Python list comprehension evaluates:
the first exception wins. -/
def mapE {α β : Type} (f : α → Except Err β) : List α → Except Err (List β)
  | [] => .ok []
  | x :: xs =>
    match f x with
    | .error e => .error e
    | .ok y =>
      match mapE f xs with
      | .error e => .error e
      | .ok ys => .ok (y :: ys)

/-- Whether a stored value is a date object. -/
def Value.isDate : Value → Bool
  | .vdate a => true
  | other => false

/-- Python's `min` scan over stored document dates: the first element seeds
the accumulator, every comparison against `None` (or a non-date) raises
`TypeError`. -/
def pyMinDates : Value → List Value → Except Err Value
  | m, [] => .ok m
  | m, x :: xs =>
    match x, m with
    | .vdate a, .vdate b =>
      pyMinDates (if dateLtB a b then .vdate a else .vdate b) xs
    | _, _ => .error .typeError

/-- Python's `max` scan over stored document dates. -/
def pyMaxDates : Value → List Value → Except Err Value
  | m, [] => .ok m
  | m, x :: xs =>
    match x, m with
    | .vdate a, .vdate b =>
      pyMaxDates (if dateLtB b a then .vdate a else .vdate b) xs
    | _, _ => .error .typeError

/-- Access `d.payer.bank_bic`; an absent payer raises `AttributeError`. -/
def Document.payerBankBic (d : Document) : Except Err Value :=
  match d.payer with
  | none => .error .attributeError
  | some pv => .ok (pv.getD 11 .vnone)

/-- Access `d.payer.account_number`. -/
def Document.payerAccountNumber (d : Document) : Except Err Value :=
  match d.payer with
  | none => .error .attributeError
  | some pv => .ok (pv.getD 8 .vnone)

/-- The stored flat `date` attribute of a document. -/
def Document.dateVal (d : Document) : Value := d.vals.getD 2 .vnone

/-- The stored value viewed as an optional string, for storage in a
`set`-valued array slot (a well-typed account number is a string or `None`). -/
def valueToOptStr : Value → Option Str
  | .vstr s => some s
  | _ => none

/-- Model of `Statement.from_documents`.  `today` and `now` stand for
`date.today()` and `datetime.now()`.  The payer-BIC comprehension runs
first and raises on an absent payer; a `set` of the BIC values with more
than (or fewer than) one member is the single-bank `ValueError`; then the
`min`/`max` scans over the flat dates; the synthesized header carries the
constants, the sender, the date range and the distinct account numbers,
with no balance. -/
def Statement.from_documents (today : PyDate) (now : PyTime) (sender : Str)
    (documents : List Document) : Except Err Statement :=
  match mapE Document.payerBankBic documents with
  | .error e => .error e
  | .ok bics =>
    if bics.dedup.length = 1 then
      match documents.map Document.dateVal with
      | [] => .error .typeError
      | d0 :: rest =>
        match pyMinDates d0 rest with
        | .error e => .error e
        | .ok dmin =>
          match pyMaxDates d0 rest with
          | .error e => .error e
          | .ok dmax =>
            match mapE Document.payerAccountNumber documents with
            | .error e => .error e
            | .ok accs =>
              .ok ⟨[Value.vnone, .vstr "1.02".toList, .vstr "Windows".toList,
                .vstr sender, .vnone, .vdate today, .vtime now, dmin, dmax,
                .vlist ((accs.map valueToOptStr).dedup), .vnone], none, documents⟩
    else .error .bankInvariantError

/-- Two concrete documents drawn from the same bank: payer slot 8 is the
account number, slot 11 the BIC. -/
def sampleDocuments : List Document :=
  [⟨[Value.vnone, Value.vnone, Value.vdate ⟨2020, 1, 15⟩, Value.vnone],
    none,
    some [Value.vnone, Value.vnone, Value.vnone, Value.vnone, Value.vnone,
      Value.vnone, Value.vnone, Value.vnone, Value.vstr "40702810001".toList,
      Value.vnone, Value.vnone, Value.vstr "044525225".toList, Value.vnone],
    none, none, none, none⟩,
   ⟨[Value.vnone, Value.vnone, Value.vdate ⟨2020, 3, 1⟩, Value.vnone],
    none,
    some [Value.vnone, Value.vnone, Value.vnone, Value.vnone, Value.vnone,
      Value.vnone, Value.vnone, Value.vnone, Value.vstr "40702810002".toList,
      Value.vnone, Value.vnone, Value.vstr "044525225".toList, Value.vnone],
    none, none, none, none⟩]

/-- Whether `get_line` emits a line for the field: outbound-required fields
always do, others only when the encoded value is non-empty. -/
def emitted (f : Field) (v : Value) : Bool :=
  f.required.toBank || !(f.type.castToText v).isEmpty

/-- Round-trip well-formedness of one stored value against its field:
matching semantic type, populated (or optional and absent), already in
canonical stripped form, free of line breaks and of the end-of-document
marker. -/
def WFVal (f : Field) (v : Value) : Bool :=
  match v with
  | Value.vnone =>
    !f.required.toBank &&
      (f.type == Ty.text || f.type == Ty.date || f.type == Ty.time)
  | Value.vstr s =>
    f.type == Ty.text && !s.isEmpty && strip s == s &&
      decide (nlc ∉ s) && decide (¬ endDocMark <:+: s)
  | Value.vdate a => f.type == Ty.date && a.validB && decide (1000 ≤ a.year)
  | Value.vtime t => f.type == Ty.time && t.validB
  | Value.vamount a => f.type == Ty.amount && decide a.Plain
  | Value.vlist xs => false

/-- Sectionwise well-formedness: one stored value per schema field, each
well-formed. -/
def WFSec (S : List Field) (vals : List Value) : Bool :=
  (vals.length == S.length) && (S.zip vals).all fun fv => WFVal fv.1 fv.2

/-- Static facts about a schema table: non-empty keys free of `=`, line
breaks and the end-of-document marker, and no flag or array fields. -/
def schemaOK (S : List Field) : Bool :=
  S.all fun f =>
    !f.key.isEmpty && decide ('=' ∉ f.key) && decide (nlc ∉ f.key) &&
      decide (¬ endDocMark <:+: f.key) &&
      !(f.type == Ty.flag) && !(f.type == Ty.array)

/-- The schema/value pairs a fully attached document renders, flat section
first, sub-sections in composition order. -/
def docSections (flat r p rc pm tx sp : List Value) :
    List (List Field × List Value) :=
  [(documentSchema, flat), (receiptSchema, r), (payerSchema, p),
   (receiverSchema, rc), (paymentSchema, pm), (taxSchema, tx),
   (specialSchema, sp)]

/-- The document span the serializer produces: every section's rendering
joined by line breaks, with the trailing line break that precedes the
end-of-document marker (an empty last group). -/
def spanOf (L : List (List Field × List Value)) : Str :=
  joinC nlc (L.map (fun q => renderSection q.1 q.2) ++ [[]])

/-- A fully populated sample document: every outbound-required field of the
flat section and of all six sub-sections holds a value. -/
def sampleRoundDoc : Document :=
  ⟨[Value.vstr "Платежное поручение".toList, Value.vstr "1".toList,
    Value.vdate ⟨2020, 1, 15⟩, Value.vamount ⟨false, 10000, -2⟩],
   some [Value.vdate ⟨2020, 1, 16⟩, Value.vtime ⟨10, 30, 0⟩,
     Value.vstr "Принято".toList],
   some [Value.vstr "40702810000000000001".toList, Value.vnone,
     Value.vstr "ООО Ромашка".toList, Value.vstr "7701234567".toList,
     Value.vstr "ООО Ромашка".toList, Value.vnone, Value.vnone, Value.vnone,
     Value.vstr "40702810000000000001".toList, Value.vstr "АО БАНК".toList,
     Value.vstr "МОСКВА".toList, Value.vstr "044525225".toList,
     Value.vstr "30101810400000000225".toList],
   some [Value.vstr "40702810000000000002".toList, Value.vnone,
     Value.vstr "ООО Лютик".toList, Value.vstr "7709876543".toList,
     Value.vstr "ООО Лютик".toList, Value.vnone, Value.vnone, Value.vnone,
     Value.vstr "40702810000000000002".toList, Value.vstr "ПАО БАНК2".toList,
     Value.vstr "МОСКВА".toList, Value.vstr "044525593".toList,
     Value.vstr "30101810200000000593".toList],
   some [Value.vnone, Value.vstr "01".toList, Value.vnone,
     Value.vstr "Оплата по договору".toList, Value.vnone, Value.vnone,
     Value.vnone, Value.vnone, Value.vnone, Value.vnone],
   some [Value.vstr "01".toList, Value.vstr "770101001".toList,
     Value.vstr "770101002".toList, Value.vstr "18210301000011000110".toList,
     Value.vstr "45382000".toList, Value.vstr "ТП".toList,
     Value.vstr "МС.01.2020".toList, Value.vstr "0".toList,
     Value.vstr "20.01.2020".toList, Value.vnone],
   some [Value.vstr "5".toList, Value.vnone, Value.vnone, Value.vnone,
     Value.vnone, Value.vnone, Value.vnone, Value.vnone, Value.vnone,
     Value.vnone, Value.vnone]⟩

/-- Strict reading of the spec's fixed date format `DD.MM.YYYY`: exactly two
digits, a dot, two digits, a dot, four digits, a valid calendar date. -/
def matchesStrictDate (s : Str) : Bool :=
  match s with
  | [d1, d2, '.', m1, m2, '.', y1, y2, y3, y4] =>
    d1.isDigit && d2.isDigit && m1.isDigit && m2.isDigit &&
      y1.isDigit && y2.isDigit && y3.isDigit && y4.isDigit &&
      (PyDate.mk (natOfDigits [y1, y2, y3, y4]) (natOfDigits [m1, m2])
        (natOfDigits [d1, d2])).validB
  | _ => false

/-- Strict reading of the spec's fixed time format `HH:MM:SS`. -/
def matchesStrictTime (s : Str) : Bool :=
  match s with
  | [h1, h2, ':', m1, m2, ':', s1, s2] =>
    h1.isDigit && h2.isDigit && m1.isDigit && m2.isDigit &&
      s1.isDigit && s2.isDigit &&
      (PyTime.mk (natOfDigits [h1, h2]) (natOfDigits [m1, m2])
        (natOfDigits [s1, s2])).validB
  | _ => false

/-- A full exchange text with a header prefix and one document section but no
`СекцияРасчСчет … КонецРасчСчет` balance block. -/
def noBalanceInput : Str :=
  ("1CClientBankExchange" ++ "\n" ++ "СекцияДокумент=Плата" ++ "\n" ++
    "Номер=1" ++ "\n" ++ "КонецДокумента").toList

/-- C2.  Evaluation of the amount codec at the three inputs the claim fixes.
The claim says all three decode to the decimal 1234567.89.  The code counts
periods on the *original* string, before the comma-to-period substitution,
and hands that count minus one to `str.replace`: for `"1 234 567,89"` the
count is -1, which removes *every* period, yielding the integer 123456789;
for `"1'234.567,89"` the count is 0, which removes nothing, and the
`Decimal` constructor rejects the two-period string; only `"1234567.89"`
decodes as claimed. -/
theorem C2_amount_decoding :
    Cast.str_to_amount "1 234 567,89".toList = .ok ⟨false, 123456789, 0⟩ ∧
    Cast.str_to_amount "1'234.567,89".toList = .error .formatError ∧
    Cast.str_to_amount "1234567.89".toList = .ok ⟨false, 123456789, -2⟩ ∧
    (Dec.mk false 123456789 0 ≠ Dec.mk false 123456789 (-2)) := by
  refine ⟨by decide, by decide, by decide, by decide⟩

/-- C9 counterexample.  The claim says the codecs fail exactly on non-absent
inputs that do not match the fixed formats `DD.MM.YYYY` / `HH:MM:SS`; but
`strptime` accepts unpadded one-digit components, so `"1.1.2020"` and
`"9:5:3"` decode successfully while matching neither fixed format. -/
theorem C9_strict_format_counterexample :
    Cast.str_to_date "1.1.2020".toList = .ok (some ⟨2020, 1, 1⟩) ∧
    matchesStrictDate "1.1.2020".toList = false ∧
    Cast.str_to_time "9:5:3".toList = .ok (some ⟨9, 5, 3⟩) ∧
    matchesStrictTime "9:5:3".toList = false := by
  refine ⟨by decide, by decide, by decide, by decide⟩

/-- C9 (amended).  The date and time codecs decode the dotted and the
colon-separated formats with `strptime`'s leniency: one or two digits for
day, month, hour, minute and second, exactly four digits for the year, and
the components must form a valid calendar date / time of day.  An absent
(empty) input decodes to absent, and a `FormatError` is raised exactly on
the non-absent inputs outside that acceptance language. -/
theorem C9_date_time_codec (s : Str) :
    (Cast.str_to_date s = .ok none ↔ s = []) ∧
    (Cast.str_to_time s = .ok none ↔ s = []) ∧
    (Cast.str_to_date s = .error .formatError ↔ s ≠ [] ∧ ¬ LenientDate s) ∧
    (Cast.str_to_time s = .error .formatError ↔ s ≠ [] ∧ ¬ LenientTime s) := by
  have hd := str_to_date_trichotomy s
  have ht := str_to_time_trichotomy s
  refine ⟨?_, ?_, ?_, ?_⟩
  · constructor
    · intro h
      rcases hd with ⟨h1, _⟩ | ⟨dte, h2⟩ | h3
      · exact h1
      · rw [h2] at h; simp at h
      · rw [h3] at h; simp at h
    · intro h
      rw [Cast.str_to_date, if_pos h]
  · constructor
    · intro h
      rcases ht with ⟨h1, _⟩ | ⟨t, h2⟩ | h3
      · exact h1
      · rw [h2] at h; simp at h
      · rw [h3] at h; simp at h
    · intro h
      rw [Cast.str_to_time, if_pos h]
  · constructor
    · intro h
      refine ⟨?_, ?_⟩
      · intro habs
        rw [Cast.str_to_date, if_pos habs] at h
        simp at h
      · intro hlen
        obtain ⟨dte, hdte⟩ := str_to_date_ok_some_iff_lenient.mpr hlen
        rw [hdte] at h
        simp at h
    · rintro ⟨hs0, hnl⟩
      rcases hd with ⟨h1, _⟩ | ⟨dte, h2⟩ | h3
      · exact absurd h1 hs0
      · exact absurd (str_to_date_ok_some_iff_lenient.mp ⟨dte, h2⟩) hnl
      · exact h3
  · constructor
    · intro h
      refine ⟨?_, ?_⟩
      · intro habs
        rw [Cast.str_to_time, if_pos habs] at h
        simp at h
      · intro hlen
        obtain ⟨t, hte⟩ := str_to_time_ok_some_iff_lenient.mpr hlen
        rw [hte] at h
        simp at h
    · rintro ⟨hs0, hnl⟩
      rcases ht with ⟨h1, _⟩ | ⟨t, h2⟩ | h3
      · exact absurd h1 hs0
      · exact absurd (str_to_time_ok_some_iff_lenient.mp ⟨t, h2⟩) hnl
      · exact h3

theorem get_value_eq (f : Field) (span : Str) :
    f.get_value_from_text span =
      if 1 < (occKey f.key span).length ∧ ¬ f.type = Ty.array then
        .error (.schemaViolation f.key)
      else
        match occKey f.key span with
        | [] => .ok .vnone
        | [x] => f.type.castFromText x
        | xs => .ok (.vlist (xs.map Cast.str_to_text)) := rfl

/-- Line occurrences of a key inside a join of newline-free lines are the
matching members of the line list, in source order. -/
theorem occKey_joinC {key : Str} {L : List Str} (hne : L ≠ [])
    (hfree : ∀ l ∈ L, nlc ∉ l) :
    occKey key (joinC nlc L) = L.filterMap (fun l =>
      if (key ++ ['=']).isPrefixOf l then some (l.drop (key.length + 1))
      else none) := by
  unfold occKey
  rw [splitOnC_joinC nlc L hne hfree]

/-- C3 counterexample.  For the array-typed `РасчСчет` field of the header, a
span with exactly one occurrence decodes to the bare string value, not to a
one-element list, contrary to the claim's "n occurrences, for every n ≥ 1,
yield an n-element ordered list". -/
theorem C3_single_array_counterexample :
    Field.get_value_from_text
        (mkF "РасчСчет" "Расчетный счет организации" Required.BOTH Ty.array)
        "РасчСчет=111".toList = .ok (.vstr "111".toList) ∧
    Field.get_value_from_text
        (mkF "РасчСчет" "Расчетный счет организации" Required.BOTH Ty.array)
        "РасчСчет=111".toList ≠ .ok (.vlist [some "111".toList]) := by
  refine ⟨by decide, by decide⟩

/-- C3 (amended).  Field parsing over a span assembled from newline-free
lines finds all `key=value` line occurrences in source order; two or more
occurrences of a non-array field raise `SchemaViolation`; zero occurrences
give an absent value; two or more occurrences of an array field decode
element-wise, in source order; exactly one occurrence — of an array field as
well as of a scalar field — decodes with the field's value codec (so a
single array occurrence yields a bare value, not a one-element list). -/
theorem C3_field_multiplicity (f : Field) (L : List Str) (hne : L ≠ [])
    (hfree : ∀ l ∈ L, nlc ∉ l) :
    (occKey f.key (joinC nlc L) = L.filterMap (fun l =>
      if (f.key ++ ['=']).isPrefixOf l then some (l.drop (f.key.length + 1))
      else none)) ∧
    (∀ x y rest, occKey f.key (joinC nlc L) = x :: y :: rest →
      ¬ f.type = Ty.array →
      f.get_value_from_text (joinC nlc L) = .error (.schemaViolation f.key)) ∧
    (occKey f.key (joinC nlc L) = [] →
      f.get_value_from_text (joinC nlc L) = .ok .vnone) ∧
    (∀ x y rest, occKey f.key (joinC nlc L) = x :: y :: rest →
      f.type = Ty.array →
      f.get_value_from_text (joinC nlc L) =
        .ok (.vlist ((x :: y :: rest).map Cast.str_to_text))) ∧
    (∀ x, occKey f.key (joinC nlc L) = [x] →
      f.get_value_from_text (joinC nlc L) = f.type.castFromText x) := by
  refine ⟨occKey_joinC hne hfree, ?_, ?_, ?_, ?_⟩
  · intro x y rest hocc harr
    rw [get_value_eq, if_pos ⟨by rw [hocc]; simp, harr⟩]
  · intro hocc
    rw [get_value_eq, hocc]
    rw [if_neg (by simp)]
  · intro x y rest hocc harr
    rw [get_value_eq, hocc]
    rw [if_neg (by simp [harr])]
  · intro x hocc
    rw [get_value_eq, hocc]
    rw [if_neg (by simp)]

/-- C3 witness: the two spec examples.  Three `РасчСчет=…` lines for the
array-typed field decode to a three-element ordered list in source order; two
occurrences of the single-valued `Номер` field raise `SchemaViolation`. -/
theorem C3_field_multiplicity_witness :
    ((["РасчСчет=1".toList, "РасчСчет=2".toList, "РасчСчет=3".toList] ≠
        ([] : List Str) ∧
      (∀ l ∈ ["РасчСчет=1".toList, "РасчСчет=2".toList, "РасчСчет=3".toList],
        nlc ∉ l)) ∧
      Field.get_value_from_text
        (mkF "РасчСчет" "Расчетный счет организации" Required.BOTH Ty.array)
        (joinC nlc ["РасчСчет=1".toList, "РасчСчет=2".toList, "РасчСчет=3".toList]) =
        .ok (.vlist [some "1".toList, some "2".toList, some "3".toList])) ∧
    ((["Номер=1".toList, "Номер=2".toList] ≠ ([] : List Str) ∧
      (∀ l ∈ ["Номер=1".toList, "Номер=2".toList], nlc ∉ l)) ∧
      Field.get_value_from_text (mkF "Номер" "Номер документа" Required.BOTH Ty.text)
        (joinC nlc ["Номер=1".toList, "Номер=2".toList]) =
        .error (.schemaViolation "Номер".toList)) := by
  constructor
  · refine ⟨⟨by decide, by decide⟩, ?_⟩
    have h := C3_field_multiplicity
      (mkF "РасчСчет" "Расчетный счет организации" Required.BOTH Ty.array)
      ["РасчСчет=1".toList, "РасчСчет=2".toList, "РасчСчет=3".toList]
      (by decide) (by decide)
    have happ := h.2.2.2.1 "1".toList "2".toList ["3".toList] (by decide) (by decide)
    rw [happ]
    decide
  · refine ⟨⟨by decide, by decide⟩, ?_⟩
    have h := C3_field_multiplicity
      (mkF "Номер" "Номер документа" Required.BOTH Ty.text)
      ["Номер=1".toList, "Номер=2".toList] (by decide) (by decide)
    exact h.2.1 "1".toList "2".toList [] (by decide) (by decide)

theorem joinC_eq_nil_iff {c : Char} {ls : List Str} :
    joinC c ls = [] ↔ ls = [] ∨ ls = [[]] := by
  cases ls with
  | nil => simp [joinC]
  | cons l rest =>
    cases rest with
    | nil => simp [joinC]
    | cons r rs =>
      rw [joinC_cons c l (r :: rs) (by simp)]
      simp

theorem getLine_req_ne_nil {f : Field} {v : Value}
    (hreq : f.required.toBank = true) (hkey : f.key ≠ []) : getLine f v ≠ [] := by
  unfold getLine
  rw [if_neg (by simp [hreq])]
  split
  · exact hkey
  · simp

theorem joinC_ne_nil_of {c : Char} {ls : List Str} (hne : ls ≠ [])
    (hels : ∀ l ∈ ls, l ≠ []) : joinC c ls ≠ [] := by
  intro habs
  rcases joinC_eq_nil_iff.mp habs with h1 | h2
  · exact hne h1
  · exact hels [] (h2 ▸ by simp) rfl

/-- C4.  Evaluation at the failing input: the `Сумма` field of the flat
document schema is ToBank-required and amount-typed; with the amount absent,
`amount_to_str(None)` renders the non-empty string `None`, so `validate_attr`
does not raise and serialization emits the line `Сумма=None`. -/
theorem C4_absent_amount_passes_gate :
    (documentSchema.getD 3 (mkF "" "" Required.NONE Ty.text)).required.toBank
        = true ∧
    (documentSchema.getD 3 (mkF "" "" Required.NONE Ty.text)).type = Ty.amount ∧
    Ty.castToText Ty.amount Value.vnone = "None".toList ∧
    validateSection documentSchema
      [.vstr "Платежное поручение".toList, .vstr "1".toList,
       .vdate ⟨2020, 1, 15⟩, .vnone] = .ok () ∧
    sectionToText documentSchema
      [.vstr "Платежное поручение".toList, .vstr "1".toList,
       .vdate ⟨2020, 1, 15⟩, .vnone] true =
      .ok ("СекцияДокумент=Платежное поручение" ++ "\n" ++ "Номер=1" ++ "\n" ++
        "Дата=15.01.2020" ++ "\n" ++ "Сумма=None").toList := by
  refine ⟨by decide, by decide, by decide, by decide, by decide⟩

/-- C5 counterexample.  A `Payer` with every attribute absent, serialized
with `validate=false`: the ToBank-required fields — `account_number`
(`ПлательщикРасчСчет`) among them — are still rendered as `key=` lines with
an empty value, not omitted. -/
theorem C5_required_empty_line_counterexample :
    sectionToText payerSchema (payerSchema.map fun _ => Value.vnone) false =
      .ok ("ПлательщикСчет=" ++ "\n" ++ "Плательщик=" ++ "\n" ++
        "ПлательщикИНН=" ++ "\n" ++ "Плательщик1=" ++ "\n" ++
        "ПлательщикРасчСчет=" ++ "\n" ++ "ПлательщикБанк1=" ++ "\n" ++
        "ПлательщикБанк2=" ++ "\n" ++ "ПлательщикБИК=" ++ "\n" ++
        "ПлательщикКорсчет=").toList ∧
    "ПлательщикРасчСчет=".toList ∈
      splitOnC nlc (renderSection payerSchema (payerSchema.map fun _ => Value.vnone)) := by
  refine ⟨by decide, by decide⟩

/-- C5 (amended).  Serializing any section with `validate=false` always
succeeds.  A field that is **not** ToBank-required and whose encoded value is
empty contributes no line (for an array-typed field this is stated for
well-typed stored values: absent or a list); a ToBank-required field always
contributes non-empty text — a `key=` line even when its value is empty, and
an absent amount-typed field encodes as the non-empty string `None`, so its
line reads `key=None`. -/
theorem C5_empty_field_omission (S : List Field) (vals : List Value)
    (hkeys : ∀ f ∈ S, f.key ≠ []) :
    (sectionToText S vals false = .ok (renderSection S vals)) ∧
    (∀ fv ∈ S.zip vals,
      (fv.1.type = Ty.array → fv.2 = Value.vnone ∨ ∃ xs, fv.2 = Value.vlist xs) →
      fv.1.required.toBank = false →
      fv.1.type.castToText fv.2 = [] → getText fv.1 fv.2 = []) ∧
    (∀ fv ∈ S.zip vals, fv.1.required.toBank = true → getText fv.1 fv.2 ≠ []) := by
  refine ⟨rfl, ?_, ?_⟩
  · intro fv hfv hwt hreq henc
    have hline : getLine fv.1 fv.2 = [] := by
      unfold getLine
      rw [if_pos ⟨by simp [hreq], henc⟩]
    unfold getText
    split
    · rename_i hcond
      obtain ⟨htr, harr⟩ := hcond
      rcases hwt harr with hv | ⟨xs, hv⟩
      · rw [hv] at htr
        simp [Value.truthy] at htr
      · cases xs with
        | nil =>
          rw [hv] at htr
          simp [Value.truthy] at htr
        | cons it its =>
          exfalso
          rw [hv, harr] at henc
          simp only [Ty.castToText, Cast.text_to_str] at henc
          rw [if_neg (by simp)] at henc
          unfold strip pyReprList at henc
          rw [List.cons_append] at henc
          rw [show ('[' :: (joinSep [',', ' '] ((it :: its).map pyReprOpt) ++
              [']'])).dropWhile pySpace =
              '[' :: (joinSep [',', ' '] ((it :: its).map pyReprOpt) ++ [']']) by
            rw [List.dropWhile_cons, if_neg (by decide)]] at henc
          rw [List.reverse_eq_nil_iff, List.dropWhile_eq_nil_iff] at henc
          have hsp := henc '[' (by simp)
          exact absurd hsp (by decide)
    · exact hline
  · intro fv hfv hreq
    have hkey : fv.1.key ≠ [] := hkeys fv.1 (List.mem_zip hfv).1
    unfold getText
    split
    · rename_i hcond
      obtain ⟨htr, harr⟩ := hcond
      cases hv : fv.2 with
      | vlist xs =>
        cases xs with
        | nil => rw [hv] at htr; simp [Value.truthy] at htr
        | cons it its =>
          apply joinC_ne_nil_of (by simp)
          intro l hl
          obtain ⟨e, he, hle⟩ := List.mem_map.mp hl
          rw [← hle]
          exact getLine_req_ne_nil hreq hkey
      | vstr s =>
        cases s with
        | nil => rw [hv] at htr; simp [Value.truthy] at htr
        | cons ch chs =>
          apply joinC_ne_nil_of (by simp)
          intro l hl
          obtain ⟨e, he, hle⟩ := List.mem_map.mp hl
          rw [← hle]
          exact getLine_req_ne_nil hreq hkey
      | vnone => exact getLine_req_ne_nil hreq hkey
      | vdate dd => exact getLine_req_ne_nil hreq hkey
      | vtime tt => exact getLine_req_ne_nil hreq hkey
      | vamount am => exact getLine_req_ne_nil hreq hkey
    · exact getLine_req_ne_nil hreq hkey

theorem C5_empty_field_omission_witness :
    (∀ f ∈ balanceSchema, f.key ≠ []) ∧
    sectionToText balanceSchema (balanceSchema.map fun _ => Value.vnone) false =
      .ok (renderSection balanceSchema (balanceSchema.map fun _ => Value.vnone)) :=
  ⟨by decide,
    (C5_empty_field_omission balanceSchema
      (balanceSchema.map fun _ => Value.vnone) (by decide)).1⟩

/-- C7.  Evaluation at a full text with a header prefix and one document but
no balance block: the balance regex finds no span, `extract_section_text`
returns `None`, and the first field's `re.findall(pattern, None)` raises
`TypeError` — header and document parsing of the same text succeed, yet
`Statement.from_text` fails instead of producing a balance-less statement. -/
theorem C7_no_balance_crashes :
    balSpans noBalanceInput = [] ∧
    Balance.from_text noBalanceInput = .error .typeError ∧
    Header.from_text noBalanceInput = .ok (List.replicate 11 Value.vnone) ∧
    (Document.from_text noBalanceInput).isOk = true ∧
    Statement.from_text noBalanceInput = .error .typeError := by
  have hsf : splitFirst balBeginMark noBalanceInput = none := by decide
  have hbal : balSpans noBalanceInput = [] := by
    unfold balSpans
    rw [hsf]
  have hbft : Balance.from_text noBalanceInput = .error .typeError := by
    unfold Balance.from_text
    rw [hbal]
    rfl
  have hh : Header.from_text noBalanceInput = .ok (List.replicate 11 Value.vnone) := by
    decide
  refine ⟨hbal, hbft, hh, ?_, ?_⟩
  · have hd0 : splitFirst secDocMark noBalanceInput =
        some ("1CClientBankExchange\n".toList,
          "=Плата\nНомер=1\nКонецДокумента".toList) := by decide
    have hd1 : splitFirst endDocMark "=Плата\nНомер=1\nКонецДокумента".toList =
        some ("=Плата\nНомер=1\n".toList, ([] : Str)) := by decide
    have hd2 : splitFirst secDocMark ([] : Str) = none := by decide
    have hdnil : docSpans ([] : Str) = [] := by
      unfold docSpans
      rw [hd2]
    have hdocs : docSpans noBalanceInput =
        [secDocMark ++ "=Плата\nНомер=1\n".toList] := by
      unfold docSpans
      rw [hd0]
      simp only []
      rw [hd1]
      simp only []
      rw [hdnil]
    unfold Document.from_text
    rw [hdocs]
    decide
  · unfold Statement.from_text
    rw [hh, hbft]
    rfl

/-- C10.  Validation does not reach the sub-sections: `Document.to_text`
renders each attached sub-section through `str(x)`, i.e. with validation
off, so even when serializing the attached payer directly with
`validate=true` raises a `ValidationError`, document serialization with
`validate=true` succeeds (provided the flat fields pass their own gate) and
its output embeds the payer's unvalidated rendering. -/
theorem C10_subsection_validation_skipped (d : Document) (pv : List Value)
    (k : Str) (hp : d.payer = some pv)
    (hsub : sectionToText payerSchema pv true = .error (.validationError k))
    (hflat : validateSection documentSchema d.vals = .ok ()) :
    Document.to_text d true =
      .ok (renderSection documentSchema d.vals ++
        nlc :: joinC nlc (subsectionStrs d ++ [endDocMark])) ∧
    renderSection payerSchema pv ∈ subsectionStrs d := by
  constructor
  · unfold Document.to_text sectionToText
    rw [if_pos rfl, hflat]
    rfl
  · refine List.mem_filterMap.mpr ⟨some (renderSection payerSchema pv), ?_, rfl⟩
    simp [subsectionStrs, hp]

theorem C10_subsection_validation_skipped_witness :
    sectionToText payerSchema (payerSchema.map fun _ => Value.vnone) true =
      .error (.validationError "ПлательщикСчет".toList) ∧
    validateSection documentSchema
      [.vstr "Платежное поручение".toList, .vstr "1".toList,
       .vdate ⟨2020, 1, 15⟩, .vamount ⟨false, 100, 0⟩] = .ok () ∧
    (Document.to_text
        ⟨[.vstr "Платежное поручение".toList, .vstr "1".toList,
          .vdate ⟨2020, 1, 15⟩, .vamount ⟨false, 100, 0⟩],
         none, some (payerSchema.map fun _ => Value.vnone),
         none, none, none, none⟩ true).isOk = true := by
  refine ⟨by decide, by decide, ?_⟩
  rcases C10_subsection_validation_skipped
      ⟨[.vstr "Платежное поручение".toList, .vstr "1".toList,
        .vdate ⟨2020, 1, 15⟩, .vamount ⟨false, 100, 0⟩],
       none, some (payerSchema.map fun _ => Value.vnone),
       none, none, none, none⟩
      (payerSchema.map fun _ => Value.vnone)
      "ПлательщикСчет".toList rfl (by decide) (by decide) with ⟨heq, hmem⟩
  rw [heq]
  rfl

/-- C8.  Emission order.  Splitting a rendered section on newlines recovers
exactly the non-empty per-field texts, in schema declaration order (the line
list is a sublist of the schema-ordered text list, so no reordering occurs);
a document renders its flat section first, then the attached sub-sections in
the fixed order Receipt, Payer, Receiver, Payment, Tax, Special — interior
lines only — followed by the end-of-document marker line. -/
theorem C8_emission_order (S : List Field) (vals : List Value) (d : Document)
    (r p rc pm tx sp : List Value)
    (hnl : ∀ fv ∈ S.zip vals, nlc ∉ getText fv.1 fv.2)
    (hne : renderLines S vals ≠ [])
    (hr : d.receipt = some r) (hp : d.payer = some p)
    (hrc : d.receiver = some rc) (hpm : d.payment = some pm)
    (htx : d.tax = some tx) (hsp : d.special = some sp) :
    splitOnC nlc (renderSection S vals) = renderLines S vals ∧
    List.Sublist (renderLines S vals)
      ((S.zip vals).map fun fv => getText fv.1 fv.2) ∧
    Document.to_text d false =
      .ok (renderSection documentSchema d.vals ++
        nlc :: joinC nlc (subsectionStrs d ++ [endDocMark])) ∧
    subsectionStrs d =
      [renderSection receiptSchema r, renderSection payerSchema p,
       renderSection receiverSchema rc, renderSection paymentSchema pm,
       renderSection taxSchema tx, renderSection specialSchema sp] := by
  refine ⟨?_, ?_, rfl, ?_⟩
  · apply splitOnC_joinC nlc (renderLines S vals) hne
    intro l hl
    have hl2 : l ∈ (S.zip vals).map fun fv => getText fv.1 fv.2 :=
      List.mem_of_mem_filter hl
    obtain ⟨fv, hfv, hle⟩ := List.mem_map.mp hl2
    rw [← hle]
    exact hnl fv hfv
  · exact List.filter_sublist _
  · simp [subsectionStrs, hr, hp, hrc, hpm, htx, hsp]

theorem C8_emission_order_witness :
    (∀ fv ∈ payerSchema.zip (payerSchema.map fun _ => Value.vnone),
      nlc ∉ getText fv.1 fv.2) ∧
    renderLines payerSchema (payerSchema.map fun _ => Value.vnone) ≠ [] ∧
    splitOnC nlc
        (renderSection payerSchema (payerSchema.map fun _ => Value.vnone)) =
      renderLines payerSchema (payerSchema.map fun _ => Value.vnone) ∧
    subsectionStrs
        ⟨[], some (receiptSchema.map fun _ => Value.vnone),
         some (payerSchema.map fun _ => Value.vnone),
         some (receiverSchema.map fun _ => Value.vnone),
         some (paymentSchema.map fun _ => Value.vnone),
         some (taxSchema.map fun _ => Value.vnone),
         some (specialSchema.map fun _ => Value.vnone)⟩ =
      [renderSection receiptSchema (receiptSchema.map fun _ => Value.vnone),
       renderSection payerSchema (payerSchema.map fun _ => Value.vnone),
       renderSection receiverSchema (receiverSchema.map fun _ => Value.vnone),
       renderSection paymentSchema (paymentSchema.map fun _ => Value.vnone),
       renderSection taxSchema (taxSchema.map fun _ => Value.vnone),
       renderSection specialSchema (specialSchema.map fun _ => Value.vnone)] := by
  refine ⟨by decide, by decide, ?_⟩
  have h := C8_emission_order payerSchema (payerSchema.map fun _ => Value.vnone)
    ⟨[], some (receiptSchema.map fun _ => Value.vnone),
     some (payerSchema.map fun _ => Value.vnone),
     some (receiverSchema.map fun _ => Value.vnone),
     some (paymentSchema.map fun _ => Value.vnone),
     some (taxSchema.map fun _ => Value.vnone),
     some (specialSchema.map fun _ => Value.vnone)⟩
    (receiptSchema.map fun _ => Value.vnone)
    (payerSchema.map fun _ => Value.vnone)
    (receiverSchema.map fun _ => Value.vnone)
    (paymentSchema.map fun _ => Value.vnone)
    (taxSchema.map fun _ => Value.vnone)
    (specialSchema.map fun _ => Value.vnone)
    (by decide) (by decide) rfl rfl rfl rfl rfl rfl
  exact ⟨h.1, h.2.2.2⟩

theorem dateLeB_iff (a b : PyDate) : dateLeB a b = true ↔
    (a.year < b.year ∨ (a.year = b.year ∧ (a.month < b.month ∨
      (a.month = b.month ∧ a.day ≤ b.day)))) := by
  unfold dateLeB
  by_cases h1 : a.year = b.year
  · by_cases h2 : a.month = b.month
    · rw [if_neg (by simp [h1]), if_neg (by simp [h2])]
      simp only [decide_eq_true_eq]
      omega
    · rw [if_neg (by simp [h1]), if_pos h2]
      simp only [decide_eq_true_eq]
      omega
  · rw [if_pos h1]
    simp only [decide_eq_true_eq]
    omega

theorem dateLeB_refl (a : PyDate) : dateLeB a a = true := by
  rw [dateLeB_iff]
  omega

theorem dateLeB_trans {a b c : PyDate} (h1 : dateLeB a b = true)
    (h2 : dateLeB b c = true) : dateLeB a c = true := by
  rw [dateLeB_iff] at h1 h2 ⊢
  omega

theorem dateLeB_of_lt {a b : PyDate} (h : dateLtB a b = true) :
    dateLeB a b = true := by
  unfold dateLtB at h
  simp only [Bool.and_eq_true] at h
  exact h.1

theorem dateLeB_of_not_lt {a b : PyDate} (h : dateLtB b a = false) :
    dateLeB a b = true := by
  by_cases hba : b = a
  · rw [hba]
    exact dateLeB_refl a
  · have h2 : ¬ (dateLeB b a = true) := by
      intro hle
      rw [dateLtB, hle] at h
      simp [hba] at h
    rw [dateLeB_iff] at h2 ⊢
    omega

theorem isDate_exists {v : Value} (h : v.isDate = true) :
    ∃ a, v = Value.vdate a := by
  cases v with
  | vdate a => exact ⟨a, rfl⟩
  | vnone => simp [Value.isDate] at h
  | vstr s => simp [Value.isDate] at h
  | vtime t => simp [Value.isDate] at h
  | vamount x => simp [Value.isDate] at h
  | vlist l => simp [Value.isDate] at h

theorem pyMinDates_spec (xs : List Value) : ∀ (a : PyDate),
    (∀ x ∈ xs, ∃ b, x = Value.vdate b) →
    ∃ m, pyMinDates (Value.vdate a) xs = .ok (Value.vdate m) ∧
      (m = a ∨ Value.vdate m ∈ xs) ∧ dateLeB m a = true ∧
      (∀ x ∈ xs, ∀ b, x = Value.vdate b → dateLeB m b = true) := by
  induction xs with
  | nil =>
    intro a hxs
    exact ⟨a, rfl, Or.inl rfl, dateLeB_refl a, by intro x hx; cases hx⟩
  | cons x xs ih =>
    intro a hxs
    obtain ⟨b, hb⟩ := hxs x (by simp)
    subst hb
    have hstep : pyMinDates (Value.vdate a) (Value.vdate b :: xs) =
        pyMinDates (if dateLtB b a then Value.vdate b else Value.vdate a) xs :=
      rfl
    by_cases hlt : dateLtB b a = true
    · rw [hstep, if_pos hlt]
      obtain ⟨m, hrun, hmem, hle, hall⟩ :=
        ih b (fun y hy => hxs y (List.mem_cons_of_mem _ hy))
      refine ⟨m, hrun, ?_, ?_, ?_⟩
      · rcases hmem with h | h
        · exact Or.inr (by simp [h])
        · exact Or.inr (List.mem_cons_of_mem _ h)
      · exact dateLeB_trans hle (dateLeB_of_lt hlt)
      · intro y hy c hc
        rcases List.mem_cons.mp hy with h | h
        · rw [h] at hc
          injection hc with h2
          subst h2
          exact hle
        · exact hall y h c hc
    · rw [hstep, if_neg hlt]
      obtain ⟨m, hrun, hmem, hle, hall⟩ :=
        ih a (fun y hy => hxs y (List.mem_cons_of_mem _ hy))
      refine ⟨m, hrun, ?_, hle, ?_⟩
      · rcases hmem with h | h
        · exact Or.inl h
        · exact Or.inr (List.mem_cons_of_mem _ h)
      · intro y hy c hc
        rcases List.mem_cons.mp hy with h | h
        · rw [h] at hc
          injection hc with h2
          subst h2
          exact dateLeB_trans hle
            (dateLeB_of_not_lt (Bool.not_eq_true _ ▸ hlt))
        · exact hall y h c hc

theorem pyMaxDates_spec (xs : List Value) : ∀ (a : PyDate),
    (∀ x ∈ xs, ∃ b, x = Value.vdate b) →
    ∃ m, pyMaxDates (Value.vdate a) xs = .ok (Value.vdate m) ∧
      (m = a ∨ Value.vdate m ∈ xs) ∧ dateLeB a m = true ∧
      (∀ x ∈ xs, ∀ b, x = Value.vdate b → dateLeB b m = true) := by
  induction xs with
  | nil =>
    intro a hxs
    exact ⟨a, rfl, Or.inl rfl, dateLeB_refl a, by intro x hx; cases hx⟩
  | cons x xs ih =>
    intro a hxs
    obtain ⟨b, hb⟩ := hxs x (by simp)
    subst hb
    have hstep : pyMaxDates (Value.vdate a) (Value.vdate b :: xs) =
        pyMaxDates (if dateLtB a b then Value.vdate b else Value.vdate a) xs :=
      rfl
    by_cases hlt : dateLtB a b = true
    · rw [hstep, if_pos hlt]
      obtain ⟨m, hrun, hmem, hle, hall⟩ :=
        ih b (fun y hy => hxs y (List.mem_cons_of_mem _ hy))
      refine ⟨m, hrun, ?_, ?_, ?_⟩
      · rcases hmem with h | h
        · exact Or.inr (by simp [h])
        · exact Or.inr (List.mem_cons_of_mem _ h)
      · exact dateLeB_trans (dateLeB_of_lt hlt) hle
      · intro y hy c hc
        rcases List.mem_cons.mp hy with h | h
        · rw [h] at hc
          injection hc with h2
          subst h2
          exact hle
        · exact hall y h c hc
    · rw [hstep, if_neg hlt]
      obtain ⟨m, hrun, hmem, hle, hall⟩ :=
        ih a (fun y hy => hxs y (List.mem_cons_of_mem _ hy))
      refine ⟨m, hrun, ?_, hle, ?_⟩
      · rcases hmem with h | h
        · exact Or.inl h
        · exact Or.inr (List.mem_cons_of_mem _ h)
      · intro y hy c hc
        rcases List.mem_cons.mp hy with h | h
        · rw [h] at hc
          injection hc with h2
          subst h2
          exact dateLeB_trans
            (dateLeB_of_not_lt (Bool.not_eq_true _ ▸ hlt)) hle
        · exact hall y h c hc

theorem mapE_cons_ok {α β : Type} {f : α → Except Err β} {x : α} {xs : List α}
    {ys : List β} (h : mapE f (x :: xs) = .ok ys) :
    ∃ y ys2, f x = .ok y ∧ mapE f xs = .ok ys2 ∧ ys = y :: ys2 := by
  unfold mapE at h
  cases hfx : f x with
  | error e =>
    rw [hfx] at h
    simp at h
  | ok y =>
    rw [hfx] at h
    cases hrest : mapE f xs with
    | error e =>
      rw [hrest] at h
      simp at h
    | ok ys2 =>
      rw [hrest] at h
      simp at h
      exact ⟨y, ys2, rfl, rfl, h.symm⟩

theorem mapE_acc_of_bics : ∀ (documents : List Document) (bics : List Value),
    mapE Document.payerBankBic documents = .ok bics →
    ∃ accs, mapE Document.payerAccountNumber documents = .ok accs ∧
      List.Forall₂ (fun d a => Document.payerAccountNumber d = .ok a)
        documents accs
  | [], _, _ => ⟨[], rfl, List.Forall₂.nil⟩
  | d :: ds, bics, h => by
    obtain ⟨y, ys2, hfd, hrest, hbeq⟩ := mapE_cons_ok h
    obtain ⟨accs, haccs, hf2⟩ := mapE_acc_of_bics ds ys2 hrest
    cases hpd : d.payer with
    | none =>
      unfold Document.payerBankBic at hfd
      rw [hpd] at hfd
      simp at hfd
    | some pv =>
      have hacc : Document.payerAccountNumber d = .ok (pv.getD 8 .vnone) := by
        unfold Document.payerAccountNumber
        rw [hpd]
      refine ⟨pv.getD 8 .vnone :: accs, ?_, List.Forall₂.cons hacc hf2⟩
      unfold mapE
      rw [hacc, haccs]

/-- C6.  `Statement.from_documents` on documents that each carry a payer
(the BIC comprehension succeeds with values `bics`) and a stored date:
it fails — with the single-bank error — exactly when the payer BICs are not
all equal, and when they are all equal it succeeds with no balance and a
header holding the constants `1.02` / `Windows`, the sender, today's date
and time, the minimum and maximum document dates as the filter range and
the deduplicated payer account numbers as the account filter. -/
theorem C6_from_documents (today : PyDate) (now : PyTime) (sender : Str)
    (documents : List Document) (bics : List Value)
    (hne : documents ≠ [])
    (hbics : mapE Document.payerBankBic documents = .ok bics)
    (hdates : ∀ d ∈ documents, (Document.dateVal d).isDate = true) :
    (Statement.from_documents today now sender documents =
        .error .bankInvariantError ↔ 1 < bics.dedup.length) ∧
    (bics.dedup.length = 1 →
      ∃ accs dmin dmax,
        List.Forall₂ (fun d a => Document.payerAccountNumber d = .ok a)
          documents accs ∧
        Statement.from_documents today now sender documents =
          .ok ⟨[Value.vnone, Value.vstr "1.02".toList,
            Value.vstr "Windows".toList, Value.vstr sender, Value.vnone,
            Value.vdate today, Value.vtime now, Value.vdate dmin,
            Value.vdate dmax, Value.vlist ((accs.map valueToOptStr).dedup),
            Value.vnone], none, documents⟩ ∧
        Value.vdate dmin ∈ documents.map Document.dateVal ∧
        Value.vdate dmax ∈ documents.map Document.dateVal ∧
        (∀ d ∈ documents, ∀ a, Document.dateVal d = Value.vdate a →
          dateLeB dmin a = true ∧ dateLeB a dmax = true)) := by
  by_cases hlen : bics.dedup.length = 1
  · cases documents with
    | nil => exact absurd rfl hne
    | cons dh dt =>
      obtain ⟨a0, ha0⟩ := isDate_exists (hdates dh (by simp))
      have htail : ∀ x ∈ dt.map Document.dateVal, ∃ b, x = Value.vdate b := by
        intro x hx
        obtain ⟨d, hd, hdx⟩ := List.mem_map.mp hx
        exact isDate_exists (hdx ▸ hdates d (List.mem_cons_of_mem _ hd))
      obtain ⟨dmin, hminrun, hminmem, hminle, hminall⟩ :=
        pyMinDates_spec (dt.map Document.dateVal) a0 htail
      obtain ⟨dmax, hmaxrun, hmaxmem, hmaxge, hmaxall⟩ :=
        pyMaxDates_spec (dt.map Document.dateVal) a0 htail
      obtain ⟨accs, haccs, hf2⟩ := mapE_acc_of_bics (dh :: dt) bics hbics
      have hrun : Statement.from_documents today now sender (dh :: dt) =
          .ok ⟨[Value.vnone, Value.vstr "1.02".toList,
            Value.vstr "Windows".toList, Value.vstr sender, Value.vnone,
            Value.vdate today, Value.vtime now, Value.vdate dmin,
            Value.vdate dmax, Value.vlist ((accs.map valueToOptStr).dedup),
            Value.vnone], none, dh :: dt⟩ := by
        simp only [Statement.from_documents, hbics, hlen, if_true,
          List.map_cons, ha0, hminrun, hmaxrun, haccs]
      refine ⟨?_, ?_⟩
      · rw [hrun]
        constructor
        · intro h
          simp at h
        · intro h
          omega
      · intro _
        refine ⟨accs, dmin, dmax, hf2, hrun, ?_, ?_, ?_⟩
        · rcases hminmem with h | h
          · rw [List.map_cons, ha0, h]
            exact List.mem_cons_self _ _
          · exact List.mem_cons_of_mem _ h
        · rcases hmaxmem with h | h
          · rw [List.map_cons, ha0, h]
            exact List.mem_cons_self _ _
          · exact List.mem_cons_of_mem _ h
        · intro d hd a ha
          rcases List.mem_cons.mp hd with h | h
          · subst h
            rw [ha] at ha0
            injection ha0 with h2
            subst h2
            exact ⟨hminle, hmaxge⟩
          · have hx : Document.dateVal d ∈ dt.map Document.dateVal :=
              List.mem_map_of_mem _ h
            exact ⟨hminall _ hx a ha, hmaxall _ hx a ha⟩
  · have herr : Statement.from_documents today now sender documents =
        .error .bankInvariantError := by
      simp only [Statement.from_documents, hbics]
      rw [if_neg hlen]
    have hpos : 1 ≤ bics.dedup.length := by
      cases documents with
      | nil => exact absurd rfl hne
      | cons dh dt =>
        obtain ⟨y, ys2, _, _, hbeq⟩ := mapE_cons_ok hbics
        have hymem : y ∈ bics.dedup := List.mem_dedup.mpr (by rw [hbeq]; simp)
        have := List.length_pos.mpr (List.ne_nil_of_mem hymem)
        omega
    refine ⟨?_, fun h => absurd h hlen⟩
    rw [herr]
    simp only [true_iff]
    omega

theorem C6_from_documents_witness :
    sampleDocuments ≠ [] ∧
    mapE Document.payerBankBic sampleDocuments =
      .ok [Value.vstr "044525225".toList, Value.vstr "044525225".toList] ∧
    (∀ d ∈ sampleDocuments, (Document.dateVal d).isDate = true) ∧
    (Statement.from_documents ⟨2026, 10, 12⟩ ⟨12, 0, 0⟩ "Ромашка".toList
        sampleDocuments = .error .bankInvariantError ↔
      1 < [Value.vstr "044525225".toList,
        Value.vstr "044525225".toList].dedup.length) := by
  refine ⟨by decide, by decide, by decide, ?_⟩
  exact (C6_from_documents ⟨2026, 10, 12⟩ ⟨12, 0, 0⟩ "Ромашка".toList
    sampleDocuments
    [Value.vstr "044525225".toList, Value.vstr "044525225".toList]
    (by decide) (by decide) (by decide)).1

/-- C1 counterexample.  A document whose three ToBank-required flat fields
are all populated but whose (non-required) `document_type` is absent passes
the outbound validation gate; its serialization carries no
`СекцияДокумент` marker, so parsing it back finds no document span,
`extract_section_text` returns `None` and `Document.from_text` crashes with
a `TypeError` instead of reproducing the document. -/
theorem C1_missing_marker_counterexample :
    ((documentSchema.zip
        [Value.vnone, Value.vstr "1".toList, Value.vdate ⟨2020, 1, 15⟩,
         Value.vamount ⟨false, 10000, -2⟩]).all
      fun fv => !fv.1.required.toBank || !(fv.2 == Value.vnone)) = true ∧
    validateSection documentSchema
      [Value.vnone, Value.vstr "1".toList, Value.vdate ⟨2020, 1, 15⟩,
       Value.vamount ⟨false, 10000, -2⟩] = .ok () ∧
    Document.to_text
      ⟨[Value.vnone, Value.vstr "1".toList, Value.vdate ⟨2020, 1, 15⟩,
        Value.vamount ⟨false, 10000, -2⟩],
       none, none, none, none, none, none⟩ true =
      .ok ("Номер=1" ++ "\n" ++ "Дата=15.01.2020" ++ "\n" ++
        "Сумма=100.00" ++ "\n" ++ "КонецДокумента").toList ∧
    docSpans ("Номер=1" ++ "\n" ++ "Дата=15.01.2020" ++ "\n" ++
      "Сумма=100.00" ++ "\n" ++ "КонецДокумента").toList = [] ∧
    Document.from_text ("Номер=1" ++ "\n" ++ "Дата=15.01.2020" ++ "\n" ++
      "Сумма=100.00" ++ "\n" ++ "КонецДокумента").toList =
      .error .typeError := by
  have hsf : splitFirst secDocMark
      ("Номер=1" ++ "\n" ++ "Дата=15.01.2020" ++ "\n" ++
        "Сумма=100.00" ++ "\n" ++ "КонецДокумента").toList = none := by
    decide
  have hds : docSpans ("Номер=1" ++ "\n" ++ "Дата=15.01.2020" ++ "\n" ++
      "Сумма=100.00" ++ "\n" ++ "КонецДокумента").toList = [] := by
    unfold docSpans
    rw [hsf]
  refine ⟨by decide, by decide, by decide, hds, ?_⟩
  unfold Document.from_text
  rw [hds]
  rfl

theorem not_infix_of_ne_mem {p s : Str} {c : Char} (hc : c ∈ p)
    (hs : ∀ x ∈ s, x ≠ c) : ¬ p <:+: s :=
  fun h => hs c (h.subset hc) rfl

theorem not_infix_nil {p : Str} (hp : p ≠ []) : ¬ p <:+: ([] : Str) :=
  fun h => hp (by simpa using h)

theorem ne_of_isDigit {c x : Char} (h : c.isDigit = true)
    (hx : x.isDigit = false) : c ≠ x := by
  intro he
  rw [he, hx] at h
  cases h

theorem date_str_chars {a : PyDate} :
    ∀ c ∈ Cast.date_to_str (some a), c.isDigit = true ∨ c = '.' := by
  intro c hc
  unfold Cast.date_to_str at hc
  rcases List.mem_append.mp hc with h | h
  · exact Or.inl (pad2_all_digit c h)
  · rcases List.mem_cons.mp h with h | h
    · exact Or.inr h
    · rcases List.mem_append.mp h with h | h
      · exact Or.inl (pad2_all_digit c h)
      · rcases List.mem_cons.mp h with h | h
        · exact Or.inr h
        · exact Or.inl (natChars_all_digit _ c h)

theorem time_str_chars {t : PyTime} :
    ∀ c ∈ Cast.time_to_str (some t), c.isDigit = true ∨ c = ':' := by
  intro c hc
  unfold Cast.time_to_str at hc
  rcases List.mem_append.mp hc with h | h
  · exact Or.inl (pad2_all_digit c h)
  · rcases List.mem_cons.mp h with h | h
    · exact Or.inr h
    · rcases List.mem_append.mp h with h | h
      · exact Or.inl (pad2_all_digit c h)
      · rcases List.mem_cons.mp h with h | h
        · exact Or.inr h
        · exact Or.inl (pad2_all_digit c h)

theorem pyDecStr_chars {a : Dec} (hp : a.Plain) :
    ∀ c ∈ pyDecStr a, c.isDigit = true ∨ c = '.' ∨ c = '-' := by
  intro c hc
  unfold pyDecStr at hc
  rw [if_pos hp] at hc
  rcases List.mem_append.mp hc with h | h
  · cases hneg : a.neg <;> rw [hneg] at h
    · simp at h
    · simp at h
      exact Or.inr (Or.inr h)
  · rcases plainBody_chars c h with h2 | h2
    · exact Or.inl h2
    · exact Or.inr (Or.inl h2)

theorem wf_enc_safe {f : Field} {v : Value} (h : WFVal f v = true) :
    nlc ∉ f.type.castToText v ∧ ¬ endDocMark <:+: f.type.castToText v := by
  have hK : 'К' ∈ endDocMark := by decide
  cases v with
  | vnone =>
    simp only [WFVal, Bool.and_eq_true, Bool.or_eq_true, beq_iff_eq,
      Bool.not_eq_true'] at h
    obtain ⟨hreq, hty⟩ := h
    have henc : f.type.castToText Value.vnone = [] := by
      rcases hty with (h | h) | h <;> rw [h] <;> rfl
    rw [henc]
    exact ⟨by simp, not_infix_nil (by decide)⟩
  | vstr s =>
    simp only [WFVal, Bool.and_eq_true, beq_iff_eq, decide_eq_true_eq,
      Bool.not_eq_true'] at h
    obtain ⟨⟨⟨⟨hty, hne⟩, hstr⟩, hnl⟩, hinf⟩ := h
    have henc : f.type.castToText (Value.vstr s) = s := by
      rw [hty]
      show (if s.isEmpty then [] else strip s) = s
      rw [hne]
      simp only [Bool.false_eq_true, if_false]
      exact hstr
    rw [henc]
    exact ⟨hnl, hinf⟩
  | vdate a =>
    simp only [WFVal, Bool.and_eq_true, beq_iff_eq, decide_eq_true_eq] at h
    obtain ⟨⟨hty, hv⟩, hy⟩ := h
    have henc : f.type.castToText (Value.vdate a) = Cast.date_to_str (some a) := by
      rw [hty]
      rfl
    rw [henc]
    constructor
    · intro hc
      rcases date_str_chars nlc hc with h2 | h2
      · exact absurd h2 (by decide)
      · exact absurd h2 (by decide)
    · apply not_infix_of_ne_mem hK
      intro x hx he
      rcases date_str_chars x hx with h2 | h2
      · rw [he] at h2
        exact absurd h2 (by decide)
      · rw [he] at h2
        exact absurd h2 (by decide)
  | vtime t =>
    simp only [WFVal, Bool.and_eq_true, beq_iff_eq] at h
    obtain ⟨hty, hv⟩ := h
    have henc : f.type.castToText (Value.vtime t) = Cast.time_to_str (some t) := by
      rw [hty]
      rfl
    rw [henc]
    constructor
    · intro hc
      rcases time_str_chars nlc hc with h2 | h2
      · exact absurd h2 (by decide)
      · exact absurd h2 (by decide)
    · apply not_infix_of_ne_mem hK
      intro x hx he
      rcases time_str_chars x hx with h2 | h2
      · rw [he] at h2
        exact absurd h2 (by decide)
      · rw [he] at h2
        exact absurd h2 (by decide)
  | vamount a =>
    simp only [WFVal, Bool.and_eq_true, beq_iff_eq, decide_eq_true_eq] at h
    obtain ⟨hty, hpl⟩ := h
    have henc : f.type.castToText (Value.vamount a) =
        Cast.amount_to_str (some a) := by
      rw [hty]
      rfl
    have hid : Cast.amount_to_str (some a) = pyDecStr a := by
      show (pyDecStr a).map (fun c => if c = ',' then '.' else c) = pyDecStr a
      have hcg : ∀ c ∈ pyDecStr a, (if c = ',' then '.' else c) = id c := by
        intro c hc
        rcases pyDecStr_chars hpl c hc with h2 | h2 | h2
        · rw [if_neg (ne_of_isDigit h2 (by decide))]
          rfl
        · rw [h2]
          decide
        · rw [h2]
          decide
      rw [List.map_congr_left hcg, List.map_id]
    rw [henc, hid]
    constructor
    · intro hc
      rcases pyDecStr_chars hpl nlc hc with h2 | h2 | h2
      · exact absurd h2 (by decide)
      · exact absurd h2 (by decide)
      · exact absurd h2 (by decide)
    · apply not_infix_of_ne_mem hK
      intro x hx he
      rcases pyDecStr_chars hpl x hx with h2 | h2 | h2 <;> rw [he] at h2
      · exact absurd h2 (by decide)
      · exact absurd h2 (by decide)
      · exact absurd h2 (by decide)
  | vlist xs => simp [WFVal] at h

theorem getText_eq (f : Field) (v : Value) (hflag : ¬ f.type = Ty.flag)
    (harr : ¬ f.type = Ty.array) :
    getText f v =
      if emitted f v then f.key ++ '=' :: f.type.castToText v else [] := by
  have hgl : getLine f v =
      if emitted f v then f.key ++ '=' :: f.type.castToText v else [] := by
    unfold getLine emitted
    by_cases hreq : f.required.toBank = true <;>
      by_cases henc : f.type.castToText v = [] <;>
        simp [hreq, henc, hflag, List.isEmpty_iff]
  unfold getText
  rw [if_neg (fun hcon => harr hcon.2)]
  exact hgl

theorem not_emitted_vnone {f : Field} {v : Value} (hWF : WFVal f v = true)
    (hem : emitted f v = false) : v = Value.vnone := by
  unfold emitted at hem
  rw [Bool.or_eq_false_iff] at hem
  obtain ⟨hreq, hemp⟩ := hem
  rw [Bool.not_eq_false'] at hemp
  have hne : f.type.castToText v ≠ [] → False := fun hne2 =>
    hne2 (List.isEmpty_iff.mp hemp)
  cases v with
  | vnone => rfl
  | vstr s =>
    exfalso
    simp only [WFVal, Bool.and_eq_true, beq_iff_eq, decide_eq_true_eq,
      Bool.not_eq_true'] at hWF
    obtain ⟨⟨⟨⟨hty, hsne⟩, hstr⟩, hnl⟩, hinf⟩ := hWF
    apply hne
    rw [hty]
    show (if s.isEmpty then [] else strip s) ≠ []
    rw [hsne]
    simp only [Bool.false_eq_true, if_false]
    rw [hstr]
    intro habs
    rw [habs] at hsne
    cases hsne
  | vdate a =>
    exfalso
    simp only [WFVal, Bool.and_eq_true, beq_iff_eq, decide_eq_true_eq] at hWF
    obtain ⟨⟨hty, hv⟩, hy⟩ := hWF
    apply hne
    rw [hty]
    show Cast.date_to_str (some a) ≠ []
    unfold Cast.date_to_str
    intro habs
    rcases List.append_eq_nil.mp habs with ⟨h1, h2⟩
    cases h2
  | vtime t =>
    exfalso
    simp only [WFVal, Bool.and_eq_true, beq_iff_eq] at hWF
    obtain ⟨hty, hv⟩ := hWF
    apply hne
    rw [hty]
    show Cast.time_to_str (some t) ≠ []
    unfold Cast.time_to_str
    intro habs
    rcases List.append_eq_nil.mp habs with ⟨h1, h2⟩
    cases h2
  | vamount a =>
    exfalso
    simp only [WFVal, Bool.and_eq_true, beq_iff_eq, decide_eq_true_eq] at hWF
    obtain ⟨hty, hpl⟩ := hWF
    apply hne
    rw [hty]
    show Cast.amount_to_str (some a) ≠ []
    show (pyDecStr a).map (fun c => if c = ',' then '.' else c) ≠ []
    intro habs
    rw [List.map_eq_nil_iff] at habs
    unfold pyDecStr at habs
    rw [if_pos hpl] at habs
    rcases List.append_eq_nil.mp habs with ⟨h1, h2⟩
    exact plainBody_ne_nil a h2
  | vlist xs => simp [WFVal] at hWF

theorem castFromText_round {f : Field} {v : Value} (hWF : WFVal f v = true) :
    f.type.castFromText (f.type.castToText v) = .ok v := by
  cases v with
  | vnone =>
    simp only [WFVal, Bool.and_eq_true, Bool.or_eq_true, beq_iff_eq,
      Bool.not_eq_true'] at hWF
    obtain ⟨hreq, hty⟩ := hWF
    rcases hty with (h | h) | h <;> rw [h] <;> rfl
  | vstr s =>
    simp only [WFVal, Bool.and_eq_true, beq_iff_eq, decide_eq_true_eq,
      Bool.not_eq_true'] at hWF
    obtain ⟨⟨⟨⟨hty, hne⟩, hstr⟩, hnl⟩, hinf⟩ := hWF
    have hstr2 := hstr
    rw [hty]
    have henc : Ty.castToText Ty.text (Value.vstr s) = s := by
      show (if s.isEmpty then [] else strip s) = s
      rw [hne]
      simp only [Bool.false_eq_true, if_false]
      exact hstr2
    rw [henc]
    show Except.ok (optStr (Cast.str_to_text s)) = Except.ok (Value.vstr s)
    unfold Cast.str_to_text
    rw [if_pos (by rw [hstr2]; simp [hne])]
    rw [hstr2]
    rfl
  | vdate a =>
    simp only [WFVal, Bool.and_eq_true, beq_iff_eq, decide_eq_true_eq] at hWF
    obtain ⟨⟨hty, hv⟩, hy⟩ := hWF
    rw [hty]
    show (Cast.str_to_date (Cast.date_to_str (some a))).map optDate =
      Except.ok (Value.vdate a)
    rw [str_to_date_round hv hy]
    rfl
  | vtime t =>
    simp only [WFVal, Bool.and_eq_true, beq_iff_eq] at hWF
    obtain ⟨hty, hv⟩ := hWF
    rw [hty]
    show (Cast.str_to_time (Cast.time_to_str (some t))).map optTime =
      Except.ok (Value.vtime t)
    rw [str_to_time_round hv]
    rfl
  | vamount a =>
    simp only [WFVal, Bool.and_eq_true, beq_iff_eq, decide_eq_true_eq] at hWF
    obtain ⟨hty, hpl⟩ := hWF
    rw [hty]
    show (Cast.str_to_amount (Cast.amount_to_str (some a))).map Value.vamount =
      Except.ok (Value.vamount a)
    rw [str_to_amount_round hpl]
    rfl
  | vlist xs => simp [WFVal] at hWF

theorem key_eq_of_line_match {k k2 e : Str} (hk : '=' ∉ k) (hk2 : '=' ∉ k2)
    (h : (k ++ ['=']) <+: (k2 ++ '=' :: e)) : k = k2 := by
  induction k generalizing k2 with
  | nil =>
    cases k2 with
    | nil => rfl
    | cons y k2' =>
      exfalso
      have hy : '=' = y := by simpa using h
      exact hk2 (by rw [← hy]; exact List.mem_cons_self _ _)
  | cons x k' ih =>
    cases k2 with
    | nil =>
      exfalso
      obtain ⟨hx, -⟩ : x = '=' ∧ (k' ++ ['=']) <+: e := by simpa using h
      exact hk (by rw [hx]; exact List.mem_cons_self _ _)
    | cons y k2' =>
      have h2 : x :: (k' ++ ['=']) <+: y :: (k2' ++ '=' :: e) := by
        simpa using h
      have hxy := List.cons_prefix_cons.mp h2
      have htl := ih (fun hc => hk (List.mem_cons_of_mem _ hc))
        (fun hc => hk2 (List.mem_cons_of_mem _ hc)) hxy.2
      rw [hxy.1, htl]

theorem line_match_self {k e : Str} :
    ((k ++ ['=']).isPrefixOf (k ++ '=' :: e)) = true := by
  rw [ List.isPrefixOf_iff_prefix]
  exact ⟨e, by simp⟩

theorem drop_key_line {k e : Str} : (k ++ '=' :: e).drop (k.length + 1) = e := by
  induction k with
  | nil => rfl
  | cons x k' ih => simpa [List.drop_succ_cons] using ih

theorem line_no_match {k k2 e : Str} (hk : '=' ∉ k) (hk2 : '=' ∉ k2)
    (hne : k ≠ k2) :
    ((k ++ ['=']).isPrefixOf (k2 ++ '=' :: e)) = false := by
  rw [Bool.eq_false_iff]
  intro h
  exact hne (key_eq_of_line_match hk hk2 ( List.isPrefixOf_iff_prefix.mp h))

theorem line_no_match_nil {k : Str} :
    ((k ++ ['=']).isPrefixOf ([] : Str)) = false := by
  cases k <;> rfl

theorem schemaOK_spec {S : List Field} (h : schemaOK S = true) :
    ∀ f ∈ S, f.key ≠ [] ∧ '=' ∉ f.key ∧ nlc ∉ f.key ∧
      ¬ endDocMark <:+: f.key ∧ ¬ f.type = Ty.flag ∧ ¬ f.type = Ty.array := by
  intro f hf
  rw [schemaOK, List.all_eq_true] at h
  have h2 := h f hf
  simp only [Bool.and_eq_true, Bool.not_eq_true', beq_iff_eq,
    decide_eq_true_eq, beq_eq_false_iff_ne, ne_eq] at h2
  obtain ⟨⟨⟨⟨⟨h1, ha⟩, hb⟩, hc⟩, hd⟩, he⟩ := h2
  refine ⟨?_, ha, hb, hc, hd, he⟩
  intro habs
  rw [habs] at h1
  simp at h1

theorem WFSec_spec {S : List Field} {vals : List Value}
    (h : WFSec S vals = true) :
    vals.length = S.length ∧ ∀ fv ∈ S.zip vals, WFVal fv.1 fv.2 = true := by
  rw [WFSec, Bool.and_eq_true, List.all_eq_true] at h
  exact ⟨by have := h.1; rwa [beq_iff_eq] at this, h.2⟩

theorem occ_lines (k : Str) (P : List (Field × Value))
    (hsch : ∀ fv ∈ P,
      ('=' ∉ fv.1.key) ∧ ¬ fv.1.type = Ty.flag ∧ ¬ fv.1.type = Ty.array)
    (hk : '=' ∉ k) :
    ((P.map (fun fv => getText fv.1 fv.2)).filter
        (fun l => !l.isEmpty)).filterMap (fun l =>
      if (k ++ ['=']).isPrefixOf l then some (l.drop (k.length + 1))
      else none) =
    (P.filter (fun fv => k == fv.1.key && emitted fv.1 fv.2)).map
      (fun fv => fv.1.type.castToText fv.2) := by
  induction P with
  | nil => rfl
  | cons fv P' ih =>
    have hf := hsch fv (by simp)
    have hrest := ih (fun q hq => hsch q (List.mem_cons_of_mem _ hq))
    have hgt := getText_eq fv.1 fv.2 hf.2.1 hf.2.2
    rw [List.map_cons, List.filter_cons]
    by_cases hem : emitted fv.1 fv.2 = true
    · rw [hgt, if_pos hem]
      have hlne :
          (!(fv.1.key ++ '=' :: fv.1.type.castToText fv.2).isEmpty) = true := by
        cases hkey : fv.1.key <;> rfl
      rw [if_pos hlne, List.filterMap_cons, List.filter_cons]
      by_cases hkk : k = fv.1.key
      · rw [if_pos (show ((k ++ ['=']).isPrefixOf
            (fv.1.key ++ '=' :: fv.1.type.castToText fv.2)) = true from by
          rw [hkk]; exact line_match_self)]
        rw [if_pos (show (k == fv.1.key && emitted fv.1 fv.2) = true from by
          rw [hem, beq_iff_eq.mpr hkk]; rfl)]
        rw [List.map_cons, hrest, hkk, drop_key_line]
      · rw [if_neg (show ¬ ((k ++ ['=']).isPrefixOf
            (fv.1.key ++ '=' :: fv.1.type.castToText fv.2)) = true from by
          rw [line_no_match hk hf.1 hkk]
          simp)]
        rw [if_neg (show ¬ (k == fv.1.key && emitted fv.1 fv.2) = true from by
          rw [show (k == fv.1.key) = false from beq_eq_false_iff_ne.mpr hkk]
          simp)]
        exact hrest
    · have hemF : emitted fv.1 fv.2 = false := by
        cases he : emitted fv.1 fv.2
        · rfl
        · exact absurd he hem
      rw [hgt, if_neg hem]
      rw [if_neg (show ¬ (!(List.isEmpty ([] : Str))) = true from by decide)]
      rw [List.filter_cons]
      rw [if_neg (show ¬ (k == fv.1.key && emitted fv.1 fv.2) = true from by
        rw [hemF, Bool.and_false]
        simp)]
      exact hrest

theorem occKey_empty (k : Str) : occKey k [] = [] := by
  unfold occKey
  show List.filterMap _ [[]] = []
  rw [List.filterMap_cons]
  rw [line_no_match_nil]
  rfl

theorem occKey_renderSection (k : Str) (S : List Field) (vals : List Value)
    (hschema : schemaOK S = true) (hWF : WFSec S vals = true)
    (hk : '=' ∉ k) :
    occKey k (renderSection S vals) =
      ((S.zip vals).filter (fun fv => k == fv.1.key && emitted fv.1 fv.2)).map
        (fun fv => fv.1.type.castToText fv.2) := by
  have hsch : ∀ fv ∈ S.zip vals,
      ('=' ∉ fv.1.key) ∧ ¬ fv.1.type = Ty.flag ∧ ¬ fv.1.type = Ty.array := by
    intro fv hfv
    have hs := schemaOK_spec hschema fv.1 (List.of_mem_zip hfv).1
    exact ⟨hs.2.1, hs.2.2.2.2⟩
  have hwfv := (WFSec_spec hWF).2
  cases hL : renderLines S vals with
  | nil =>
    have h1 : renderSection S vals = [] := by
      rw [renderSection, hL]
      rfl
    rw [h1, occKey_empty]
    have hall : ∀ fv ∈ S.zip vals, emitted fv.1 fv.2 = false := by
      intro fv hfv
      cases he : emitted fv.1 fv.2
      · rfl
      · exfalso
        have hgt := getText_eq fv.1 fv.2 (hsch fv hfv).2.1 (hsch fv hfv).2.2
        have hkey := (schemaOK_spec hschema fv.1 (List.of_mem_zip hfv).1).1
        have hmem : getText fv.1 fv.2 ∈ renderLines S vals := by
          refine List.mem_filter.mpr ⟨List.mem_map_of_mem _ hfv, ?_⟩
          rw [hgt, if_pos he]
          cases hck : fv.1.key with
          | nil => exact absurd hck hkey
          | cons a b => rfl
        rw [hL] at hmem
        cases hmem
    rw [List.filter_eq_nil_iff.mpr (fun fv hfv => by
      rw [hall fv hfv, Bool.and_false]
      simp)]
    rfl
  | cons l0 ls =>
    have hne : renderLines S vals ≠ [] := by
      rw [hL]
      simp
    have hfree : ∀ l ∈ renderLines S vals, nlc ∉ l := by
      intro l hl
      obtain ⟨hlm, hlne⟩ := List.mem_filter.mp hl
      obtain ⟨fv, hfv, hfeq⟩ := List.mem_map.mp hlm
      have hgt := getText_eq fv.1 fv.2 (hsch fv hfv).2.1 (hsch fv hfv).2.2
      rw [← hfeq, hgt]
      by_cases hem : emitted fv.1 fv.2 = true
      · rw [if_pos hem]
        intro hmem
        rcases List.mem_append.mp hmem with hm | hm
        · exact (schemaOK_spec hschema fv.1 (List.of_mem_zip hfv).1).2.2.1 hm
        · rcases List.mem_cons.mp hm with hm | hm
          · exact absurd hm.symm (by decide)
          · exact (wf_enc_safe (hwfv fv hfv)).1 hm
      · rw [if_neg hem]
        simp
    show occKey k (joinC nlc (renderLines S vals)) = _
    rw [occKey_joinC hne hfree]
    exact occ_lines k (S.zip vals) hsch hk

theorem filterMap_flatten {α β : Type} (f : α → Option β)
    (L : List (List α)) :
    (L.flatten).filterMap f = (L.map (List.filterMap f)).flatten := by
  induction L with
  | nil => rfl
  | cons l L2 ih => simp [List.filterMap_append, ih]

theorem occKey_flatten_groups (k : Str) (gs : List Str) (hne : gs ≠ []) :
    occKey k (joinC nlc gs) = (gs.map (occKey k)).flatten := by
  unfold occKey
  rw [splitOnC_joinC_flatten nlc gs hne, filterMap_flatten, List.map_map]
  rfl

theorem occKey_spanOf (k : Str) (L : List (List Field × List Value))
    (hall : ∀ q ∈ L, schemaOK q.1 = true ∧ WFSec q.1 q.2 = true)
    (hk : '=' ∉ k) :
    occKey k (spanOf L) =
      (L.map (fun q => ((q.1.zip q.2).filter
        (fun fv => k == fv.1.key && emitted fv.1 fv.2)).map
          (fun fv => fv.1.type.castToText fv.2))).flatten := by
  unfold spanOf
  rw [occKey_flatten_groups k _ (by simp)]
  rw [List.map_append, List.map_map]
  simp only [List.map_cons, List.map_nil, occKey_empty, List.flatten_append,
    List.flatten_cons, List.flatten_nil, List.append_nil]
  congr 1
  apply List.map_congr_left
  intro q hq
  exact occKey_renderSection k q.1 q.2 (hall q hq).1 (hall q hq).2 hk

theorem filter_key_unique : ∀ (S : List Field) (vals : List Value)
    (f : Field) (v : Value), (S.map Field.key).Nodup →
    (f, v) ∈ S.zip vals →
    (S.zip vals).filter (fun fv => f.key == fv.1.key && emitted fv.1 fv.2) =
      if emitted f v then [(f, v)] else []
  | [], vals, f, v, hnd, hfv => by cases hfv
  | g :: S2, [], f, v, hnd, hfv => by cases hfv
  | g :: S2, w :: vals2, f, v, hnd, hfv => by
    obtain ⟨hnotin0, hnd2⟩ :
        (∀ x ∈ S2, ¬ x.key = g.key) ∧ (S2.map Field.key).Nodup := by
      simpa using hnd
    have hnotin : g.key ∉ S2.map Field.key := by
      intro hm
      obtain ⟨x, hx, he⟩ := List.mem_map.mp hm
      exact hnotin0 x hx he
    rw [show (g :: S2).zip (w :: vals2) = (g, w) :: S2.zip vals2 from rfl]
    rcases List.mem_cons.mp hfv with hhead | htail
    · have hfg : f = g := congrArg Prod.fst hhead
      have hvw : v = w := congrArg Prod.snd hhead
      subst hfg
      subst hvw
      rw [List.filter_cons]
      have htailnil : (S2.zip vals2).filter
          (fun fv => f.key == fv.1.key && emitted fv.1 fv.2) = [] := by
        rw [List.filter_eq_nil_iff]
        intro fv hfv2
        have hf2 : fv.1 ∈ S2 := (List.of_mem_zip hfv2).1
        have hne2 : f.key ≠ fv.1.key := by
          intro habs
          exact hnotin (habs ▸ List.mem_map_of_mem Field.key hf2)
        rw [Bool.and_eq_true]
        rintro ⟨h1, h2⟩
        exact hne2 (beq_iff_eq.mp h1)
      by_cases hem : emitted f v = true
      · rw [if_pos (show (f.key == f.key && emitted f v) = true from by
          rw [hem, beq_self_eq_true]; rfl)]
        rw [if_pos hem, htailnil]
      · rw [if_neg (show ¬ (f.key == f.key && emitted f v) = true from by
          intro h2
          rw [Bool.and_eq_true] at h2
          exact hem h2.2)]
        rw [if_neg hem, htailnil]
    · have hfS2 : f ∈ S2 := (List.of_mem_zip htail).1
      have hne2 : f.key ≠ g.key := by
        intro habs
        exact hnotin (habs ▸ List.mem_map_of_mem Field.key hfS2)
      rw [List.filter_cons]
      rw [if_neg (show ¬ (f.key == g.key && emitted g w) = true from by
        rw [Bool.and_eq_true]
        rintro ⟨h1, h2⟩
        exact hne2 (beq_iff_eq.mp h1))]
      exact filter_key_unique S2 vals2 f v hnd2 htail

theorem occ_span_unique : ∀ (L : List (List Field × List Value))
    (S : List Field) (vals : List Value) (f : Field) (v : Value),
    (∀ q ∈ L, schemaOK q.1 = true ∧ WFSec q.1 q.2 = true) →
    ((L.map (fun q => q.1.map Field.key)).flatten).Nodup →
    (S, vals) ∈ L → (f, v) ∈ S.zip vals → '=' ∉ f.key →
    occKey f.key (spanOf L) =
      if emitted f v then [f.type.castToText v] else []
  | [], S, vals, f, v, hall, hnd, hmem, hfv, hk => by cases hmem
  | q :: L2, S, vals, f, v, hall, hnd, hmem, hfv, hk => by
    rw [occKey_spanOf f.key (q :: L2) hall hk]
    rw [List.map_cons, List.flatten_cons]
    have hnd2 := hnd
    rw [List.map_cons, List.flatten_cons, List.nodup_append] at hnd2
    obtain ⟨hndq, hndrest, hdisj⟩ := hnd2
    rcases List.mem_cons.mp hmem with hhead | htail
    · have hSq : S = q.1 := congrArg Prod.fst hhead
      have hVq : vals = q.2 := congrArg Prod.snd hhead
      have hfq : (f, v) ∈ q.1.zip q.2 := by
        rw [← hSq, ← hVq]
        exact hfv
      have hown := filter_key_unique q.1 q.2 f v hndq hfq
      rw [hown]
      have hrest : ∀ q2 ∈ L2, ((q2.1.zip q2.2).filter
          (fun fv => f.key == fv.1.key && emitted fv.1 fv.2)).map
            (fun fv => fv.1.type.castToText fv.2) = [] := by
        intro q2 hq2
        rw [List.filter_eq_nil_iff.mpr]
        · rfl
        intro fv hfv2
        have hf2 : fv.1 ∈ q2.1 := (List.of_mem_zip hfv2).1
        have hkey_in : f.key ∈ q.1.map Field.key := by
          rw [← hSq]
          exact List.mem_map_of_mem Field.key (List.of_mem_zip hfv).1
        have hkey_out : f.key ∉ (L2.map (fun q => q.1.map Field.key)).flatten :=
          fun hmem2 => hdisj hkey_in hmem2
        have hne2 : f.key ≠ fv.1.key := by
          intro habs
          apply hkey_out
          exact List.mem_flatten.mpr ⟨q2.1.map Field.key,
            List.mem_map_of_mem _ hq2, habs ▸ List.mem_map_of_mem Field.key hf2⟩
        rw [Bool.and_eq_true]
        rintro ⟨h1, h2⟩
        exact hne2 (beq_iff_eq.mp h1)
      have hflat : (L2.map (fun q2 => ((q2.1.zip q2.2).filter
          (fun fv => f.key == fv.1.key && emitted fv.1 fv.2)).map
            (fun fv => fv.1.type.castToText fv.2))).flatten = [] := by
        rw [List.flatten_eq_nil_iff]
        intro l hl
        obtain ⟨q2, hq2, hleq⟩ := List.mem_map.mp hl
        rw [← hleq]
        exact hrest q2 hq2
      rw [hflat, List.append_nil]
      by_cases hem : emitted f v = true
      · rw [if_pos hem, if_pos hem]
        rfl
      · rw [if_neg hem, if_neg hem]
        rfl
    · have hkey_in : f.key ∈ (L2.map (fun q => q.1.map Field.key)).flatten := by
        refine List.mem_flatten.mpr ⟨S.map Field.key, ?_, ?_⟩
        · exact List.mem_map.mpr ⟨(S, vals), htail, rfl⟩
        · exact List.mem_map_of_mem Field.key (List.of_mem_zip hfv).1
      have hqnil : ((q.1.zip q.2).filter
          (fun fv => f.key == fv.1.key && emitted fv.1 fv.2)).map
            (fun fv => fv.1.type.castToText fv.2) = [] := by
        rw [List.filter_eq_nil_iff.mpr]
        · rfl
        intro fv hfv2
        have hf2 : fv.1 ∈ q.1 := (List.of_mem_zip hfv2).1
        have hne2 : f.key ≠ fv.1.key := by
          intro habs
          exact hdisj (habs ▸ List.mem_map_of_mem Field.key hf2) hkey_in
        rw [Bool.and_eq_true]
        rintro ⟨h1, h2⟩
        exact hne2 (beq_iff_eq.mp h1)
      rw [hqnil, List.nil_append]
      have hrec := occ_span_unique L2 S vals f v
        (fun q2 hq2 => hall q2 (List.mem_cons_of_mem _ hq2)) hndrest htail hfv hk
      rw [occKey_spanOf f.key L2
        (fun q2 hq2 => hall q2 (List.mem_cons_of_mem _ hq2)) hk] at hrec
      exact hrec

theorem gvt_round (L : List (List Field × List Value)) (S : List Field)
    (vals : List Value) (f : Field) (v : Value)
    (hall : ∀ q ∈ L, schemaOK q.1 = true ∧ WFSec q.1 q.2 = true)
    (hnd : ((L.map (fun q => q.1.map Field.key)).flatten).Nodup)
    (hmem : (S, vals) ∈ L) (hfv : (f, v) ∈ S.zip vals) :
    f.get_value_from_text (spanOf L) = .ok v := by
  have hk : '=' ∉ f.key :=
    (schemaOK_spec (hall (S, vals) hmem).1 f (List.of_mem_zip hfv).1).2.1
  have hWFv : WFVal f v = true :=
    (WFSec_spec (hall (S, vals) hmem).2).2 (f, v) hfv
  have hocc := occ_span_unique L S vals f v hall hnd hmem hfv hk
  rw [get_value_eq]
  by_cases hem : emitted f v = true
  · rw [if_pos hem] at hocc
    rw [if_neg (by rw [hocc]; rintro ⟨h1, h2⟩; simp at h1)]
    rw [hocc]
    exact castFromText_round hWFv
  · rw [if_neg hem] at hocc
    rw [if_neg (by rw [hocc]; rintro ⟨h1, h2⟩; simp at h1)]
    rw [hocc]
    rw [not_emitted_vnone hWFv (by
      cases he : emitted f v
      · rfl
      · exact absurd he hem)]

theorem forall₂_zip_of {R : Field → Value → Prop} :
    ∀ {S : List Field} {vals : List Value},
    vals.length = S.length → (∀ fv ∈ S.zip vals, R fv.1 fv.2) →
    List.Forall₂ R S vals
  | [], [], _, _ => .nil
  | [], w :: vals2, hlen, h => by simp at hlen
  | g :: S2, [], hlen, h => by simp at hlen
  | g :: S2, w :: vals2, hlen, h =>
    .cons (h (g, w) (by simp))
      (forall₂_zip_of (by simpa using hlen)
        (fun fv hfv => h fv (List.mem_cons_of_mem _ hfv)))

theorem mapM_gvt {sp : Str} {S : List Field} {vals : List Value}
    (h : List.Forall₂ (fun f v => f.get_value_from_text sp = .ok v) S vals) :
    S.mapM (fun f => f.get_value_from_text sp) = .ok vals := by
  induction h with
  | nil => rfl
  | cons hab htail ih =>
    rw [List.mapM_cons]
    rename_i a b l1 l2
    rw [hab, ih]
    rfl

theorem wf_enc_ne_nil {f : Field} {v : Value} (hWF : WFVal f v = true)
    (hv : ¬ v = Value.vnone) : ¬ f.type.castToText v = [] := by
  cases v with
  | vnone => exact absurd rfl hv
  | vstr s =>
    simp only [WFVal, Bool.and_eq_true, beq_iff_eq, decide_eq_true_eq,
      Bool.not_eq_true'] at hWF
    obtain ⟨⟨⟨⟨hty, hsne⟩, hstr⟩, hnl⟩, hinf⟩ := hWF
    rw [hty]
    show ¬ (if s.isEmpty then [] else strip s) = []
    rw [hsne]
    simp only [Bool.false_eq_true, if_false]
    rw [hstr]
    intro habs
    rw [habs] at hsne
    cases hsne
  | vdate a =>
    simp only [WFVal, Bool.and_eq_true, beq_iff_eq, decide_eq_true_eq] at hWF
    obtain ⟨⟨hty, hv2⟩, hy⟩ := hWF
    rw [hty]
    show ¬ Cast.date_to_str (some a) = []
    unfold Cast.date_to_str
    intro habs
    rcases List.append_eq_nil.mp habs with ⟨h1, h2⟩
    cases h2
  | vtime t =>
    simp only [WFVal, Bool.and_eq_true, beq_iff_eq] at hWF
    obtain ⟨hty, hv2⟩ := hWF
    rw [hty]
    show ¬ Cast.time_to_str (some t) = []
    unfold Cast.time_to_str
    intro habs
    rcases List.append_eq_nil.mp habs with ⟨h1, h2⟩
    cases h2
  | vamount a =>
    simp only [WFVal, Bool.and_eq_true, beq_iff_eq, decide_eq_true_eq] at hWF
    obtain ⟨hty, hpl⟩ := hWF
    rw [hty]
    show ¬ (pyDecStr a).map (fun c => if c = ',' then '.' else c) = []
    intro habs
    rw [List.map_eq_nil_iff] at habs
    unfold pyDecStr at habs
    rw [if_pos hpl] at habs
    rcases List.append_eq_nil.mp habs with ⟨h1, h2⟩
    exact plainBody_ne_nil a h2
  | vlist xs => simp [WFVal] at hWF

theorem validateSection_of_WF (S : List Field) (vals : List Value)
    (hWF : WFSec S vals = true) : validateSection S vals = .ok () := by
  have hno : ∀ fv ∈ S.zip vals, ¬ (badAttr fv.1 fv.2) = true := by
    intro fv hfv
    have hWFv := (WFSec_spec hWF).2 fv hfv
    unfold badAttr
    by_cases hreq : fv.1.required.toBank = true
    · have hv : ¬ fv.2 = Value.vnone := by
        intro habs
        rw [habs] at hWFv
        simp only [WFVal, Bool.and_eq_true, Bool.not_eq_true'] at hWFv
        rw [hWFv.1] at hreq
        cases hreq
      have henc := wf_enc_ne_nil hWFv hv
      rw [show (fv.1.type.castToText fv.2).isEmpty = false from by
        cases hc : fv.1.type.castToText fv.2
        · exact absurd hc henc
        · rfl]
      simp
    · rw [show fv.1.required.toBank = false from by
        cases hb : fv.1.required.toBank
        · rfl
        · exact absurd hb hreq]
      simp
  unfold validateSection
  rw [List.find?_eq_none.mpr hno]

theorem renderLines_ne_nil_of_req {S : List Field} {vals : List Value}
    {f : Field} {v : Value} (hfv : (f, v) ∈ S.zip vals)
    (hreq : f.required.toBank = true) (hflag : ¬ f.type = Ty.flag)
    (harr : ¬ f.type = Ty.array) (hkey : f.key ≠ []) :
    renderLines S vals ≠ [] := by
  intro habs
  have hem : emitted f v = true := by
    unfold emitted
    rw [hreq]
    rfl
  have hmem : getText f v ∈ renderLines S vals := by
    refine List.mem_filter.mpr ⟨List.mem_map_of_mem _ hfv, ?_⟩
    rw [getText_eq f v hflag harr, if_pos hem]
    cases hck : f.key with
    | nil => exact absurd hck hkey
    | cons a b => rfl
  rw [habs] at hmem
  cases hmem

theorem renderSection_head (f0 : Field) (S2 : List Field) (v0 : Value)
    (vals2 : List Value) (hem0 : emitted f0 v0 = true)
    (hflag : ¬ f0.type = Ty.flag) (harr : ¬ f0.type = Ty.array)
    (hne2 : renderLines S2 vals2 ≠ []) :
    renderSection (f0 :: S2) (v0 :: vals2) =
      (f0.key ++ '=' :: f0.type.castToText v0) ++
        nlc :: joinC nlc (renderLines S2 vals2) := by
  unfold renderSection renderLines
  rw [show ((f0 :: S2).zip (v0 :: vals2)) = (f0, v0) :: S2.zip vals2 from rfl]
  rw [List.map_cons, List.filter_cons]
  rw [getText_eq f0 v0 hflag harr, if_pos hem0]
  rw [if_pos (show (!(f0.key ++ '=' :: f0.type.castToText v0).isEmpty) = true
    from by cases f0.key <;> rfl)]
  exact joinC_cons nlc _ _ hne2

theorem joinC_append_last (c : Char) (y : Str) :
    ∀ (gs : List Str), gs ≠ [] →
    joinC c (gs ++ [y]) = joinC c gs ++ c :: y
  | [], h => absurd rfl h
  | [g], _ => rfl
  | g :: g2 :: gs, _ => by
    rw [show (g :: g2 :: gs) ++ [y] = g :: ((g2 :: gs) ++ [y]) from rfl]
    rw [joinC_cons c g ((g2 :: gs) ++ [y]) (by simp)]
    rw [joinC_append_last c y (g2 :: gs) (by simp)]
    rw [joinC_cons c g (g2 :: gs) (by simp)]
    simp

theorem splitFirst_self (p r : Str) (hp : p ≠ []) :
    splitFirst p (p ++ r) = some ([], r) := by
  cases p with
  | nil => exact absurd rfl hp
  | cons c cs =>
    show splitFirst (c :: cs) (c :: (cs ++ r)) = some ([], r)
    unfold splitFirst
    rw [if_pos (show ((c :: cs).isPrefixOf (c :: (cs ++ r))) = true from by
      rw [ List.isPrefixOf_iff_prefix]
      exact ⟨r, by simp⟩)]
    rw [show (c :: (cs ++ r)) = (c :: cs) ++ r from rfl, List.drop_left]

theorem docSpans_nil : docSpans [] = [] := by
  unfold docSpans
  rw [show splitFirst secDocMark [] = none from by decide]

theorem not_endmark_infix_renderSection (S : List Field) (vals : List Value)
    (hschema : schemaOK S = true) (hWF : WFSec S vals = true) :
    ¬ endDocMark <:+: renderSection S vals := by
  cases hL : renderLines S vals with
  | nil =>
    show ¬ endDocMark <:+: joinC nlc (renderLines S vals)
    rw [hL]
    exact not_infix_nil (by decide)
  | cons l0 ls =>
    show ¬ endDocMark <:+: joinC nlc (renderLines S vals)
    apply not_infix_joinC (by decide) ?_ (by decide)
    intro l hl
    obtain ⟨hlm, hlne⟩ := List.mem_filter.mp hl
    obtain ⟨fv, hfv, hfeq⟩ := List.mem_map.mp hlm
    have hs := schemaOK_spec hschema fv.1 (List.of_mem_zip hfv).1
    have hWFv := (WFSec_spec hWF).2 fv hfv
    rw [← hfeq, getText_eq fv.1 fv.2 hs.2.2.2.2.1 hs.2.2.2.2.2]
    by_cases hem : emitted fv.1 fv.2 = true
    · rw [if_pos hem]
      rw [show fv.1.key ++ '=' :: fv.1.type.castToText fv.2 =
        joinC '=' [fv.1.key, fv.1.type.castToText fv.2] from rfl]
      apply not_infix_joinC (by decide) ?_ (by decide)
      intro l2 hl2
      rcases List.mem_cons.mp hl2 with h | h
      · rw [h]
        exact hs.2.2.2.1
      · rcases List.mem_cons.mp h with h | h
        · rw [h]
          exact (wf_enc_safe hWFv).2
        · cases h
    · rw [if_neg hem]
      exact not_infix_nil (by decide)

theorem not_endmark_infix_spanOf (L : List (List Field × List Value))
    (hall : ∀ q ∈ L, schemaOK q.1 = true ∧ WFSec q.1 q.2 = true) :
    ¬ endDocMark <:+: spanOf L := by
  unfold spanOf
  apply not_infix_joinC (by decide) ?_ (by decide)
  intro g hg
  rcases List.mem_append.mp hg with h | h
  · obtain ⟨q, hq, hgeq⟩ := List.mem_map.mp h
    rw [← hgeq]
    exact not_endmark_infix_renderSection q.1 q.2 (hall q hq).1 (hall q hq).2
  · rcases List.mem_cons.mp h with h | h
    · rw [h]
      exact not_infix_nil (by decide)
    · cases h

theorem list_len4 : ∀ {l : List Value}, l.length = 4 →
    ∃ a b c e, l = [a, b, c, e]
  | [a, b, c, e], _ => ⟨a, b, c, e, rfl⟩
  | [], h => by simp at h
  | [a], h => by simp at h
  | [a, b], h => by simp at h
  | [a, b, c], h => by simp at h
  | a :: b :: c :: e :: f :: rest, h => by
    simp only [List.length_cons] at h
    omega

/-- C1 (amended).  Round trip for a fully attached document: when every
sub-section is present, every stored value is well-formed for its field
(`WFSec`: matching type, populated or optional-absent, stripped, free of
line breaks and of the end marker), and the section-begin field
`СекцияДокумент` — which the schema does not mark outbound-required — is
populated, serialization with `validate=true` succeeds, the produced text
carries exactly one document span, and `Document.from_text` returns exactly
the original document: every flat field and every field of each of the six
sub-sections comes back equal. -/
theorem C1_round_trip (d : Document) (r p rc pm tx sp : List Value)
    (hr : d.receipt = some r) (hp : d.payer = some p)
    (hrc : d.receiver = some rc) (hpm : d.payment = some pm)
    (htx : d.tax = some tx) (hsp : d.special = some sp)
    (hWFflat : WFSec documentSchema d.vals = true)
    (hWFr : WFSec receiptSchema r = true) (hWFp : WFSec payerSchema p = true)
    (hWFrc : WFSec receiverSchema rc = true)
    (hWFpm : WFSec paymentSchema pm = true)
    (hWFtx : WFSec taxSchema tx = true)
    (hWFsp : WFSec specialSchema sp = true)
    (h0 : ∃ s0, d.vals.getD 0 Value.vnone = Value.vstr s0) :
    Document.to_text d true =
      .ok (spanOf (docSections d.vals r p rc pm tx sp) ++ endDocMark) ∧
    docSpans (spanOf (docSections d.vals r p rc pm tx sp) ++ endDocMark) =
      [spanOf (docSections d.vals r p rc pm tx sp)] ∧
    Document.from_text
        (spanOf (docSections d.vals r p rc pm tx sp) ++ endDocMark) =
      .ok [d] := by
  obtain ⟨s0, h00⟩ := h0
  have hallq : ∀ q ∈ docSections d.vals r p rc pm tx sp,
      schemaOK q.1 = true ∧ WFSec q.1 q.2 = true := by
    intro q hq
    have hq2 : q = (documentSchema, d.vals) ∨ q = (receiptSchema, r) ∨
        q = (payerSchema, p) ∨ q = (receiverSchema, rc) ∨
        q = (paymentSchema, pm) ∨ q = (taxSchema, tx) ∨
        q = (specialSchema, sp) := by
      simpa [docSections] using hq
    rcases hq2 with rfl | rfl | rfl | rfl | rfl | rfl | rfl
    · exact ⟨(by decide : schemaOK documentSchema = true), hWFflat⟩
    · exact ⟨(by decide : schemaOK receiptSchema = true), hWFr⟩
    · exact ⟨(by decide : schemaOK payerSchema = true), hWFp⟩
    · exact ⟨(by decide : schemaOK receiverSchema = true), hWFrc⟩
    · exact ⟨(by decide : schemaOK paymentSchema = true), hWFpm⟩
    · exact ⟨(by decide : schemaOK taxSchema = true), hWFtx⟩
    · exact ⟨(by decide : schemaOK specialSchema = true), hWFsp⟩
  have hnd : (((docSections d.vals r p rc pm tx sp).map
      (fun q => q.1.map Field.key)).flatten).Nodup := by
    show ((documentSchema.map Field.key) ++
      ((receiptSchema.map Field.key) ++ ((payerSchema.map Field.key) ++
      ((receiverSchema.map Field.key) ++ ((paymentSchema.map Field.key) ++
      ((taxSchema.map Field.key) ++ ((specialSchema.map Field.key) ++
        []))))))).Nodup
    decide
  have hlen4 : d.vals.length = 4 := by
    have h2 := (WFSec_spec hWFflat).1
    simpa using h2
  obtain ⟨v0, v1, v2, v3, hvals⟩ := list_len4 hlen4
  have h00v : v0 = Value.vstr s0 := by
    rw [hvals] at h00
    exact h00
  subst h00v
  have hWFv0 : WFVal
      (mkF "СекцияДокумент" "Признак начала секции" Required.NONE Ty.text)
      (Value.vstr s0) = true :=
    (WFSec_spec hWFflat).2
      (mkF "СекцияДокумент" "Признак начала секции" Required.NONE Ty.text,
        Value.vstr s0)
      (by rw [hvals]; exact List.mem_cons_self _ _)
  have hs0 : s0.isEmpty = false ∧ strip s0 = s0 := by
    simp only [WFVal, Bool.and_eq_true, beq_iff_eq, decide_eq_true_eq,
      Bool.not_eq_true'] at hWFv0
    exact ⟨hWFv0.1.1.1.2, hWFv0.1.1.2⟩
  have henc0 : (mkF "СекцияДокумент" "Признак начала секции" Required.NONE
      Ty.text).type.castToText (Value.vstr s0) = s0 := by
    show (if s0.isEmpty then [] else strip s0) = s0
    rw [hs0.1]
    simp only [Bool.false_eq_true, if_false]
    exact hs0.2
  have hem0 : emitted
      (mkF "СекцияДокумент" "Признак начала секции" Required.NONE Ty.text)
      (Value.vstr s0) = true := by
    unfold emitted
    rw [henc0, hs0.1]
    rfl
  have hrl234 : renderLines
      [mkF "Номер" "Номер документа" Required.BOTH Ty.text,
       mkF "Дата" "Дата документа" Required.BOTH Ty.date,
       mkF "Сумма" "Сумма платежа" Required.BOTH Ty.amount]
      [v1, v2, v3] ≠ [] :=
    renderLines_ne_nil_of_req (List.mem_cons_self _ _) rfl (by decide)
      (by decide) (by decide)
  have hflat_render : renderSection documentSchema d.vals =
      (secDocMark ++ '=' :: s0) ++ nlc :: joinC nlc (renderLines
        [mkF "Номер" "Номер документа" Required.BOTH Ty.text,
         mkF "Дата" "Дата документа" Required.BOTH Ty.date,
         mkF "Сумма" "Сумма платежа" Required.BOTH Ty.amount]
        [v1, v2, v3]) := by
    rw [hvals]
    have hstep := renderSection_head
      (mkF "СекцияДокумент" "Признак начала секции" Required.NONE Ty.text)
      [mkF "Номер" "Номер документа" Required.BOTH Ty.text,
       mkF "Дата" "Дата документа" Required.BOTH Ty.date,
       mkF "Сумма" "Сумма платежа" Required.BOTH Ty.amount]
      (Value.vstr s0) [v1, v2, v3] hem0 (by decide) (by decide) hrl234
    rw [show documentSchema =
      (mkF "СекцияДокумент" "Признак начала секции" Required.NONE Ty.text) ::
      [mkF "Номер" "Номер документа" Required.BOTH Ty.text,
       mkF "Дата" "Дата документа" Required.BOTH Ty.date,
       mkF "Сумма" "Сумма платежа" Required.BOTH Ty.amount] from rfl]
    rw [hstep, henc0]
    rfl
  have hLmap : (docSections d.vals r p rc pm tx sp).map
      (fun q => renderSection q.1 q.2) =
      renderSection documentSchema d.vals ::
      [renderSection receiptSchema r, renderSection payerSchema p,
       renderSection receiverSchema rc, renderSection paymentSchema pm,
       renderSection taxSchema tx, renderSection specialSchema sp] := rfl
  have hW : spanOf (docSections d.vals r p rc pm tx sp) =
      joinC nlc ((docSections d.vals r p rc pm tx sp).map
        (fun q => renderSection q.1 q.2)) ++ [nlc] := by
    unfold spanOf
    rw [joinC_append_last nlc [] _ (by rw [hLmap]; simp)]
  have hval : validateSection documentSchema d.vals = .ok () :=
    validateSection_of_WF _ _ hWFflat
  have hsubs : subsectionStrs d =
      [renderSection receiptSchema r, renderSection payerSchema p,
       renderSection receiverSchema rc, renderSection paymentSchema pm,
       renderSection taxSchema tx, renderSection specialSchema sp] := by
    simp [subsectionStrs, hr, hp, hrc, hpm, htx, hsp]
  have hto : Document.to_text d true = .ok (renderSection documentSchema
      d.vals ++ nlc :: joinC nlc (subsectionStrs d ++ [endDocMark])) := by
    unfold Document.to_text sectionToText
    rw [if_pos rfl, hval]
    rfl
  have hTo2 : renderSection documentSchema d.vals ++
      nlc :: joinC nlc (subsectionStrs d ++ [endDocMark]) =
      spanOf (docSections d.vals r p rc pm tx sp) ++ endDocMark := by
    rw [hsubs, hW, hLmap]
    rw [joinC_append_last nlc endDocMark
      [renderSection receiptSchema r, renderSection payerSchema p,
       renderSection receiverSchema rc, renderSection paymentSchema pm,
       renderSection taxSchema tx, renderSection specialSchema sp] (by simp)]
    rw [joinC_cons nlc (renderSection documentSchema d.vals)
      [renderSection receiptSchema r, renderSection payerSchema p,
       renderSection receiverSchema rc, renderSection paymentSchema pm,
       renderSection taxSchema tx, renderSection specialSchema sp] (by simp)]
    simp [List.append_assoc]
  obtain ⟨w2, hw2⟩ : ∃ w2, joinC nlc ((docSections d.vals r p rc pm tx sp).map
      (fun q => renderSection q.1 q.2)) = secDocMark ++ w2 := by
    rw [hLmap]
    rw [joinC_cons nlc (renderSection documentSchema d.vals)
      [renderSection receiptSchema r, renderSection payerSchema p,
       renderSection receiverSchema rc, renderSection paymentSchema pm,
       renderSection taxSchema tx, renderSection specialSchema sp] (by simp)]
    rw [hflat_render]
    refine ⟨('=' :: s0) ++ (nlc :: joinC nlc (renderLines
      [mkF "Номер" "Номер документа" Required.BOTH Ty.text,
       mkF "Дата" "Дата документа" Required.BOTH Ty.date,
       mkF "Сумма" "Сумма платежа" Required.BOTH Ty.amount]
      [v1, v2, v3]) ++ nlc :: joinC nlc
      [renderSection receiptSchema r, renderSection payerSchema p,
       renderSection receiverSchema rc, renderSection paymentSchema pm,
       renderSection taxSchema tx, renderSection specialSchema sp]), ?_⟩
    simp [List.append_assoc]
  have hT2 : spanOf (docSections d.vals r p rc pm tx sp) ++ endDocMark =
      secDocMark ++ (w2 ++ nlc :: endDocMark) := by
    rw [hW, hw2]
    simp [List.append_assoc]
  have hsf1 : splitFirst secDocMark
      (spanOf (docSections d.vals r p rc pm tx sp) ++ endDocMark) =
      some ([], w2 ++ nlc :: endDocMark) := by
    rw [hT2]
    exact splitFirst_self _ _ (by decide)
  have hsuffix : (w2 ++ [nlc]) <:+ spanOf (docSections d.vals r p rc pm tx sp) := by
    refine ⟨secDocMark, ?_⟩
    rw [hW, hw2]
    simp [List.append_assoc]
  have hinf : ¬ endDocMark <:+: (w2 ++ [nlc]) := by
    intro habs
    exact (not_endmark_infix_spanOf _ hallq) (habs.trans hsuffix.isInfix)
  have hsf2 : splitFirst endDocMark (w2 ++ nlc :: endDocMark) =
      some (w2 ++ [nlc], []) := by
    rw [show w2 ++ nlc :: endDocMark = w2 ++ nlc :: (endDocMark ++ []) from by
      simp]
    exact splitFirst_boundary (by decide) (by decide) hinf []
  have hds : docSpans (spanOf (docSections d.vals r p rc pm tx sp) ++
      endDocMark) = [spanOf (docSections d.vals r p rc pm tx sp)] := by
    unfold docSpans
    rw [hsf1]
    simp only []
    rw [hsf2]
    simp only []
    rw [docSpans_nil]
    rw [show secDocMark ++ (w2 ++ [nlc]) =
      spanOf (docSections d.vals r p rc pm tx sp) from by
      rw [hW, hw2]
      simp [List.append_assoc]]
  have hsec : ∀ S2 vals2, (S2, vals2) ∈ docSections d.vals r p rc pm tx sp →
      sectionFromText S2
        (some (spanOf (docSections d.vals r p rc pm tx sp))) = .ok vals2 := by
    intro S2 vals2 hmem
    show S2.mapM (fun f => f.get_value_from_text
      (spanOf (docSections d.vals r p rc pm tx sp))) = .ok vals2
    apply mapM_gvt
    apply forall₂_zip_of (WFSec_spec (hallq _ hmem).2).1
    intro fv hfv
    exact gvt_round _ S2 vals2 fv.1 fv.2 hallq hnd hmem hfv
  have hparse : parseDoc (some (spanOf (docSections d.vals r p rc pm tx sp))) =
      .ok ⟨d.vals, some r, some p, some rc, some pm, some tx, some sp⟩ := by
    unfold parseDoc
    rw [hsec documentSchema d.vals (by simp [docSections])]
    rw [hsec receiptSchema r (by simp [docSections])]
    rw [hsec payerSchema p (by simp [docSections])]
    rw [hsec receiverSchema rc (by simp [docSections])]
    rw [hsec paymentSchema pm (by simp [docSections])]
    rw [hsec taxSchema tx (by simp [docSections])]
    rw [hsec specialSchema sp (by simp [docSections])]
    rfl
  have hdoc : (⟨d.vals, some r, some p, some rc, some pm, some tx, some sp⟩ :
      Document) = d := by
    obtain ⟨dv, dr, dp2, drc2, dpm2, dtx2, dsp2⟩ := d
    simp only at hr hp hrc hpm htx hsp ⊢
    rw [hr, hp, hrc, hpm, htx, hsp]
  have hfrom : Document.from_text
      (spanOf (docSections d.vals r p rc pm tx sp) ++ endDocMark) =
      .ok [(⟨d.vals, some r, some p, some rc, some pm, some tx, some sp⟩ :
        Document)] := by
    unfold Document.from_text
    rw [hds]
    show [spanOf (docSections d.vals r p rc pm tx sp)].mapM
      (fun sp2 => parseDoc (some sp2)) = _
    rw [List.mapM_cons, hparse]
    rfl
  refine ⟨hTo2 ▸ hto, hds, ?_⟩
  rw [hfrom, hdoc]

theorem C1_round_trip_witness :
    WFSec documentSchema sampleRoundDoc.vals = true ∧
    WFSec payerSchema
      [Value.vstr "40702810000000000001".toList, Value.vnone,
       Value.vstr "ООО Ромашка".toList, Value.vstr "7701234567".toList,
       Value.vstr "ООО Ромашка".toList, Value.vnone, Value.vnone, Value.vnone,
       Value.vstr "40702810000000000001".toList, Value.vstr "АО БАНК".toList,
       Value.vstr "МОСКВА".toList, Value.vstr "044525225".toList,
       Value.vstr "30101810400000000225".toList] = true ∧
    (∃ T, Document.to_text sampleRoundDoc true = .ok T ∧
      Document.from_text T = .ok [sampleRoundDoc]) := by
  refine ⟨by decide, by decide, ?_⟩
  have h := C1_round_trip sampleRoundDoc
    [Value.vdate ⟨2020, 1, 16⟩, Value.vtime ⟨10, 30, 0⟩,
     Value.vstr "Принято".toList]
    [Value.vstr "40702810000000000001".toList, Value.vnone,
     Value.vstr "ООО Ромашка".toList, Value.vstr "7701234567".toList,
     Value.vstr "ООО Ромашка".toList, Value.vnone, Value.vnone, Value.vnone,
     Value.vstr "40702810000000000001".toList, Value.vstr "АО БАНК".toList,
     Value.vstr "МОСКВА".toList, Value.vstr "044525225".toList,
     Value.vstr "30101810400000000225".toList]
    [Value.vstr "40702810000000000002".toList, Value.vnone,
     Value.vstr "ООО Лютик".toList, Value.vstr "7709876543".toList,
     Value.vstr "ООО Лютик".toList, Value.vnone, Value.vnone, Value.vnone,
     Value.vstr "40702810000000000002".toList, Value.vstr "ПАО БАНК2".toList,
     Value.vstr "МОСКВА".toList, Value.vstr "044525593".toList,
     Value.vstr "30101810200000000593".toList]
    [Value.vnone, Value.vstr "01".toList, Value.vnone,
     Value.vstr "Оплата по договору".toList, Value.vnone, Value.vnone,
     Value.vnone, Value.vnone, Value.vnone, Value.vnone]
    [Value.vstr "01".toList, Value.vstr "770101001".toList,
     Value.vstr "770101002".toList, Value.vstr "18210301000011000110".toList,
     Value.vstr "45382000".toList, Value.vstr "ТП".toList,
     Value.vstr "МС.01.2020".toList, Value.vstr "0".toList,
     Value.vstr "20.01.2020".toList, Value.vnone]
    [Value.vstr "5".toList, Value.vnone, Value.vnone, Value.vnone,
     Value.vnone, Value.vnone, Value.vnone, Value.vnone, Value.vnone,
     Value.vnone, Value.vnone]
    rfl rfl rfl rfl rfl rfl
    (by decide) (by decide) (by decide) (by decide) (by decide) (by decide)
    (by decide)
    ⟨"Платежное поручение".toList, rfl⟩
  exact ⟨_, h.1, h.2.2⟩


end CBE
